import Mathlib

/-!
# structprint: a shallow embedding of `struct_print.h`

The C header `src/struct_print.h` (built with `STRUCT_PRINT_ENABLE`, as `src/example.c`
does) is translated function by function.

Modelling conventions

* **Memory** is a flat list of bytes indexed by address; an address outside the list reads
  as `0`.  Every read reduces the stored number modulo 256, so each cell is a byte.
  Multi-byte objects are little-endian (the STM32 / x86 targets of the repository).
* **Pointers** are addresses (`Nat`); `NULL` is address `0`.  A nullable descriptor pointer
  is an `Option`.
* **The sink** (`STRUCT_PRINT_PRINTF`) receives one formatted write per call.  A function
  that prints returns the list of its writes in order (`Output`); the text that reaches
  the terminal is their concatenation (`render`).
* `size_t` is 64 bits wide (the LP64 host on which `src/example.c` is built) and the
  descriptor fields hold values below `2^64`.  The two `size_t` products of the array
  branch, `i * field->size` and `field->array_count * field->size`, wrap: they are explicit
  `% 2^64`.  The sum of an address and an offset is not reduced, since pointer arithmetic
  that leaves the address space is undefined in C.  The casts to `unsigned int` in the
  header and field labels are explicit `% 2^32`.
* `printf` conversions (`%u`, `%d`, `%0wX`, `%s`, `%.6f`) are modelled below as specified by
  ISO C with IEEE-754 binary32/binary64 and round-half-to-even decimal conversion.
-/

namespace StructPrint

/-! ## Configuration (struct_print.h, lines 48-68) -/

/-- `STRUCT_PRINT_STRING_MAX_LEN` (line 60). -/
def STRUCT_PRINT_STRING_MAX_LEN : Nat := 512

/-- `STRUCT_PRINT_HEX_BYTES` (line 63). -/
def STRUCT_PRINT_HEX_BYTES : Nat := 16

/-- `STRUCT_PRINT_INDENT_SPACES` (line 66). -/
def STRUCT_PRINT_INDENT_SPACES : Nat := 2

/-! ## Descriptor model (struct_print.h, lines 116-160) -/

/-- The enumeration `FieldType`.  A C object of enumeration type can hold any `int`;
`FIELD_TYPE_INVALID code` stands for a stored value outside the eleven enumerators. -/
inductive FieldType where
  | FIELD_TYPE_U8
  | FIELD_TYPE_U16
  | FIELD_TYPE_U32
  | FIELD_TYPE_S8
  | FIELD_TYPE_S16
  | FIELD_TYPE_S32
  | FIELD_TYPE_FLOAT
  | FIELD_TYPE_DOUBLE
  | FIELD_TYPE_ARRAY
  | FIELD_TYPE_STRING
  | FIELD_TYPE_STRUCT
  | FIELD_TYPE_INVALID (code : Nat)
  deriving DecidableEq, Repr

open FieldType

mutual
/-- `FieldDescriptor` (lines 142-149): name, type, offset, size, array_count, nested_desc. -/
inductive FieldDescriptor where
  | mk (name : String) (type : FieldType) (offset : Nat) (size : Nat) (array_count : Nat)
      (nested_desc : Option StructDescriptor) : FieldDescriptor
/-- `StructDescriptor` (lines 155-160): struct_name, struct_size and the field table;
`field_count` is the length of the table, as `END_STRUCT_DESC` computes it. -/
inductive StructDescriptor where
  | mk (struct_name : String) (struct_size : Nat) (fields : List FieldDescriptor) :
      StructDescriptor
end

/-- Field `name`. -/
def FieldDescriptor.name : FieldDescriptor → String
  | .mk n _ _ _ _ _ => n

/-- Field `type`. -/
def FieldDescriptor.type : FieldDescriptor → FieldType
  | .mk _ t _ _ _ _ => t

/-- Field `offset`. -/
def FieldDescriptor.offset : FieldDescriptor → Nat
  | .mk _ _ o _ _ _ => o

/-- Field `size`. -/
def FieldDescriptor.size : FieldDescriptor → Nat
  | .mk _ _ _ s _ _ => s

/-- Field `array_count`. -/
def FieldDescriptor.array_count : FieldDescriptor → Nat
  | .mk _ _ _ _ c _ => c

/-- Field `nested_desc`. -/
def FieldDescriptor.nested_desc : FieldDescriptor → Option StructDescriptor
  | .mk _ _ _ _ _ d => d

/-- Field `struct_name`. -/
def StructDescriptor.struct_name : StructDescriptor → String
  | .mk n _ _ => n

/-- Field `struct_size`. -/
def StructDescriptor.struct_size : StructDescriptor → Nat
  | .mk _ s _ => s

/-- Field `fields`. -/
def StructDescriptor.fields : StructDescriptor → List FieldDescriptor
  | .mk _ _ fs => fs

/-- Field `field_count`. -/
def StructDescriptor.field_count (d : StructDescriptor) : Nat := d.fields.length

/-! ## Memory and the sink -/

/-- Flat byte memory, indexed by address. -/
abbrev Memory := List Nat

/-- The writes handed to the sink, in order. -/
abbrev Output := List String

/-- The text that reaches the sink's destination. -/
def render (out : Output) : String := String.join out

/-- `*(const u8*)addr`. -/
def read_u8 (mem : Memory) (addr : Nat) : Nat := mem.getD addr 0 % 256

/-- `*(const u16*)addr`, little-endian. -/
def read_u16 (mem : Memory) (addr : Nat) : Nat :=
  read_u8 mem addr + 256 * read_u8 mem (addr + 1)

/-- `*(const u32*)addr`, little-endian. -/
def read_u32 (mem : Memory) (addr : Nat) : Nat :=
  read_u16 mem addr + 65536 * read_u16 mem (addr + 2)

/-- The eight bytes of a `double` at `addr` as one little-endian number. -/
def read_u64 (mem : Memory) (addr : Nat) : Nat :=
  read_u32 mem addr + 4294967296 * read_u32 mem (addr + 4)

/-- Two's-complement reading of a `w`-bit pattern. -/
def to_signed (w : Nat) (x : Nat) : Int :=
  if x < 2 ^ (w - 1) then (x : Int) else (x : Int) - (2 : Int) ^ w

/-- `*(const s8*)addr`. -/
def read_s8 (mem : Memory) (addr : Nat) : Int := to_signed 8 (read_u8 mem addr)

/-- `*(const s16*)addr`. -/
def read_s16 (mem : Memory) (addr : Nat) : Int := to_signed 16 (read_u16 mem addr)

/-- `*(const s32*)addr`. -/
def read_s32 (mem : Memory) (addr : Nat) : Int := to_signed 32 (read_u32 mem addr)

/-- The `length` bytes of the buffer `data[0 .. length-1]`. -/
def read_bytes (mem : Memory) (data : Nat) (length : Nat) : List Nat :=
  (List.range length).map (fun i => read_u8 mem (data + i))

/-- The bytes a `%s` conversion consumes at `addr`: everything up to, and not including,
the first zero byte.  Nothing bounds the scan except that first zero byte. -/
def c_string_bytes (mem : Memory) (addr : Nat) : List Nat :=
  ((mem.drop addr).map (fun b => b % 256)).takeWhile (fun b => b ≠ 0)

/-- Bytes written to the sink as characters. -/
def bytes_to_string (bs : List Nat) : String := String.mk (bs.map Char.ofNat)

/-! ## printf conversions -/

/-- The digit character of `d < 16`, upper case. -/
def digit_char (d : Nat) : Char :=
  if d < 10 then Char.ofNat (48 + d) else Char.ofNat (55 + d)

/-- Digits of `n` in `base`, least significant first; `fuel` bounds the digit count. -/
def digits_rev (base : Nat) : Nat → Nat → List Char
  | 0, _ => []
  | fuel + 1, n =>
    digit_char (n % base) :: (if n / base = 0 then [] else digits_rev base fuel (n / base))

/-- Digits of `n` in `base`, most significant first, at least one digit. -/
def nat_digits (base : Nat) (n : Nat) : List Char := (digits_rev base (n + 1) n).reverse

/-- `%u`. -/
def fmt_u (n : Nat) : String := String.mk (nat_digits 10 n)

/-- `%d`. -/
def fmt_d (i : Int) : String :=
  if i < 0 then String.mk ('-' :: nat_digits 10 i.natAbs) else String.mk (nat_digits 10 i.natAbs)

/-- `%0wX`: upper-case hexadecimal, zero-padded on the left to at least `w` digits. -/
def fmt_X (w : Nat) (n : Nat) : String :=
  String.mk (List.replicate (w - (nat_digits 16 n).length) '0' ++ nat_digits 16 n)

/-- Rounding of `num / den` to the nearest integer, ties to even. -/
def round_half_even (num den : Nat) : Nat :=
  let q := num / den
  let r := num % den
  if 2 * r < den then q
  else if den < 2 * r then q + 1
  else if q % 2 = 0 then q else q + 1

/-- The number of millionths printed by `%.6f` for the magnitude `num / den`. -/
def micro_units (num den : Nat) : Nat := round_half_even (num * 10 ^ 6) den

/-- Six fraction digits. -/
def fmt_frac6 (n : Nat) : String :=
  String.mk (List.replicate (6 - (nat_digits 10 n).length) '0' ++ nat_digits 10 n)

/-- `%.6f` of the finite value `(-1)^neg * num / den`. -/
def fmt_f6 (neg : Bool) (num den : Nat) : String :=
  (if neg then "-" else "") ++ fmt_u (micro_units num den / 10 ^ 6) ++ "." ++
    fmt_frac6 (micro_units num den % 10 ^ 6)

/-- Sign bit of a binary32 pattern. -/
def f32_sign (bits : Nat) : Nat := bits / 2 ^ 31 % 2

/-- Biased exponent of a binary32 pattern. -/
def f32_exp (bits : Nat) : Nat := bits / 2 ^ 23 % 256

/-- Fraction field of a binary32 pattern. -/
def f32_frac (bits : Nat) : Nat := bits % 2 ^ 23

/-- Common denominator of the finite binary32 magnitudes. -/
def f32_den : Nat := 2 ^ 149

/-- Numerator of the magnitude of a finite binary32 over the denominator `f32_den`. -/
def f32_num (bits : Nat) : Nat :=
  (if f32_exp bits = 0 then f32_frac bits else 2 ^ 23 + f32_frac bits) *
    2 ^ (max (f32_exp bits) 1 - 1)

/-- `printf("%.6f", val)` for the `float` with bit pattern `bits`. -/
def fmt_float (bits : Nat) : String :=
  if f32_exp bits = 255 then
    (if f32_sign bits = 1 then "-" else "") ++ (if f32_frac bits = 0 then "inf" else "nan")
  else fmt_f6 (f32_sign bits = 1) (f32_num bits) f32_den

/-- Sign bit of a binary64 pattern. -/
def f64_sign (bits : Nat) : Nat := bits / 2 ^ 63 % 2

/-- Biased exponent of a binary64 pattern. -/
def f64_exp (bits : Nat) : Nat := bits / 2 ^ 52 % 2048

/-- Fraction field of a binary64 pattern. -/
def f64_frac (bits : Nat) : Nat := bits % 2 ^ 52

/-- Common denominator of the finite binary64 magnitudes. -/
def f64_den : Nat := 2 ^ 1074

/-- Numerator of the magnitude of a finite binary64 over the denominator `f64_den`. -/
def f64_num (bits : Nat) : Nat :=
  (if f64_exp bits = 0 then f64_frac bits else 2 ^ 52 + f64_frac bits) *
    2 ^ (max (f64_exp bits) 1 - 1)

/-- `printf("%.6f", val)` for the `double` with bit pattern `bits`. -/
def fmt_double (bits : Nat) : String :=
  if f64_exp bits = 255 * 8 + 7 then
    (if f64_sign bits = 1 then "-" else "") ++ (if f64_frac bits = 0 then "inf" else "nan")
  else fmt_f6 (f64_sign bits = 1) (f64_num bits) f64_den

/-! ## Helpers of the engine (struct_print.h, lines 396-470) -/

/-- The third loop of `is_printable_string` (lines 421-427): walk the buffer while the
current byte is not zero, fail on a byte outside `[0x20, 0x7E]`, and answer `i > 0` where
the walk stops. -/
def printable_prefix_scan : List Nat → Nat → Nat
  | [], i => if i > 0 then 1 else 0
  | b :: rest, i =>
    if b = 0 then (if i > 0 then 1 else 0)
    else if b < 0x20 ∨ b > 0x7E then 0
    else printable_prefix_scan rest (i + 1)

/-- `is_printable_string(data, length)` (lines 396-428). -/
def is_printable_string (mem : Memory) (data : Nat) (length : Nat) : Nat :=
  if length = 0 then 0
  else
    let null_found := (read_bytes mem data length).any (fun b => b = 0)
    if ¬ null_found then
      if (read_bytes mem data length).any (fun b => b < 0x20 ∨ b > 0x7E) then 0 else 1
    else printable_prefix_scan (read_bytes mem data length) 0

/-- `print_indent(indent_level)` (lines 434-439): one write of a single space per
iteration. -/
def print_indent (indent_level : Nat) : Output :=
  List.replicate (indent_level * STRUCT_PRINT_INDENT_SPACES) " "

/-- `print_hex_memory(data, length, max_bytes, indent_level)` (lines 448-470), with
`STRUCT_PRINT_SHOW_HEX_MEMORY` set. -/
def print_hex_memory (mem : Memory) (data : Nat) (length max_bytes : Nat)
    (indent_level : Nat) : Output :=
  let bytes_to_show := if length < max_bytes then length else max_bytes
  print_indent indent_level ++ ["        └─ Memory: "] ++
    (List.range bytes_to_show).flatMap (fun i =>
      [fmt_X 2 (read_u8 mem (data + i)) ++ " "] ++
        (if (i + 1) % 16 = 0 ∧ i + 1 < bytes_to_show then
          ["\n"] ++ print_indent indent_level ++ ["                   "]
        else [])) ++
    (if length > max_bytes then ["..."] else []) ++ ["\n"]

/-! ## Field rendering (struct_print.h, lines 551-669) -/

/-- The `switch` inside the array loop (lines 571-593): one element at `elem_addr`. -/
def print_array_element (type : FieldType) (mem : Memory) (elem_addr : Nat) : String :=
  match type with
  | FIELD_TYPE_U8 => fmt_u (read_u8 mem elem_addr)
  | FIELD_TYPE_U16 => fmt_u (read_u16 mem elem_addr)
  | FIELD_TYPE_U32 => fmt_u (read_u32 mem elem_addr)
  | FIELD_TYPE_S8 => fmt_d (read_s8 mem elem_addr)
  | FIELD_TYPE_S16 => fmt_d (read_s16 mem elem_addr)
  | FIELD_TYPE_S32 => fmt_d (read_s32 mem elem_addr)
  | _ => "?"

/-- The array branch of `print_field_value` (the body of the `if` at lines 556-608).  The
products `i * field->size` (line 569) and `field->array_count * field->size` (line 605) are
`size_t` products and wrap modulo `2^64`. -/
def print_field_array (type : FieldType) (size array_count : Nat) (mem : Memory)
    (field_addr : Nat) (indent_level : Nat) : Output :=
  if type = FIELD_TYPE_STRING ∨
      (type = FIELD_TYPE_U8 ∧ is_printable_string mem field_addr array_count ≠ 0) then
    ["\"" ++ bytes_to_string (c_string_bytes mem field_addr) ++ "\"\n"] ++
      print_hex_memory mem field_addr array_count STRUCT_PRINT_HEX_BYTES indent_level
  else
    let max_show := if array_count > 16 then 16 else array_count
    ["["] ++
      (List.range max_show).flatMap (fun i =>
        [print_array_element type mem (field_addr + (i * size) % 2 ^ 64)] ++
          (if i < max_show - 1 then [", "] else [])) ++
      (if array_count > max_show then [", ..."] else []) ++
      ["]\n"] ++
      print_hex_memory mem field_addr ((array_count * size) % 2 ^ 64) STRUCT_PRINT_HEX_BYTES
        indent_level

mutual
/-- `struct_print_internal(var_name, struct_data, desc, indent_level)` (lines 487-543), with
`STRUCT_PRINT_SHOW_ADDRESS` set. -/
def struct_print_internal (var_name : Option String) (mem : Memory) (struct_data : Nat)
    (desc : Option StructDescriptor) (indent_level : Nat) : Output :=
  match desc with
  | none => ["Error: NULL pointer!\n"]
  | some (.mk struct_name struct_size fields) =>
    if struct_data = 0 then ["Error: NULL pointer!\n"]
    else
      print_indent indent_level ++ ["========================================\n"] ++
      print_indent indent_level ++
      [match var_name with
        | some v => if v ≠ "" then "Struct: " ++ v ++ " [" ++ struct_name ++ "]\n"
                    else "Struct: [" ++ struct_name ++ "]\n"
        | none => "Struct: [" ++ struct_name ++ "]\n"] ++
      print_indent indent_level ++
      ["Address: 0x" ++ fmt_X 8 (struct_data % 2 ^ 32) ++ "\n"] ++
      print_indent indent_level ++
      ["Size: " ++ fmt_u (struct_size % 2 ^ 32) ++ " bytes\n"] ++
      print_indent indent_level ++ ["========================================\n"] ++
      struct_print_fields fields mem struct_data indent_level ++
      print_indent indent_level ++ ["========================================\n"]
/-- The field loop of `struct_print_internal` (lines 519-539) over the fields not yet
printed; `i < desc->field_count - 1` holds exactly when a field follows. -/
def struct_print_fields (fields : List FieldDescriptor) (mem : Memory) (struct_data : Nat)
    (indent_level : Nat) : Output :=
  match fields with
  | [] => []
  | field :: rest =>
    print_indent indent_level ++
    ["  [+0x" ++ fmt_X 4 (field.offset % 2 ^ 32) ++ "] "] ++
    [field.name ++ ": "] ++
    print_field_value field mem struct_data indent_level ++
    (if field.type ≠ FIELD_TYPE_STRUCT ∧ 0 < rest.length then ["\n"] else []) ++
    struct_print_fields rest mem struct_data indent_level
/-- `print_field_value(field, struct_base, indent_level)` (lines 551-669). -/
def print_field_value (field : FieldDescriptor) (mem : Memory) (struct_base : Nat)
    (indent_level : Nat) : Output :=
  match field with
  | .mk _ type offset size array_count nested_desc =>
    let field_addr := struct_base + offset
    if array_count > 0 ∧ type ≠ FIELD_TYPE_STRUCT then
      print_field_array type size array_count mem field_addr indent_level
    else
      match type with
      | FIELD_TYPE_U8 =>
        [fmt_u (read_u8 mem field_addr) ++ " (0x" ++ fmt_X 2 (read_u8 mem field_addr) ++ ")\n"] ++
          print_hex_memory mem field_addr 1 STRUCT_PRINT_HEX_BYTES indent_level
      | FIELD_TYPE_U16 =>
        [fmt_u (read_u16 mem field_addr) ++ " (0x" ++ fmt_X 4 (read_u16 mem field_addr) ++ ")\n"] ++
          print_hex_memory mem field_addr 2 STRUCT_PRINT_HEX_BYTES indent_level
      | FIELD_TYPE_U32 =>
        [fmt_u (read_u32 mem field_addr) ++ " (0x" ++ fmt_X 8 (read_u32 mem field_addr) ++ ")\n"] ++
          print_hex_memory mem field_addr 4 STRUCT_PRINT_HEX_BYTES indent_level
      | FIELD_TYPE_S8 =>
        [fmt_d (read_s8 mem field_addr) ++ " (0x" ++ fmt_X 2 (read_u8 mem field_addr) ++ ")\n"] ++
          print_hex_memory mem field_addr 1 STRUCT_PRINT_HEX_BYTES indent_level
      | FIELD_TYPE_S16 =>
        [fmt_d (read_s16 mem field_addr) ++ " (0x" ++ fmt_X 4 (read_u16 mem field_addr) ++ ")\n"] ++
          print_hex_memory mem field_addr 2 STRUCT_PRINT_HEX_BYTES indent_level
      | FIELD_TYPE_S32 =>
        [fmt_d (read_s32 mem field_addr) ++ " (0x" ++ fmt_X 8 (read_u32 mem field_addr) ++ ")\n"] ++
          print_hex_memory mem field_addr 4 STRUCT_PRINT_HEX_BYTES indent_level
      | FIELD_TYPE_FLOAT =>
        [fmt_float (read_u32 mem field_addr) ++ "\n"] ++
          print_hex_memory mem field_addr 4 STRUCT_PRINT_HEX_BYTES indent_level
      | FIELD_TYPE_DOUBLE =>
        [fmt_double (read_u64 mem field_addr) ++ "\n"] ++
          print_hex_memory mem field_addr 8 STRUCT_PRINT_HEX_BYTES indent_level
      | FIELD_TYPE_STRUCT =>
        match nested_desc with
        | some _ =>
          ["\n"] ++ struct_print_internal (some "") mem field_addr nested_desc (indent_level + 1)
        | none => ["<nested struct, no descriptor>\n"]
      | _ => ["<unknown type>\n"]
end

/-- `struct_print(var_name, struct_data, desc)` (lines 684-686). -/
def struct_print (var_name : Option String) (mem : Memory) (struct_data : Nat)
    (desc : Option StructDescriptor) : Output :=
  struct_print_internal var_name mem struct_data desc 0

/-! ## Specification-side predicates -/

/-- Printable ASCII range test used by the heuristic. -/
def printable (b : Nat) : Prop := 0x20 ≤ b ∧ b ≤ 0x7E

instance (b : Nat) : Decidable (printable b) := by unfold printable; infer_instance

/-- The classification rule of the specification, on the bytes `data[0 .. L-1]`. -/
def text_rule (mem : Memory) (data L : Nat) : Prop :=
  0 < L ∧
    (((∀ i, i < L → read_u8 mem (data + i) ≠ 0) ∧
        (∀ i, i < L → printable (read_u8 mem (data + i)))) ∨
      (∃ k, k < L ∧ read_u8 mem (data + k) = 0 ∧
        (∀ j, j < k → read_u8 mem (data + j) ≠ 0) ∧
        (∀ j, j < k → printable (read_u8 mem (data + j))) ∧ k ≠ 0))

/-! ## Re-reading printed numbers -/

/-- Value of a digit character written by `digit_char`. -/
def digit_val (c : Char) : Nat :=
  if c.toNat < 58 then c.toNat - 48 else c.toNat - 55

/-- The number a digit string denotes in `base`, most significant digit first. -/
def parse_digits (base : Nat) (cs : List Char) : Nat :=
  cs.foldl (fun acc c => acc * base + digit_val c) 0

/-- The integer a `%d` / `%u` text denotes. -/
def parse_decimal (cs : List Char) : Int :=
  if cs.head? = some '-' then - (parse_digits 10 cs.tail : Int) else (parse_digits 10 cs : Int)

/-- Re-parse the decimal part of a scalar value text (everything before the first blank)
as a `w`-bit pattern. -/
def reparse_decimal (w : Nat) (text : String) : Nat :=
  (parse_decimal (text.data.takeWhile (fun c => c ≠ ' ')) % (2 : Int) ^ w).toNat

/-- Re-parse the hexadecimal part of a scalar value text (between `x` and `)`). -/
def reparse_hex (text : String) : Nat :=
  parse_digits 16 (((text.data.dropWhile (fun c => c ≠ 'x')).drop 1).takeWhile
    (fun c => c ≠ ')'))

/-! ## Integer scalars, as the specification words them -/

/-- Declared width in bits of an integer tag; 0 for every other tag. -/
def int_width : FieldType → Nat
  | FIELD_TYPE_U8 => 8
  | FIELD_TYPE_S8 => 8
  | FIELD_TYPE_U16 => 16
  | FIELD_TYPE_S16 => 16
  | FIELD_TYPE_U32 => 32
  | FIELD_TYPE_S32 => 32
  | _ => 0

/-- Whether an integer tag is one of the signed ones. -/
def int_signed : FieldType → Bool
  | FIELD_TYPE_S8 => true
  | FIELD_TYPE_S16 => true
  | FIELD_TYPE_S32 => true
  | _ => false

/-- The unsigned bit pattern of an integer field stored at `addr`. -/
def int_pattern (t : FieldType) (mem : Memory) (addr : Nat) : Nat :=
  match int_width t with
  | 8 => read_u8 mem addr
  | 16 => read_u16 mem addr
  | 32 => read_u32 mem addr
  | _ => 0

/-- The value text the specification asks for: decimal value, then the bit pattern in
`w/4` hexadecimal digits between `(0x` and `)`. -/
def scalar_int_text (t : FieldType) (p : Nat) : String :=
  (if int_signed t then fmt_d (to_signed (int_width t) p) else fmt_u p) ++ " (0x" ++
    fmt_X (int_width t / 4) p ++ ")\n"

/-- The value text of a rendered field: the first write of `print_field_value`. -/
def value_text (out : Output) : String := out.headD ""

/-! ## Re-reading a printed `%.6f` text -/

/-- Re-parse a `%.6f` text: whether it starts with a minus sign, and the number of
millionths its digits denote (integer part and six fraction digits read as one number). -/
def reparse_fixed6 (text : String) : Bool × Nat :=
  (decide (text.data.head? = some '-'),
    parse_digits 10 (text.data.filter (fun c => c ≠ '-' ∧ c ≠ '.' ∧ c ≠ '\n')))

/-! ## Recognising the writes of the hex dump -/

/-- Whether a write is one byte rendering of the dump: two upper-case hexadecimal digits
followed by one space. -/
def is_byte_rendering (w : String) : Bool :=
  match w.data with
  | [a, b, c] =>
    decide (a ∈ "0123456789ABCDEF".data) && decide (b ∈ "0123456789ABCDEF".data) && c == ' '
  | _ => false

/-! ## The field loop, iteration by iteration -/

/-- One iteration of the field loop of `struct_print_internal` (lines 520-538), for the
field at index `i` of a descriptor with `field_count` fields: indentation, offset tag,
name, value, and the blank line between fields. -/
def field_iteration (field : FieldDescriptor) (i field_count : Nat) (mem : Memory)
    (struct_data indent_level : Nat) : Output :=
  print_indent indent_level ++
    ["  [+0x" ++ fmt_X 4 (field.offset % 2 ^ 32) ++ "] "] ++
    [field.name ++ ": "] ++
    print_field_value field mem struct_data indent_level ++
    (if field.type ≠ FIELD_TYPE_STRUCT ∧ i < field_count - 1 then ["\n"] else [])

/-- The five header lines of a composite (lines 496-516), each after its indentation. -/
def struct_header (var_name : Option String) (struct_data : Nat) (struct_name : String)
    (struct_size : Nat) (indent_level : Nat) : Output :=
  print_indent indent_level ++ ["========================================\n"] ++
    print_indent indent_level ++
    [match var_name with
      | some v => if v ≠ "" then "Struct: " ++ v ++ " [" ++ struct_name ++ "]\n"
                  else "Struct: [" ++ struct_name ++ "]\n"
      | none => "Struct: [" ++ struct_name ++ "]\n"] ++
    print_indent indent_level ++
    ["Address: 0x" ++ fmt_X 8 (struct_data % 2 ^ 32) ++ "\n"] ++
    print_indent indent_level ++
    ["Size: " ++ fmt_u (struct_size % 2 ^ 32) ++ " bytes\n"] ++
    print_indent indent_level ++ ["========================================\n"]

/-! ## Counting the composites of a descriptor tree and the frame lines of an output -/

mutual
/-- Number of composite values `struct_print_internal` visits for a descriptor: the
composite itself and, recursively, one for every nested-composite field that carries a
nested descriptor. -/
def composites_visited : StructDescriptor → Nat
  | .mk _ _ fields => 1 + composites_visited_fields fields
/-- Composites visited below the fields of a field table. -/
def composites_visited_fields : List FieldDescriptor → Nat
  | [] => 0
  | field :: rest => composites_visited_field field + composites_visited_fields rest
/-- Composites visited below one field. -/
def composites_visited_field : FieldDescriptor → Nat
  | .mk _ type _ _ _ nested_desc =>
    if type = FIELD_TYPE_STRUCT then
      match nested_desc with
      | some d => composites_visited d
      | none => 0
    else 0
end

/-- Whether a write is a header line: it starts with `Struct: ` and ends with a line
break. -/
def is_header_line (w : String) : Bool :=
  "Struct: ".data.isPrefixOf w.data && w.data.getLast? == some '\n'

/-- Whether a write is a delimiter line (forty `=` and a line break). -/
def is_delimiter_line (w : String) : Bool :=
  w == "========================================\n"

/-- A text whose first character exists and is neither `S` nor `=`; such a write is
neither a header line nor a delimiter line. -/
def plain_head (s : String) : Prop :=
  ∃ c, s.data.head? = some c ∧ c ≠ 'S' ∧ c ≠ '='

/-- An output none of whose writes is a header line or a delimiter line. -/
def frame_free (out : Output) : Prop :=
  ∀ w, w ∈ out → is_header_line w = false ∧ is_delimiter_line w = false

/-! ## One-pass reference for the text heuristic -/

/-- The reference classification of a byte buffer: take the longest prefix without a zero
byte (the whole buffer if it has none); the buffer is text exactly when that prefix is not
empty and all its bytes lie in `[0x20, 0x7E]`. -/
def is_printable_string_ref (buf : List Nat) : Nat :=
  if !(buf.takeWhile (fun b => b ≠ 0)).isEmpty &&
      (buf.takeWhile (fun b => b ≠ 0)).all (fun b => decide (0x20 ≤ b ∧ b ≤ 0x7E)) then 1
  else 0

/-! ## Lines of the hex dump -/

/-- Cut a list of byte renderings into lines of 16: every line but the last holds 16
entries; `fuel` bounds the number of cuts. -/
def lines_of_16 : Nat → List String → List (List String)
  | 0, l => [l]
  | fuel + 1, l =>
    if l.length ≤ 16 then [l] else l.take 16 :: lines_of_16 fuel (l.drop 16)

/-- The lines of a dump that shows the byte renderings `l`. -/
def dump_lines (l : List String) : List (List String) := lines_of_16 l.length l

/-- The renderings of the first `m` bytes at `data`, each two hexadecimal digits and a
space, in memory order. -/
def byte_renderings (mem : Memory) (data m : Nat) : List String :=
  (List.range m).map (fun i => fmt_X 2 (read_u8 mem (data + i)) ++ " ")

/-! ## Recursion depth -/

mutual
/-- Nesting depth of a descriptor tree: 0 when no field is a nested composite with a
descriptor, otherwise one more than the deepest nested descriptor. -/
def nesting_depth : StructDescriptor → Nat
  | .mk _ _ fields => nesting_depth_fields fields
/-- Nesting depth contributed by a field table. -/
def nesting_depth_fields : List FieldDescriptor → Nat
  | [] => 0
  | field :: rest => max (nesting_depth_field field) (nesting_depth_fields rest)
/-- Nesting depth contributed by one field. -/
def nesting_depth_field : FieldDescriptor → Nat
  | .mk _ type _ _ _ nested_desc =>
    if type = FIELD_TYPE_STRUCT then
      match nested_desc with
      | some d => nesting_depth d + 1
      | none => 0
    else 0
end

mutual
/-- The values of `indent_level` with which `struct_print_internal` is entered, in call
order, when it is called on a non-null value with `indent_level = level`: the call itself
and the recursive calls made through `print_field_value` (lines 656-660), each with
`indent_level + 1`.  `indent_level` is the recursion depth. -/
def visit_depths : StructDescriptor → Nat → List Nat
  | .mk _ _ fields, level => level :: visit_depths_fields fields level
/-- Recursive calls made by the field loop. -/
def visit_depths_fields : List FieldDescriptor → Nat → List Nat
  | [], _ => []
  | field :: rest, level => visit_depths_field field level ++ visit_depths_fields rest level
/-- Recursive calls made by `print_field_value` for one field. -/
def visit_depths_field : FieldDescriptor → Nat → List Nat
  | .mk _ type _ _ _ nested_desc, level =>
    if type = FIELD_TYPE_STRUCT then
      match nested_desc with
      | some d => visit_depths d (level + 1)
      | none => []
    else []
end

/-- Scan an output and report, for every header line, the number of single-space writes
that come directly before it; `run` is the number of such writes seen so far. -/
def header_indents_from : Nat → Output → List Nat
  | _, [] => []
  | run, w :: rest =>
    if w = " " then header_indents_from (run + 1) rest
    else if is_header_line w then run :: header_indents_from 0 rest
    else header_indents_from 0 rest

/-- The indentation, in spaces, of every header line of an output, in order. -/
def header_indents (out : Output) : List Nat := header_indents_from 0 out

/-! ## Strict re-reading of a printed `%.6f` text -/

/-- Whether a character is one of the ten decimal digits. -/
def is_dec_digit (c : Char) : Bool := decide (c ∈ "0123456789".data)

/-- Strict re-reading of an unsigned fixed-point text.  The characters are accepted only in
the shape integer part (decimal digits, at least one, no leading zero unless it is the
single digit `0`), one `.`, exactly six decimal digits, and the line break; the result is
the integer part and the six fraction digits read as a number of millionths. -/
def parse_unsigned_fixed6 (body : List Char) : Option (Nat × Nat) :=
  let ip := body.takeWhile (fun c => c ≠ '.')
  let tail := body.dropWhile (fun c => c ≠ '.')
  let fp := (tail.drop 1).take 6
  if tail.head? = some '.' ∧ (tail.drop 1).drop 6 = ['\n'] ∧ fp.length = 6 ∧
      ip ≠ [] ∧ (ip = ['0'] ∨ ip.head? ≠ some '0') ∧
      ip.all is_dec_digit = true ∧ fp.all is_dec_digit = true then
    some (parse_digits 10 ip, parse_digits 10 fp)
  else none

/-- Strict re-reading of a `%.6f` text: an optional leading `-`, then an unsigned
fixed-point text as read by `parse_unsigned_fixed6`.  The result is the sign, the integer
part and the number of millionths; any other shape is refused. -/
def parse_fixed6 (text : String) : Option (Bool × Nat × Nat) :=
  let neg := decide (text.data.head? = some '-')
  match parse_unsigned_fixed6 (if neg then text.data.drop 1 else text.data) with
  | some (ip, fp) => some (neg, ip, fp)
  | none => none

/-- The characters of the fixed-point text with sign `neg`, integer part `ip` and `fp`
millionths: what `parse_fixed6` reads back as `(neg, ip, fp)`. -/
def fixed6_chars (neg : Bool) (ip fp : Nat) : List Char :=
  (if neg then ['-'] else []) ++ (nat_digits 10 ip ++
    '.' :: (List.replicate (6 - (nat_digits 10 fp).length) '0' ++ nat_digits 10 fp ++ ['\n']))

/-! # Theorems -/

/-! ## The text heuristic (C1) -/

theorem range_map_succ (f : Nat → Nat) (L : Nat) :
    (List.range (L + 1)).map f = f 0 :: (List.range L).map (fun j => f (j + 1)) := by
  rw [List.range_succ_eq_map]
  simp [Function.comp_def]

theorem scan_zero_or_one (l : List Nat) (i : Nat) :
    printable_prefix_scan l i = 1 ∨ printable_prefix_scan l i = 0 := by
  induction l generalizing i with
  | nil => unfold printable_prefix_scan; split <;> simp
  | cons b rest ih =>
    unfold printable_prefix_scan
    split
    · split <;> simp
    · split
      · simp
      · exact ih (i + 1)

theorem scan_spec (f : Nat → Nat) (L i : Nat) :
    printable_prefix_scan ((List.range L).map f) i = 1 ↔
      ((∀ j, j < L → f j ≠ 0 ∧ printable (f j)) ∧ 0 < i + L) ∨
      (∃ k, k < L ∧ f k = 0 ∧ (∀ j, j < k → f j ≠ 0 ∧ printable (f j)) ∧ 0 < i + k) := by
  induction L generalizing f i with
  | zero =>
    simp [printable_prefix_scan, Nat.pos_iff_ne_zero]
  | succ L ih =>
    rw [range_map_succ]
    unfold printable_prefix_scan
    by_cases h0 : f 0 = 0
    · simp only [h0, if_true]
      constructor
      · intro h
        right
        refine ⟨0, by omega, h0, by intro j hj; omega, ?_⟩
        by_contra hc
        simp [show ¬ i > 0 by omega] at h
      · rintro (⟨h, _⟩ | ⟨k, hk, hk0, hall, hpos⟩)
        · exact absurd h0 (h 0 (by omega)).1
        · rcases Nat.eq_zero_or_pos k with rfl | hkpos
          · simp [show i > 0 by omega]
          · exact absurd h0 (hall 0 hkpos).1
    · simp only [h0, if_false]
      by_cases hp : f 0 < 0x20 ∨ f 0 > 0x7E
      · simp only [hp, if_true]
        constructor
        · intro h; simp at h
        · rintro (⟨h, _⟩ | ⟨k, hk, hk0, hall, hpos⟩)
          · have := (h 0 (by omega)).2; unfold printable at this; omega
          · rcases Nat.eq_zero_or_pos k with rfl | hkpos
            · exact absurd hk0 h0
            · have := (hall 0 hkpos).2; unfold printable at this; omega
      · simp only [hp, if_false]
        rw [ih]
        have hpr : printable (f 0) := by unfold printable; omega
        constructor
        · rintro (⟨h, _⟩ | ⟨k, hk, hk0, hall, hpos⟩)
          · left
            refine ⟨?_, by omega⟩
            intro j hj
            rcases Nat.eq_zero_or_pos j with rfl | hjpos
            · exact ⟨h0, hpr⟩
            · have := h (j - 1) (by omega)
              rwa [Nat.sub_add_cancel hjpos] at this
          · right
            refine ⟨k + 1, by omega, hk0, ?_, by omega⟩
            intro j hj
            rcases Nat.eq_zero_or_pos j with rfl | hjpos
            · exact ⟨h0, hpr⟩
            · have := hall (j - 1) (by omega)
              rwa [Nat.sub_add_cancel hjpos] at this
        · rintro (⟨h, _⟩ | ⟨k, hk, hk0, hall, hpos⟩)
          · left
            exact ⟨fun j hj => h (j + 1) (by omega), by omega⟩
          · rcases Nat.eq_zero_or_pos k with rfl | hkpos
            · exact absurd hk0 h0
            · right
              refine ⟨k - 1, by omega, ?_, ?_, by omega⟩
              · rwa [Nat.sub_add_cancel hkpos]
              · intro j hj
                exact hall (j + 1) (by omega)

theorem mem_read_bytes (mem : Memory) (data L b : Nat) :
    b ∈ read_bytes mem data L ↔ ∃ i, i < L ∧ read_u8 mem (data + i) = b := by
  simp [read_bytes, List.mem_map, List.mem_range]

theorem null_found_iff (mem : Memory) (data L : Nat) :
    (read_bytes mem data L).any (fun b => b = 0) = true ↔
      ∃ i, i < L ∧ read_u8 mem (data + i) = 0 := by
  simp [List.any_eq_true, mem_read_bytes]

theorem unprintable_found_iff (mem : Memory) (data L : Nat) :
    (read_bytes mem data L).any (fun b => b < 0x20 ∨ b > 0x7E) = true ↔
      ∃ i, i < L ∧ ¬ printable (read_u8 mem (data + i)) := by
  simp only [List.any_eq_true, mem_read_bytes, decide_eq_true_eq, printable]
  constructor
  · rintro ⟨b, ⟨i, hi, rfl⟩, hb⟩
    exact ⟨i, hi, by omega⟩
  · rintro ⟨i, hi, hb⟩
    exact ⟨_, ⟨i, hi, rfl⟩, by omega⟩

theorem is_printable_string_zero_or_one (mem : Memory) (data L : Nat) :
    is_printable_string mem data L = 1 ∨ is_printable_string mem data L = 0 := by
  unfold is_printable_string
  split
  · simp
  · simp only []
    split
    · split <;> simp
    · exact scan_zero_or_one _ _

theorem is_printable_string_iff (mem : Memory) (data L : Nat) :
    is_printable_string mem data L = 1 ↔ text_rule mem data L := by
  unfold is_printable_string text_rule
  by_cases hL : L = 0
  · simp [hL]
  · simp only [hL, if_false]
    by_cases hz : ∃ i, i < L ∧ read_u8 mem (data + i) = 0
    · have hnf := (null_found_iff mem data L).2 hz
      simp only [hnf, not_true_eq_false, if_false]
      rw [read_bytes, scan_spec (fun i => read_u8 mem (data + i)) L 0]
      constructor
      · rintro (⟨h, _⟩ | ⟨k, hk, hk0, hall, hpos⟩)
        · obtain ⟨i, hi, hi0⟩ := hz
          exact absurd hi0 (h i hi).1
        · refine ⟨by omega, Or.inr ⟨k, hk, hk0, fun j hj => (hall j hj).1,
            fun j hj => (hall j hj).2, by omega⟩⟩
      · rintro ⟨_, (⟨h, _⟩ | ⟨k, hk, hk0, hnz, hpr, hkne⟩)⟩
        · obtain ⟨i, hi, hi0⟩ := hz
          exact absurd hi0 (h i hi)
        · exact Or.inr ⟨k, hk, hk0, fun j hj => ⟨hnz j hj, hpr j hj⟩, by omega⟩
    · have hnf : ¬ ((read_bytes mem data L).any (fun b => b = 0) = true) := by
        rw [null_found_iff]; exact hz
      rw [if_pos hnf]
      by_cases hu : ∃ i, i < L ∧ ¬ printable (read_u8 mem (data + i))
      · have hu2 := (unprintable_found_iff mem data L).2 hu
        rw [if_pos hu2]
        constructor
        · intro h; simp at h
        · rintro ⟨_, (⟨_, h⟩ | ⟨k, hk, hk0, _⟩)⟩
          · obtain ⟨i, hi, hnp⟩ := hu
            exact absurd (h i hi) hnp
          · exact absurd ⟨k, hk, hk0⟩ hz
      · have hu2 : ¬ ((read_bytes mem data L).any (fun b => b < 0x20 ∨ b > 0x7E) = true) := by
          rw [unprintable_found_iff]; exact hu
        rw [if_neg hu2]
        simp only [true_iff]
        refine ⟨by omega, Or.inl ⟨?_, ?_⟩⟩
        · intro i hi h0; exact hz ⟨i, hi, h0⟩
        · intro i hi
          by_contra hnp
          exact hu ⟨i, hi, hnp⟩

/-- C1: `is_printable_string` returns 1 exactly when the buffer has positive length and
either (a) holds no zero byte and only bytes of `[0x20, 0x7E]`, or (b) holds a zero byte,
only bytes of `[0x20, 0x7E]` before the first one, and that first one is not at index 0;
in every other case, the empty buffer included, it returns 0. -/
theorem C1_is_printable_string_rule (mem : Memory) (data L : Nat) :
    (is_printable_string mem data L = 1 ↔
      0 < L ∧
        (((∀ i, i < L → read_u8 mem (data + i) ≠ 0) ∧
            (∀ i, i < L → 0x20 ≤ read_u8 mem (data + i) ∧ read_u8 mem (data + i) ≤ 0x7E)) ∨
          (∃ k, k < L ∧ read_u8 mem (data + k) = 0 ∧
            (∀ j, j < k → read_u8 mem (data + j) ≠ 0) ∧
            (∀ j, j < k → 0x20 ≤ read_u8 mem (data + j) ∧ read_u8 mem (data + j) ≤ 0x7E) ∧
            k ≠ 0))) ∧
    (is_printable_string mem data L ≠ 1 → is_printable_string mem data L = 0) ∧
    is_printable_string mem data 0 = 0 := by
  refine ⟨is_printable_string_iff mem data L, ?_, ?_⟩
  · intro h
    rcases is_printable_string_zero_or_one mem data L with h1 | h0
    · exact absurd h1 h
    · exact h0
  · simp [is_printable_string]

/-! ## Null arguments (C2) -/

theorem struct_print_internal_null (var_name : Option String) (mem : Memory)
    (struct_data : Nat) (desc : Option StructDescriptor) (indent_level : Nat)
    (h : struct_data = 0 ∨ desc = none) :
    struct_print_internal var_name mem struct_data desc indent_level =
      ["Error: NULL pointer!\n"] := by
  cases desc with
  | none => simp [struct_print_internal]
  | some d =>
    cases d with
    | mk struct_name struct_size fields =>
      rcases h with h | h
      · simp [struct_print_internal, h]
      · simp at h

/-- C2: when the base address is null or the descriptor is null, `struct_print` hands the
sink the single write `Error: NULL pointer!` with its line break and nothing else, whatever
the other arguments are. -/
theorem C2_null_arguments_single_error_line (var_name : Option String) (mem : Memory)
    (struct_data : Nat) (desc : Option StructDescriptor)
    (h : struct_data = 0 ∨ desc = none) :
    struct_print var_name mem struct_data desc = ["Error: NULL pointer!\n"] ∧
      render (struct_print var_name mem struct_data desc) = "Error: NULL pointer!\n" := by
  have h1 : struct_print var_name mem struct_data desc = ["Error: NULL pointer!\n"] := by
    unfold struct_print
    exact struct_print_internal_null var_name mem struct_data desc 0 h
  refine ⟨h1, ?_⟩
  rw [h1]
  decide

/-- C2 at a concrete input: a null base address with a one-field descriptor. -/
theorem C2_null_arguments_witness :
    (0 = 0 ∨ some (StructDescriptor.mk "T" 1 [FieldDescriptor.mk "a" FIELD_TYPE_U8 0 1 0 none])
        = none) ∧
    (struct_print (some "v") [7] 0
        (some (StructDescriptor.mk "T" 1 [FieldDescriptor.mk "a" FIELD_TYPE_U8 0 1 0 none]))
        = ["Error: NULL pointer!\n"] ∧
      render (struct_print (some "v") [7] 0
        (some (StructDescriptor.mk "T" 1 [FieldDescriptor.mk "a" FIELD_TYPE_U8 0 1 0 none])))
        = "Error: NULL pointer!\n") :=
  ⟨Or.inl rfl, C2_null_arguments_single_error_line (some "v") [7] 0
    (some (StructDescriptor.mk "T" 1 [FieldDescriptor.mk "a" FIELD_TYPE_U8 0 1 0 none]))
    (Or.inl rfl)⟩

/-! ## Digits -/

theorem digit_val_digit_char (d : Nat) (h : d < 16) : digit_val (digit_char d) = d := by
  revert d
  decide

theorem digit_char_mem_hex (d : Nat) (h : d < 16) :
    digit_char d ∈ "0123456789ABCDEF".data := by
  revert d
  decide

theorem digit_char_ne_specials (d : Nat) (h : d < 16) :
    digit_char d ≠ ' ' ∧ digit_char d ≠ ')' ∧ digit_char d ≠ '-' ∧ digit_char d ≠ 'x' := by
  revert d
  decide

theorem digits_rev_fuel (base : Nat) (hb : 2 ≤ base) (fuel1 fuel2 n : Nat)
    (h1 : n < fuel1) (h2 : n < fuel2) :
    digits_rev base fuel1 n = digits_rev base fuel2 n := by
  induction fuel1 generalizing fuel2 n with
  | zero => omega
  | succ f1 ih =>
    cases fuel2 with
    | zero => omega
    | succ f2 =>
      unfold digits_rev
      by_cases hq : n / base = 0
      · simp [hq]
      · simp only [hq, if_false]
        have hlt : n / base < n := Nat.div_lt_self (by
          rcases Nat.eq_zero_or_pos n with h0 | hp
          · subst h0; simp at hq
          · exact hp) (by omega)
        rw [ih f2 (n / base) (by omega) (by omega)]

theorem digits_rev_step (base : Nat) (hb : 2 ≤ base) (n : Nat) :
    digits_rev base (n + 1) n =
      digit_char (n % base) ::
        (if n / base = 0 then [] else digits_rev base (n / base + 1) (n / base)) := by
  conv_lhs => unfold digits_rev
  by_cases hq : n / base = 0
  · simp [hq]
  · simp only [hq, if_false]
    have hlt : n / base < n := Nat.div_lt_self (by
      rcases Nat.eq_zero_or_pos n with h0 | hp
      · subst h0; simp at hq
      · exact hp) (by omega)
    rw [digits_rev_fuel base hb n (n / base + 1) (n / base) hlt (by omega)]

/-- Value of a digit list given least significant digit first. -/
theorem parse_digits_reverse (base : Nat) (l : List Char) :
    parse_digits base l.reverse =
      l.foldr (fun c acc => acc * base + digit_val c) 0 := by
  unfold parse_digits
  rw [List.foldl_reverse]

theorem parse_nat_digits (base : Nat) (hb : 2 ≤ base) (hb16 : base ≤ 16) (n : Nat) :
    parse_digits base (nat_digits base n) = n := by
  unfold nat_digits
  rw [parse_digits_reverse]
  induction n using Nat.strong_induction_on with
  | _ n ih =>
    rw [digits_rev_step base hb n]
    have hd : digit_val (digit_char (n % base)) = n % base :=
      digit_val_digit_char _ (by have := Nat.mod_lt n (show 0 < base by omega); omega)
    by_cases hq : n / base = 0
    · simp only [hq, if_true, List.foldr_cons, List.foldr_nil, hd]
      have := Nat.div_add_mod n base
      rw [hq] at this
      omega
    · simp only [hq, if_false, List.foldr_cons, hd]
      have hlt : n / base < n := Nat.div_lt_self (by
        rcases Nat.eq_zero_or_pos n with h0 | hp
        · subst h0; simp at hq
        · exact hp) (by omega)
      rw [ih (n / base) hlt]
      have := Nat.div_add_mod n base
      rw [Nat.mul_comm]
      exact this

theorem nat_digits_length_le (base : Nat) (hb : 2 ≤ base) (n k : Nat) (hk : 0 < k)
    (hn : n < base ^ k) : (nat_digits base n).length ≤ k := by
  unfold nat_digits
  rw [List.length_reverse]
  induction n using Nat.strong_induction_on generalizing k with
  | _ n ih =>
    rw [digits_rev_step base hb n]
    by_cases hq : n / base = 0
    · simp only [hq, if_true, List.length_singleton]
      omega
    · simp only [hq, if_false, List.length_cons]
      have hpos : 0 < n := by
        rcases Nat.eq_zero_or_pos n with h0 | hp
        · subst h0; simp at hq
        · exact hp
      have hlt : n / base < n := Nat.div_lt_self hpos (by omega)
      have hk2 : 2 ≤ k := by
        by_contra hc
        have hk1 : k = 1 := by omega
        subst hk1
        simp only [pow_one] at hn
        exact hq (Nat.div_eq_of_lt hn)
      have hdiv : n / base < base ^ (k - 1) := by
        apply Nat.div_lt_of_lt_mul
        have : base ^ k = base * base ^ (k - 1) := by
          rw [← pow_succ']
          congr 1
          omega
        omega
      have := ih (n / base) hlt (k - 1) (by omega) hdiv
      omega

theorem nat_digits_length_pos (base : Nat) (n : Nat) : 0 < (nat_digits base n).length := by
  unfold nat_digits digits_rev
  simp

theorem nat_digits_mem (base : Nat) (hb : 2 ≤ base) (n : Nat) (c : Char)
    (hc : c ∈ nat_digits base n) : ∃ d, d < base ∧ c = digit_char d := by
  unfold nat_digits at hc
  rw [List.mem_reverse] at hc
  induction n using Nat.strong_induction_on with
  | _ n ih =>
    rw [digits_rev_step base hb n] at hc
    rcases List.mem_cons.1 hc with h | h
    · exact ⟨n % base, Nat.mod_lt n (by omega), h⟩
    · by_cases hq : n / base = 0
      · simp [hq] at h
      · simp only [hq, if_false] at h
        have hlt : n / base < n := Nat.div_lt_self (by
          rcases Nat.eq_zero_or_pos n with h0 | hp
          · subst h0; simp at hq
          · exact hp) (by omega)
        exact ih (n / base) hlt h

theorem parse_digits_zeros (base k : Nat) (l : List Char) :
    parse_digits base (List.replicate k '0' ++ l) = parse_digits base l := by
  unfold parse_digits
  rw [List.foldl_append]
  congr 1
  induction k with
  | zero => rfl
  | succ k ih =>
    rw [List.replicate_succ, List.foldl_cons]
    simpa [digit_val] using ih

theorem fmt_X_length (w n : Nat) (hw : 0 < w) (hn : n < 16 ^ w) :
    (fmt_X w n).length = w := by
  have h := nat_digits_length_le 16 (by omega) n w hw hn
  simp only [fmt_X, String.length, List.length_append, List.length_replicate]
  omega

theorem fmt_X_chars (w n : Nat) (c : Char) (hc : c ∈ (fmt_X w n).data) :
    c ∈ "0123456789ABCDEF".data := by
  simp only [fmt_X, List.mem_append] at hc
  rcases hc with h | h
  · rw [List.mem_replicate] at h
    rw [h.2]
    decide
  · obtain ⟨d, hd, rfl⟩ := nat_digits_mem 16 (by omega) n c h
    exact digit_char_mem_hex d hd

theorem parse_fmt_X (w n : Nat) : parse_digits 16 (fmt_X w n).data = n := by
  simp only [fmt_X]
  rw [parse_digits_zeros]
  exact parse_nat_digits 16 (by omega) (by omega) n

/-! ## Scalar integer fields (C3) -/

theorem read_u8_lt (mem : Memory) (addr : Nat) : read_u8 mem addr < 256 := by
  unfold read_u8
  exact Nat.mod_lt _ (by omega)

theorem read_u16_lt (mem : Memory) (addr : Nat) : read_u16 mem addr < 65536 := by
  unfold read_u16
  have h1 := read_u8_lt mem addr
  have h2 := read_u8_lt mem (addr + 1)
  omega

theorem read_u32_lt (mem : Memory) (addr : Nat) : read_u32 mem addr < 4294967296 := by
  unfold read_u32
  have h1 := read_u16_lt mem addr
  have h2 := read_u16_lt mem (addr + 2)
  omega

theorem int_pattern_lt (t : FieldType) (mem : Memory) (addr : Nat) (ht : int_width t ≠ 0) :
    int_pattern t mem addr < 2 ^ int_width t := by
  cases t <;> simp [int_width] at ht <;> simp [int_pattern, int_width]
  · exact read_u8_lt mem addr
  · exact read_u16_lt mem addr
  · exact read_u32_lt mem addr
  · exact read_u8_lt mem addr
  · exact read_u16_lt mem addr
  · exact read_u32_lt mem addr

theorem print_hex_memory_short (mem : Memory) (data n indent_level : Nat) (hn : n ≤ 16) :
    print_hex_memory mem data n STRUCT_PRINT_HEX_BYTES indent_level =
      print_indent indent_level ++ ["        └─ Memory: "] ++
        (List.range n).map (fun i => fmt_X 2 (read_u8 mem (data + i)) ++ " ") ++ ["\n"] := by
  unfold print_hex_memory STRUCT_PRINT_HEX_BYTES
  have hb : (if n < 16 then n else 16) = n := by
    split <;> omega
  simp only [hb]
  have hgt : ¬ n > 16 := by omega
  simp only [hgt, if_false, List.append_nil]
  congr 2
  rw [List.map_eq_flatMap]
  apply List.flatMap_congr
  intro i hi
  rw [List.mem_range] at hi
  have hc : ¬ ((i + 1) % 16 = 0 ∧ i + 1 < n) := by omega
  simp [hc]

theorem print_field_value_int_scalar (name : String) (t : FieldType) (offset size : Nat)
    (nd : Option StructDescriptor) (mem : Memory) (base indent_level : Nat)
    (ht : int_width t ≠ 0) :
    print_field_value (FieldDescriptor.mk name t offset size 0 nd) mem base indent_level =
      [scalar_int_text t (int_pattern t mem (base + offset))] ++
        print_hex_memory mem (base + offset) (int_width t / 8) STRUCT_PRINT_HEX_BYTES
          indent_level := by
  cases t <;> simp [int_width] at ht <;>
    simp [print_field_value, scalar_int_text, int_pattern, int_width, int_signed, read_s8,
      read_s16, read_s32]

/-- C3: a scalar integer field (element count 0) of width 8, 16 or 32 bits is rendered as
its decimal value (unsigned, or two's-complement signed for the signed tags), then ` (0x`,
the bit pattern in exactly width/4 upper-case zero-padded hexadecimal digits (which
denote the pattern), then `)`, followed by a hex dump of exactly width/8 bytes; the six examples of the demo program
render as stated. -/
theorem C3_scalar_integer_rendering (name : String) (t : FieldType) (offset size : Nat)
    (nd : Option StructDescriptor) (mem : Memory) (base indent_level : Nat)
    (ht : int_width t ≠ 0) :
    (print_field_value (FieldDescriptor.mk name t offset size 0 nd) mem base indent_level =
      [(if int_signed t then fmt_d (to_signed (int_width t) (int_pattern t mem (base + offset)))
          else fmt_u (int_pattern t mem (base + offset))) ++ " (0x" ++
          fmt_X (int_width t / 4) (int_pattern t mem (base + offset)) ++ ")\n"] ++
        (print_indent indent_level ++ ["        └─ Memory: "] ++
          (List.range (int_width t / 8)).map
            (fun i => fmt_X 2 (read_u8 mem (base + offset + i)) ++ " ") ++ ["\n"])) ∧
    (fmt_X (int_width t / 4) (int_pattern t mem (base + offset))).length = int_width t / 4 ∧
    (∀ c, c ∈ (fmt_X (int_width t / 4) (int_pattern t mem (base + offset))).data →
      c ∈ "0123456789ABCDEF".data) ∧
    parse_digits 16 (fmt_X (int_width t / 4) (int_pattern t mem (base + offset))).data =
      int_pattern t mem (base + offset) ∧
    value_text (print_field_value (FieldDescriptor.mk "device_id" FIELD_TYPE_U8 0 1 0 none)
      [0, 5] 1 0) = "5 (0x05)\n" ∧
    value_text (print_field_value (FieldDescriptor.mk "firmware_version" FIELD_TYPE_U16 2 2 0
      none) [0, 5, 0, 0x02, 0x01] 1 0) = "258 (0x0102)\n" ∧
    value_text (print_field_value (FieldDescriptor.mk "ProtocolType" FIELD_TYPE_U8 0 1 0 none)
      [0, 255] 1 0) = "255 (0xFF)\n" ∧
    value_text (print_field_value (FieldDescriptor.mk "MeterAdr" FIELD_TYPE_U32 0 4 0 none)
      [0, 0xFF, 0xFF, 0xFF, 0xFF] 1 0) = "4294967295 (0xFFFFFFFF)\n" ∧
    value_text (print_field_value (FieldDescriptor.mk "value" FIELD_TYPE_S16 2 2 0 none)
      [0, 100, 0, 0xEF, 0xFE] 1 0) = "-273 (0xFEEF)\n" ∧
    value_text (print_field_value (FieldDescriptor.mk "MsgData" FIELD_TYPE_S32 0 4 0 none)
      [0, 0x19, 0xFC, 0xFF, 0xFF] 1 0) = "-999 (0xFFFFFC19)\n" := by
  have hw : int_width t = 8 ∨ int_width t = 16 ∨ int_width t = 32 := by
    cases t <;> simp [int_width] at ht ⊢
  have hp := int_pattern_lt t mem (base + offset) ht
  have hlen : (fmt_X (int_width t / 4) (int_pattern t mem (base + offset))).length =
      int_width t / 4 := by
    apply fmt_X_length
    · omega
    · rcases hw with h | h | h <;> rw [h] at hp ⊢ <;> simpa using hp
  refine ⟨?_, hlen, fun c hc => fmt_X_chars _ _ c hc, parse_fmt_X _ _, by decide, by decide,
    by decide, by decide, by decide, by decide⟩
  rw [print_field_value_int_scalar name t offset size nd mem base indent_level ht,
    print_hex_memory_short mem (base + offset) (int_width t / 8) indent_level (by omega)]
  rfl

/-- C3 at a concrete input: the signed 16-bit field `value = -273` of the demo program. -/
theorem C3_scalar_integer_rendering_witness :
    int_width FIELD_TYPE_S16 ≠ 0 ∧
    print_field_value (FieldDescriptor.mk "value" FIELD_TYPE_S16 2 2 0 none)
      [0, 100, 0, 0xEF, 0xFE] 1 0 =
      ["-273 (0xFEEF)\n", "        └─ Memory: ", "EF ", "FE ", "\n"] := by
  refine ⟨by decide, ?_⟩
  have h := (C3_scalar_integer_rendering "value" FIELD_TYPE_S16 2 2 none
    [0, 100, 0, 0xEF, 0xFE] 1 0 (by decide)).1
  rw [h]
  decide

/-! ## Re-reading a printed integer scalar (C4) -/

theorem takeWhile_append_stop {α : Type} (p : α → Bool) (l r : List α) (c : α)
    (hl : ∀ x, x ∈ l → p x = true) (hc : p c = false) :
    (l ++ c :: r).takeWhile p = l := by
  induction l with
  | nil => simp [List.takeWhile, hc]
  | cons a l ih =>
    have ha : p a = true := hl a (List.mem_cons_self a l)
    simp only [List.cons_append, List.takeWhile_cons, ha, if_true]
    rw [ih (fun x hx => hl x (List.mem_cons_of_mem a hx))]

theorem dropWhile_append_stop {α : Type} (p : α → Bool) (l r : List α) (c : α)
    (hl : ∀ x, x ∈ l → p x = true) (hc : p c = false) :
    (l ++ c :: r).dropWhile p = c :: r := by
  induction l with
  | nil => simp [List.dropWhile, hc]
  | cons a l ih =>
    have ha : p a = true := hl a (List.mem_cons_self a l)
    simp only [List.cons_append, List.dropWhile_cons, ha, if_true]
    exact ih (fun x hx => hl x (List.mem_cons_of_mem a hx))

theorem nat_digits_no_specials (base : Nat) (hb : 2 ≤ base) (hb16 : base ≤ 16) (n : Nat)
    (c : Char) (hc : c ∈ nat_digits base n) : c ≠ ' ' ∧ c ≠ ')' ∧ c ≠ '-' ∧ c ≠ 'x' := by
  obtain ⟨d, hd, rfl⟩ := nat_digits_mem base hb n c hc
  exact digit_char_ne_specials d (by omega)

theorem parse_decimal_fmt_u (n : Nat) : parse_decimal (fmt_u n).data = (n : Int) := by
  unfold parse_decimal fmt_u
  have hne : (nat_digits 10 n).head? ≠ some '-' := by
    intro h
    have hmem : '-' ∈ nat_digits 10 n := List.mem_of_mem_head? h
    exact (nat_digits_no_specials 10 (by omega) (by omega) n '-' hmem).2.2.1 rfl
  simp only [hne, if_false]
  rw [parse_nat_digits 10 (by omega) (by omega) n]

theorem parse_decimal_fmt_d (i : Int) : parse_decimal (fmt_d i).data = i := by
  unfold fmt_d
  by_cases hi : i < 0
  · simp only [hi, if_true, parse_decimal, List.head?_cons, List.tail_cons]
    rw [parse_nat_digits 10 (by omega) (by omega)]
    omega
  · simp only [hi, if_false]
    have h := parse_decimal_fmt_u i.natAbs
    unfold fmt_u at h
    rw [h]
    omega

theorem fmt_u_no_specials (n : Nat) (c : Char) (hc : c ∈ (fmt_u n).data) :
    c ≠ ' ' ∧ c ≠ 'x' := by
  have h := nat_digits_no_specials 10 (by omega) (by omega) n c hc
  exact ⟨h.1, h.2.2.2⟩

theorem fmt_d_no_specials (i : Int) (c : Char) (hc : c ∈ (fmt_d i).data) :
    c ≠ ' ' ∧ c ≠ 'x' := by
  unfold fmt_d at hc
  by_cases hi : i < 0
  · simp only [hi, if_true, List.mem_cons] at hc
    rcases hc with h | h
    · subst h; decide
    · have h := nat_digits_no_specials 10 (by omega) (by omega) _ c h
      exact ⟨h.1, h.2.2.2⟩
  · simp only [hi, if_false] at hc
    have h := nat_digits_no_specials 10 (by omega) (by omega) _ c hc
    exact ⟨h.1, h.2.2.2⟩

theorem fmt_X_no_paren (w n : Nat) (c : Char) (hc : c ∈ (fmt_X w n).data) : c ≠ ')' := by
  have h := fmt_X_chars w n c hc
  intro hcp
  subst hcp
  revert h
  decide

theorem to_signed_mod (w p : Nat) (hw : w = 8 ∨ w = 16 ∨ w = 32) (hp : p < 2 ^ w) :
    (to_signed w p % (2 : Int) ^ w).toNat = p := by
  unfold to_signed
  rcases hw with h | h | h <;> subst h <;> norm_num at hp ⊢ <;> split <;> omega

theorem scalar_int_text_data (t : FieldType) (p : Nat) :
    (scalar_int_text t p).data =
      (if int_signed t then fmt_d (to_signed (int_width t) p) else fmt_u p).data ++
        ' ' :: ('(' :: '0' :: 'x' :: ((fmt_X (int_width t / 4) p).data ++ ')' :: ['\n'])) := by
  unfold scalar_int_text
  simp [String.data_append]

theorem decimal_part_no_specials (t : FieldType) (p : Nat) (c : Char)
    (hc : c ∈ (if int_signed t then fmt_d (to_signed (int_width t) p) else fmt_u p).data) :
    c ≠ ' ' ∧ c ≠ 'x' := by
  split at hc
  · exact fmt_d_no_specials _ c hc
  · exact fmt_u_no_specials _ c hc

theorem reparse_decimal_scalar_int_text (t : FieldType) (p : Nat) (ht : int_width t ≠ 0)
    (hp : p < 2 ^ int_width t) :
    reparse_decimal (int_width t) (scalar_int_text t p) = p := by
  unfold reparse_decimal
  rw [scalar_int_text_data,
    takeWhile_append_stop _ _ _ ' '
      (fun c hc => by simpa using (decimal_part_no_specials t p c hc).1) (by simp)]
  have hw : int_width t = 8 ∨ int_width t = 16 ∨ int_width t = 32 := by
    cases t <;> simp [int_width] at ht ⊢
  by_cases hs : int_signed t = true
  · simp only [hs, if_true]
    rw [parse_decimal_fmt_d]
    exact to_signed_mod (int_width t) p hw hp
  · simp only [hs]
    simp only [Bool.false_eq_true, if_false]
    rw [parse_decimal_fmt_u]
    rcases hw with h | h | h <;> rw [h] at hp ⊢ <;> norm_num at hp ⊢ <;> omega

theorem reparse_hex_scalar_int_text (t : FieldType) (p : Nat) :
    reparse_hex (scalar_int_text t p) = p := by
  unfold reparse_hex
  rw [scalar_int_text_data]
  have h1 : ∀ r : List Char,
      ((if int_signed t then fmt_d (to_signed (int_width t) p) else fmt_u p).data ++
        ' ' :: ('(' :: '0' :: 'x' :: r)).dropWhile (fun c => c ≠ 'x') = 'x' :: r := by
    intro r
    have e : (if int_signed t then fmt_d (to_signed (int_width t) p) else fmt_u p).data ++
        ' ' :: ('(' :: '0' :: 'x' :: r) =
        ((if int_signed t then fmt_d (to_signed (int_width t) p) else fmt_u p).data ++
          [' ', '(', '0']) ++ 'x' :: r := by simp
    rw [e]
    apply dropWhile_append_stop
    · intro c hc
      rcases List.mem_append.1 hc with h | h
      · simpa using (decimal_part_no_specials t p c h).2
      · revert h
        simp only [List.mem_cons, List.mem_singleton, List.not_mem_nil, or_false]
        rintro (rfl | rfl | rfl) <;> decide
    · simp
  rw [h1, List.drop_one, List.tail_cons,
    takeWhile_append_stop _ _ _ ')' (fun c hc => by simpa using fmt_X_no_paren _ _ c hc)
      (by simp)]
  exact parse_fmt_X _ _

theorem value_text_int_scalar (name : String) (t : FieldType) (offset size : Nat)
    (nd : Option StructDescriptor) (mem : Memory) (base indent_level : Nat)
    (ht : int_width t ≠ 0) :
    value_text (print_field_value (FieldDescriptor.mk name t offset size 0 nd) mem base
      indent_level) = scalar_int_text t (int_pattern t mem (base + offset)) := by
  rw [print_field_value_int_scalar name t offset size nd mem base indent_level ht]
  rfl

/-- C4: for a scalar field of an integer tag, re-reading the printed decimal at the declared
width, or the printed hexadecimal, gives back the stored bit pattern; hence two fields of
the same tag whose value texts are equal hold the same bit pattern, and the value text is
an injective function of the bit pattern. -/
theorem C4_integer_rendering_injective (name : String) (t : FieldType) (offset size : Nat)
    (nd : Option StructDescriptor) (mem : Memory) (base indent_level : Nat)
    (ht : int_width t ≠ 0) :
    reparse_decimal (int_width t)
        (value_text (print_field_value (FieldDescriptor.mk name t offset size 0 nd) mem base
          indent_level)) = int_pattern t mem (base + offset) ∧
    reparse_hex
        (value_text (print_field_value (FieldDescriptor.mk name t offset size 0 nd) mem base
          indent_level)) = int_pattern t mem (base + offset) ∧
    (∀ (mem2 : Memory) (base2 indent2 : Nat),
      value_text (print_field_value (FieldDescriptor.mk name t offset size 0 nd) mem base
          indent_level) =
        value_text (print_field_value (FieldDescriptor.mk name t offset size 0 nd) mem2 base2
          indent2) →
      int_pattern t mem (base + offset) = int_pattern t mem2 (base2 + offset)) ∧
    (∀ p q : Nat, scalar_int_text t p = scalar_int_text t q → p = q) := by
  have hdec := reparse_decimal_scalar_int_text t (int_pattern t mem (base + offset)) ht
    (int_pattern_lt t mem (base + offset) ht)
  have hhex := reparse_hex_scalar_int_text t (int_pattern t mem (base + offset))
  rw [value_text_int_scalar name t offset size nd mem base indent_level ht]
  refine ⟨hdec, hhex, ?_, ?_⟩
  · intro mem2 base2 indent2 heq
    rw [value_text_int_scalar name t offset size nd mem2 base2 indent2 ht] at heq
    have h2 := reparse_hex_scalar_int_text t (int_pattern t mem2 (base2 + offset))
    rw [← heq, hhex] at h2
    exact h2
  · intro p q hpq
    have hp := reparse_hex_scalar_int_text t p
    rw [hpq, reparse_hex_scalar_int_text t q] at hp
    exact hp.symm

/-- C4 at a concrete input: the most negative signed 8-bit value, bit pattern `0x80`. -/
theorem C4_integer_rendering_injective_witness :
    int_width FIELD_TYPE_S8 ≠ 0 ∧
    value_text (print_field_value (FieldDescriptor.mk "v" FIELD_TYPE_S8 0 1 0 none)
      [0, 0x80] 1 0) = "-128 (0x80)\n" ∧
    reparse_decimal 8 "-128 (0x80)\n" = 0x80 ∧
    reparse_hex "-128 (0x80)\n" = 0x80 := by
  have h := C4_integer_rendering_injective "v" FIELD_TYPE_S8 0 1 none [0, 0x80] 1 0
    (by decide)
  have ht : value_text (print_field_value (FieldDescriptor.mk "v" FIELD_TYPE_S8 0 1 0 none)
      [0, 0x80] 1 0) = "-128 (0x80)\n" := by decide
  rw [ht] at h
  exact ⟨by decide, ht, h.1, h.2.1⟩

/-! ## Float scalars (C5) -/

theorem round_half_even_error (num den : Nat) (hden : 0 < den) :
    2 * (round_half_even num den * den - num) ≤ den ∧
      2 * (num - round_half_even num den * den) ≤ den := by
  unfold round_half_even
  have hdm := Nat.div_add_mod num den
  have hr := Nat.mod_lt num hden
  have hmul : (num / den + 1) * den = (num / den) * den + den := by ring
  have hcomm : den * (num / den) = (num / den) * den := Nat.mul_comm _ _
  simp only []
  split
  · omega
  · split
    · rw [hmul]; omega
    · split
      · omega
      · rw [hmul]; omega

theorem micro_units_error (num den : Nat) (hden : 0 < den) :
    2 * (micro_units num den * den - num * 10 ^ 6) ≤ den ∧
      2 * (num * 10 ^ 6 - micro_units num den * den) ≤ den :=
  round_half_even_error (num * 10 ^ 6) den hden

theorem digit_char_ne_point (d : Nat) (h : d < 16) :
    digit_char d ≠ '.' ∧ digit_char d ≠ '\n' := by
  revert d
  decide

theorem filter_digits (n : Nat) :
    (nat_digits 10 n).filter (fun c => c ≠ '-' ∧ c ≠ '.' ∧ c ≠ '\n') = nat_digits 10 n := by
  rw [List.filter_eq_self]
  intro c hc
  obtain ⟨d, hd, rfl⟩ := nat_digits_mem 10 (by omega) n c hc
  have h1 := digit_char_ne_specials d (by omega)
  have h2 := digit_char_ne_point d (by omega)
  simp [h1.2.2.1, h2.1, h2.2]

theorem parse_digits_append (base : Nat) (a b : List Char) :
    parse_digits base (a ++ b) = parse_digits base a * base ^ b.length + parse_digits base b := by
  induction b using List.reverseRecOn with
  | nil => simp [parse_digits]
  | append_singleton b c ih =>
    have e : parse_digits base (a ++ (b ++ [c])) =
        parse_digits base (a ++ b) * base + digit_val c := by
      unfold parse_digits
      rw [← List.append_assoc, List.foldl_append]
      rfl
    have e2 : parse_digits base (b ++ [c]) = parse_digits base b * base + digit_val c := by
      unfold parse_digits
      rw [List.foldl_append]
      rfl
    rw [e, e2, ih, List.length_append, List.length_singleton, pow_succ]
    ring

theorem reparse_fmt_f6 (neg : Bool) (num den : Nat) :
    reparse_fixed6 (fmt_f6 neg num den ++ "\n") = (neg, micro_units num den) := by
  have hdata : (fmt_f6 neg num den ++ "\n").data =
      (if neg then ['-'] else []) ++ (nat_digits 10 (micro_units num den / 10 ^ 6) ++
        '.' :: (List.replicate (6 - (nat_digits 10 (micro_units num den % 10 ^ 6)).length) '0'
          ++ nat_digits 10 (micro_units num den % 10 ^ 6) ++ ['\n'])) := by
    unfold fmt_f6 fmt_u fmt_frac6
    cases neg <;> simp [String.data_append]
  have hlen : (List.replicate (6 - (nat_digits 10 (micro_units num den % 10 ^ 6)).length) '0'
      ++ nat_digits 10 (micro_units num den % 10 ^ 6)).length = 6 := by
    have h := nat_digits_length_le 10 (by omega) (micro_units num den % 10 ^ 6) 6 (by omega)
      (Nat.mod_lt _ (by norm_num))
    simp only [List.length_append, List.length_replicate]
    omega
  unfold reparse_fixed6
  rw [hdata]
  have hhead : ((if neg then ['-'] else []) ++ (nat_digits 10 (micro_units num den / 10 ^ 6) ++
        '.' :: (List.replicate (6 - (nat_digits 10 (micro_units num den % 10 ^ 6)).length) '0'
          ++ nat_digits 10 (micro_units num den % 10 ^ 6) ++ ['\n']))).head? = some '-' ↔
      neg = true := by
    cases neg
    · have hpos := nat_digits_length_pos 10 (micro_units num den / 10 ^ 6)
      cases hnd : nat_digits 10 (micro_units num den / 10 ^ 6) with
      | nil => rw [hnd] at hpos; simp at hpos
      | cons c rest =>
        have hc : c ∈ nat_digits 10 (micro_units num den / 10 ^ 6) := by
          rw [hnd]; exact List.mem_cons_self c rest
        have := (nat_digits_no_specials 10 (by omega) (by omega) _ c hc).2.2.1
        simp [this]
    · simp
  have hfilter : ((if neg then ['-'] else []) ++
      (nat_digits 10 (micro_units num den / 10 ^ 6) ++
        '.' :: (List.replicate (6 - (nat_digits 10 (micro_units num den % 10 ^ 6)).length) '0'
          ++ nat_digits 10 (micro_units num den % 10 ^ 6) ++ ['\n']))).filter
        (fun c => c ≠ '-' ∧ c ≠ '.' ∧ c ≠ '\n') =
      nat_digits 10 (micro_units num den / 10 ^ 6) ++
        (List.replicate (6 - (nat_digits 10 (micro_units num den % 10 ^ 6)).length) '0'
          ++ nat_digits 10 (micro_units num den % 10 ^ 6)) := by
    have hz : ∀ k : Nat, (List.replicate k '0').filter
        (fun c => c ≠ '-' ∧ c ≠ '.' ∧ c ≠ '\n') = List.replicate k '0' := by
      intro k
      rw [List.filter_eq_self]
      intro c hc
      rw [List.mem_replicate] at hc
      rw [hc.2]
      decide
    cases neg <;>
      simp only [List.filter_append, List.filter_cons, filter_digits, hz, List.filter_nil] <;>
      simp
  rw [hfilter, parse_digits_append, hlen, parse_digits_zeros,
    parse_nat_digits 10 (by omega) (by omega), parse_nat_digits 10 (by omega) (by omega)]
  have hN := Nat.div_add_mod (micro_units num den) (10 ^ 6)
  ext
  · simp only [decide_eq_true_eq]
    rw [Bool.eq_iff_iff]
    simpa using hhead
  · simp only []
    rw [Nat.mul_comm] at hN
    exact hN

theorem value_text_float (name : String) (offset size : Nat) (nd : Option StructDescriptor)
    (mem : Memory) (base indent_level : Nat) :
    value_text (print_field_value (FieldDescriptor.mk name FIELD_TYPE_FLOAT offset size 0 nd)
      mem base indent_level) = fmt_float (read_u32 mem (base + offset)) ++ "\n" := by
  simp [print_field_value, value_text]

theorem value_text_double (name : String) (offset size : Nat) (nd : Option StructDescriptor)
    (mem : Memory) (base indent_level : Nat) :
    value_text (print_field_value (FieldDescriptor.mk name FIELD_TYPE_DOUBLE offset size 0 nd)
      mem base indent_level) = fmt_double (read_u64 mem (base + offset)) ++ "\n" := by
  simp [print_field_value, value_text]

/-- C5 fails as stated: the floats `1.0` (`0x3F800000`) and the next one above it
(`0x3F800001`) are both printed as `1.000000`, and so are the doubles
`0x3FF0000000000000` and `0x3FF0000000000001`; the bit pattern cannot be recovered from the
text. -/
theorem C5_float_rendering_not_injective :
    (value_text (print_field_value (FieldDescriptor.mk "temperature" FIELD_TYPE_FLOAT 0 4 0
        none) [0, 0x00, 0x00, 0x80, 0x3F] 1 0) = "1.000000\n" ∧
      value_text (print_field_value (FieldDescriptor.mk "temperature" FIELD_TYPE_FLOAT 0 4 0
        none) [0, 0x01, 0x00, 0x80, 0x3F] 1 0) = "1.000000\n" ∧
      read_u32 [0, 0x00, 0x00, 0x80, 0x3F] 1 ≠ read_u32 [0, 0x01, 0x00, 0x80, 0x3F] 1) ∧
    (value_text (print_field_value (FieldDescriptor.mk "voltage" FIELD_TYPE_DOUBLE 0 8 0
        none) [0, 0, 0, 0, 0, 0, 0, 0xF0, 0x3F] 1 0) = "1.000000\n" ∧
      value_text (print_field_value (FieldDescriptor.mk "voltage" FIELD_TYPE_DOUBLE 0 8 0
        none) [0, 1, 0, 0, 0, 0, 0, 0xF0, 0x3F] 1 0) = "1.000000\n" ∧
      read_u64 [0, 0, 0, 0, 0, 0, 0, 0xF0, 0x3F] 1 ≠
        read_u64 [0, 1, 0, 0, 0, 0, 0, 0xF0, 0x3F] 1) := by
  refine ⟨⟨by decide, by decide, by decide⟩, ⟨by decide!, by decide!, by decide⟩⟩

theorem parse_fixed6_examples :
    parse_fixed6 "25.600000\n" = some (false, 25, 600000) ∧
    parse_fixed6 "2.5600000\n" = none ∧
    parse_fixed6 "-0.000000\n" = some (true, 0, 0) ∧
    parse_fixed6 "025.600000\n" = none ∧
    parse_fixed6 "25.600000" = none ∧
    parse_fixed6 "25600000\n" = none := by
  decide

theorem nat_digits_step (base : Nat) (hb : 2 ≤ base) (n : Nat) :
    nat_digits base n =
      (if n / base = 0 then [] else nat_digits base (n / base)) ++ [digit_char (n % base)] := by
  unfold nat_digits
  rw [digits_rev_step base hb n, List.reverse_cons]
  split <;> simp

theorem is_dec_digit_cases (c : Char) (h : is_dec_digit c = true) :
    digit_val c < 10 ∧ digit_char (digit_val c) = c ∧ c ≠ '.' ∧ c ≠ '-' ∧ c ≠ '\n' := by
  unfold is_dec_digit at h
  simp at h
  rcases h with h | h | h | h | h | h | h | h | h | h <;> subst h <;> decide

theorem is_dec_digit_digit_char (d : Nat) (h : d < 10) : is_dec_digit (digit_char d) = true := by
  revert d
  decide

theorem digit_char_eq_zero (d : Nat) (h : d < 10) (h0 : digit_char d = '0') : d = 0 := by
  revert d
  decide

theorem nat_digits_dec (n : Nat) (c : Char) (hc : c ∈ nat_digits 10 n) :
    is_dec_digit c = true := by
  obtain ⟨d, hd, rfl⟩ := nat_digits_mem 10 (by omega) n c hc
  exact is_dec_digit_digit_char d hd

theorem nat_digits_canonical (n : Nat) :
    nat_digits 10 n = ['0'] ∨ (nat_digits 10 n).head? ≠ some '0' := by
  induction n using Nat.strong_induction_on with
  | _ n ih =>
    rw [nat_digits_step 10 (by omega) n]
    by_cases hq : n / 10 = 0
    · rw [if_pos hq, List.nil_append]
      by_cases h0 : digit_char (n % 10) = '0'
      · left
        rw [h0]
      · right
        simpa using h0
    · rw [if_neg hq]
      right
      have hlt : n / 10 < n := Nat.div_lt_self (by omega) (by omega)
      have hpos := nat_digits_length_pos 10 (n / 10)
      rcases ih (n / 10) hlt with h | h
      · exfalso
        have hp := parse_nat_digits 10 (by omega) (by omega) (n / 10)
        rw [h] at hp
        exact hq (by rw [← hp]; decide)
      · cases hnd : nat_digits 10 (n / 10) with
        | nil => rw [hnd] at hpos; simp at hpos
        | cons c r =>
          rw [hnd] at h
          simpa using h

theorem parse_digits_snoc (base : Nat) (l : List Char) (c : Char) :
    parse_digits base (l ++ [c]) = parse_digits base l * base + digit_val c := by
  unfold parse_digits
  rw [List.foldl_append]
  rfl

theorem nat_digits_parse_canonical (l : List Char) (hne : l ≠ [])
    (hd : ∀ c, c ∈ l → is_dec_digit c = true)
    (hc : l = ['0'] ∨ l.head? ≠ some '0') :
    nat_digits 10 (parse_digits 10 l) = l := by
  induction l using List.reverseRecOn with
  | nil => exact absurd rfl hne
  | append_singleton init c ih =>
    have hcd := is_dec_digit_cases c (hd c (by simp))
    rw [parse_digits_snoc, nat_digits_step 10 (by omega)]
    have hdiv : (parse_digits 10 init * 10 + digit_val c) / 10 = parse_digits 10 init := by
      omega
    have hmod : (parse_digits 10 init * 10 + digit_val c) % 10 = digit_val c := by
      omega
    rw [hdiv, hmod, hcd.2.1]
    cases init with
    | nil =>
      have : parse_digits 10 [] = 0 := rfl
      rw [this, if_pos rfl]
    | cons a r =>
      have hhead : (a :: r).head? ≠ some '0' := by
        rcases hc with h | h
        · exfalso
          have := congrArg List.length h
          simp at this
        · simpa using h
      have hi := ih (by simp) (fun x hx => hd x (by simp [List.mem_cons] at hx ⊢; tauto))
        (Or.inr hhead)
      have hnz : parse_digits 10 (a :: r) ≠ 0 := by
        intro h0
        rw [h0] at hi
        have e0 : nat_digits 10 0 = ['0'] := by decide
        rw [e0] at hi
        rw [← hi] at hhead
        exact hhead rfl
      rw [if_neg hnz, hi]

theorem nat_digits_parse_padded (l : List Char) (hne : l ≠ [])
    (hd : ∀ c, c ∈ l → is_dec_digit c = true) :
    List.replicate (l.length - (nat_digits 10 (parse_digits 10 l)).length) '0' ++
      nat_digits 10 (parse_digits 10 l) = l := by
  induction l with
  | nil => exact absurd rfl hne
  | cons c r ih =>
    by_cases hc0 : c = '0'
    · subst hc0
      have hp : parse_digits 10 ('0' :: r) = parse_digits 10 r :=
        parse_digits_zeros 10 1 r
      rw [hp]
      cases r with
      | nil => decide
      | cons b r2 =>
        have hi := ih (by simp) (fun x hx => hd x (List.mem_cons_of_mem _ hx))
        have hlen := congrArg List.length hi
        rw [List.length_append, List.length_replicate] at hlen
        have hle : (nat_digits 10 (parse_digits 10 (b :: r2))).length ≤ (b :: r2).length := by
          omega
        have e : ('0' :: b :: r2).length -
            (nat_digits 10 (parse_digits 10 (b :: r2))).length =
            ((b :: r2).length - (nat_digits 10 (parse_digits 10 (b :: r2))).length) + 1 := by
          simp only [List.length_cons] at hle ⊢
          omega
        rw [e, List.replicate_succ, List.cons_append, hi]
    · have hcan := nat_digits_parse_canonical (c :: r) (by simp) hd
        (Or.inr (by simpa using hc0))
      rw [hcan]
      simp

theorem parse_unsigned_fixed6_chars (a b : Nat) (hb : b < 10 ^ 6) :
    parse_unsigned_fixed6 (nat_digits 10 a ++ '.' ::
      (List.replicate (6 - (nat_digits 10 b).length) '0' ++ nat_digits 10 b ++ ['\n'])) =
      some (a, b) := by
  have hip : ∀ x, x ∈ nat_digits 10 a → (fun c => decide (c ≠ '.')) x = true := by
    intro x hx
    have := (is_dec_digit_cases x (nat_digits_dec a x hx)).2.2.1
    simpa using this
  have hlen : (List.replicate (6 - (nat_digits 10 b).length) '0' ++ nat_digits 10 b).length =
      6 := by
    have h := nat_digits_length_le 10 (by omega) b 6 (by omega) hb
    simp only [List.length_append, List.length_replicate]
    omega
  have hfd : ∀ x, x ∈ List.replicate (6 - (nat_digits 10 b).length) '0' ++ nat_digits 10 b →
      is_dec_digit x = true := by
    intro x hx
    rcases List.mem_append.1 hx with h | h
    · rw [List.mem_replicate] at h
      rw [h.2]
      decide
    · exact nat_digits_dec b x h
  have hapos := nat_digits_length_pos 10 a
  unfold parse_unsigned_fixed6
  simp only []
  rw [takeWhile_append_stop _ _ _ _ hip (by simp),
    dropWhile_append_stop _ _ _ _ hip (by simp)]
  have htake : (List.drop 1 ('.' :: (List.replicate (6 - (nat_digits 10 b).length) '0' ++
      nat_digits 10 b ++ ['\n']))).take 6 =
      List.replicate (6 - (nat_digits 10 b).length) '0' ++ nat_digits 10 b := by
    rw [List.drop_succ_cons, List.drop_zero]
    exact List.take_left' hlen
  have hdrop : (List.drop 1 ('.' :: (List.replicate (6 - (nat_digits 10 b).length) '0' ++
      nat_digits 10 b ++ ['\n']))).drop 6 = ['\n'] := by
    rw [List.drop_succ_cons, List.drop_zero]
    exact List.drop_left' hlen
  rw [htake, hdrop, if_pos]
  · rw [parse_nat_digits 10 (by omega) (by omega), parse_digits_zeros,
      parse_nat_digits 10 (by omega) (by omega)]
  · refine ⟨rfl, rfl, hlen, ?_, nat_digits_canonical a, ?_, ?_⟩
    · intro h
      rw [h] at hapos
      simp at hapos
    · rw [List.all_eq_true]
      exact fun x hx => nat_digits_dec a x hx
    · rw [List.all_eq_true]
      exact hfd

theorem fixed6_chars_head (neg : Bool) (a b : Nat) :
    decide ((fixed6_chars neg a b).head? = some '-') = neg := by
  have hapos := nat_digits_length_pos 10 a
  unfold fixed6_chars
  cases neg
  · cases hnd : nat_digits 10 a with
    | nil => rw [hnd] at hapos; simp at hapos
    | cons c rest =>
      have hc : c ∈ nat_digits 10 a := by
        rw [hnd]; exact List.mem_cons_self c rest
      have := (is_dec_digit_cases c (nat_digits_dec a c hc)).2.2.2.1
      simp [this]
  · simp

theorem parse_fixed6_chars (neg : Bool) (a b : Nat) (hb : b < 10 ^ 6) :
    parse_fixed6 (String.mk (fixed6_chars neg a b)) = some (neg, a, b) := by
  unfold parse_fixed6
  simp only []
  rw [fixed6_chars_head]
  have hbody : (if neg = true then (fixed6_chars neg a b).drop 1 else fixed6_chars neg a b) =
      nat_digits 10 a ++ '.' :: (List.replicate (6 - (nat_digits 10 b).length) '0' ++
        nat_digits 10 b ++ ['\n']) := by
    cases neg <;> simp [fixed6_chars]
  rw [hbody, parse_unsigned_fixed6_chars a b hb]

theorem chars_of_parse_unsigned_fixed6 (body : List Char) (a b : Nat)
    (h : parse_unsigned_fixed6 body = some (a, b)) :
    body = nat_digits 10 a ++ '.' ::
      (List.replicate (6 - (nat_digits 10 b).length) '0' ++ nat_digits 10 b ++ ['\n']) := by
  unfold parse_unsigned_fixed6 at h
  simp only [] at h
  split at h
  · rename_i hc
    obtain ⟨hdot, hnl, hlen, hne, hcan, hipd, hfpd⟩ := hc
    simp only [Option.some.injEq, Prod.mk.injEq] at h
    obtain ⟨ha, hb⟩ := h
    rw [List.all_eq_true] at hipd hfpd
    have hip := nat_digits_parse_canonical _ hne hipd hcan
    have hfne : List.take 6 (List.drop 1 (List.dropWhile (fun c => decide (c ≠ '.')) body)) ≠
        [] := by
      intro h0
      rw [h0] at hlen
      simp at hlen
    have hfp := nat_digits_parse_padded _ hfne hfpd
    rw [hlen] at hfp
    rw [ha] at hip
    rw [hb] at hfp
    have h1 := List.takeWhile_append_dropWhile (fun c => decide (c ≠ '.')) body
    have h2 : List.dropWhile (fun c => decide (c ≠ '.')) body =
        '.' :: List.drop 1 (List.dropWhile (fun c => decide (c ≠ '.')) body) := by
      cases hdw : List.dropWhile (fun c => decide (c ≠ '.')) body with
      | nil => rw [hdw] at hdot; simp at hdot
      | cons x r =>
        rw [hdw] at hdot
        simp only [List.head?_cons, Option.some.injEq] at hdot
        rw [hdot]
        rfl
    have h3 := List.take_append_drop 6 (List.drop 1 (List.dropWhile
      (fun c => decide (c ≠ '.')) body))
    rw [hnl] at h3
    rw [hip, hfp, h3, ← h2, h1]
  · exact absurd h (by simp)

theorem chars_of_parse_fixed6 (t : String) (neg : Bool) (a b : Nat)
    (h : parse_fixed6 t = some (neg, a, b)) : t.data = fixed6_chars neg a b := by
  unfold parse_fixed6 at h
  simp only [] at h
  cases hp : parse_unsigned_fixed6
      (if decide (t.data.head? = some '-') = true then List.drop 1 t.data else t.data) with
  | none =>
    rw [hp] at h
    exact absurd h (by simp)
  | some r =>
    obtain ⟨a2, b2⟩ := r
    rw [hp] at h
    simp only [Option.some.injEq, Prod.mk.injEq] at h
    obtain ⟨hneg, ha, hb⟩ := h
    subst ha
    subst hb
    have hbody := chars_of_parse_unsigned_fixed6 _ a2 b2 hp
    unfold fixed6_chars
    rw [← hbody, ← hneg]
    by_cases hm : t.data.head? = some '-'
    · have hd : decide (t.data.head? = some '-') = true := by simpa using hm
      rw [hd]
      simp only [if_true]
      cases htd : t.data with
      | nil => rw [htd] at hm; simp at hm
      | cons x r =>
        rw [htd] at hm
        simp only [List.head?_cons, Option.some.injEq] at hm
        rw [hm]
        rfl
    · have hd : decide (t.data.head? = some '-') = false := by simpa using hm
      rw [hd]
      simp

theorem parse_fixed6_unique (s t : String) (r : Bool × Nat × Nat)
    (hs : parse_fixed6 s = some r) (ht : parse_fixed6 t = some r) : s = t := by
  obtain ⟨neg, a, b⟩ := r
  have h1 := chars_of_parse_fixed6 s neg a b hs
  have h2 := chars_of_parse_fixed6 t neg a b ht
  exact String.ext (h1.trans h2.symm)

theorem fmt_f6_data (neg : Bool) (num den : Nat) :
    (fmt_f6 neg num den ++ "\n").data =
      fixed6_chars neg (micro_units num den / 10 ^ 6) (micro_units num den % 10 ^ 6) := by
  unfold fmt_f6 fmt_u fmt_frac6 fixed6_chars
  cases neg <;> simp [String.data_append]

theorem parse_fixed6_fmt_f6 (neg : Bool) (num den : Nat) :
    parse_fixed6 (fmt_f6 neg num den ++ "\n") =
      some (neg, micro_units num den / 10 ^ 6, micro_units num den % 10 ^ 6) := by
  have h := parse_fixed6_chars neg (micro_units num den / 10 ^ 6)
    (micro_units num den % 10 ^ 6) (Nat.mod_lt _ (by norm_num))
  rw [← fmt_f6_data] at h
  exact h

theorem fixed6_text_facts (neg : Bool) (num den : Nat) (hden : 0 < den) (text : String)
    (ht : text = fmt_f6 neg num den ++ "\n") :
    parse_fixed6 text =
      some (neg, micro_units num den / 10 ^ 6, micro_units num den % 10 ^ 6) ∧
    (∀ t : String, parse_fixed6 t = parse_fixed6 text → t = text) ∧
    text.data =
      fixed6_chars neg (micro_units num den / 10 ^ 6) (micro_units num den % 10 ^ 6) ∧
    reparse_fixed6 text = (neg, micro_units num den) ∧
    2 * (micro_units num den * den - num * 10 ^ 6) ≤ den ∧
    2 * (num * 10 ^ 6 - micro_units num den * den) ≤ den := by
  subst ht
  have hp := parse_fixed6_fmt_f6 neg num den
  have he := micro_units_error num den hden
  refine ⟨hp, ?_, fmt_f6_data neg num den, reparse_fmt_f6 neg num den, he.1, he.2⟩
  intro t h
  rw [hp] at h
  exact parse_fixed6_unique t _ _ h hp

/-- C5 as amended: for a finite float32 (first part) and, independently, for a finite
float64 (second part) scalar field, the printed text has exactly the shape optional `-`,
integer part without leading zeros, `.`, six fraction digits, line break.  Read strictly
(`parse_fixed6`) it gives back the sign bit and the number `N` of millionths, split as
integer part `N / 10^6` and fraction `N % 10^6`, and it is the only text that reads back
to that result; `N` is the stored magnitude `num / den` rounded to the nearest millionth,
at most half a millionth away.  The bit pattern itself is not recovered. -/
theorem C5_float_rendering_six_digits (name : String) (offset size : Nat)
    (nd : Option StructDescriptor) (mem : Memory) (base indent_level : Nat) :
    (f32_exp (read_u32 mem (base + offset)) ≠ 255 →
      parse_fixed6 (value_text (print_field_value
          (FieldDescriptor.mk name FIELD_TYPE_FLOAT offset size 0 nd) mem base indent_level)) =
        some (decide (f32_sign (read_u32 mem (base + offset)) = 1),
          micro_units (f32_num (read_u32 mem (base + offset))) f32_den / 10 ^ 6,
          micro_units (f32_num (read_u32 mem (base + offset))) f32_den % 10 ^ 6) ∧
      (∀ t : String,
        parse_fixed6 t = parse_fixed6 (value_text (print_field_value
          (FieldDescriptor.mk name FIELD_TYPE_FLOAT offset size 0 nd) mem base indent_level)) →
        t = value_text (print_field_value
          (FieldDescriptor.mk name FIELD_TYPE_FLOAT offset size 0 nd) mem base indent_level)) ∧
      (value_text (print_field_value
          (FieldDescriptor.mk name FIELD_TYPE_FLOAT offset size 0 nd) mem base
            indent_level)).data =
        fixed6_chars (decide (f32_sign (read_u32 mem (base + offset)) = 1))
          (micro_units (f32_num (read_u32 mem (base + offset))) f32_den / 10 ^ 6)
          (micro_units (f32_num (read_u32 mem (base + offset))) f32_den % 10 ^ 6) ∧
      reparse_fixed6 (value_text (print_field_value
          (FieldDescriptor.mk name FIELD_TYPE_FLOAT offset size 0 nd) mem base indent_level)) =
        (decide (f32_sign (read_u32 mem (base + offset)) = 1),
          micro_units (f32_num (read_u32 mem (base + offset))) f32_den) ∧
      2 * (micro_units (f32_num (read_u32 mem (base + offset))) f32_den * f32_den -
        f32_num (read_u32 mem (base + offset)) * 10 ^ 6) ≤ f32_den ∧
      2 * (f32_num (read_u32 mem (base + offset)) * 10 ^ 6 -
        micro_units (f32_num (read_u32 mem (base + offset))) f32_den * f32_den) ≤ f32_den) ∧
    (f64_exp (read_u64 mem (base + offset)) ≠ 2047 →
      parse_fixed6 (value_text (print_field_value
          (FieldDescriptor.mk name FIELD_TYPE_DOUBLE offset size 0 nd) mem base
            indent_level)) =
        some (decide (f64_sign (read_u64 mem (base + offset)) = 1),
          micro_units (f64_num (read_u64 mem (base + offset))) f64_den / 10 ^ 6,
          micro_units (f64_num (read_u64 mem (base + offset))) f64_den % 10 ^ 6) ∧
      (∀ t : String,
        parse_fixed6 t = parse_fixed6 (value_text (print_field_value
          (FieldDescriptor.mk name FIELD_TYPE_DOUBLE offset size 0 nd) mem base
            indent_level)) →
        t = value_text (print_field_value
          (FieldDescriptor.mk name FIELD_TYPE_DOUBLE offset size 0 nd) mem base
            indent_level)) ∧
      (value_text (print_field_value
          (FieldDescriptor.mk name FIELD_TYPE_DOUBLE offset size 0 nd) mem base
            indent_level)).data =
        fixed6_chars (decide (f64_sign (read_u64 mem (base + offset)) = 1))
          (micro_units (f64_num (read_u64 mem (base + offset))) f64_den / 10 ^ 6)
          (micro_units (f64_num (read_u64 mem (base + offset))) f64_den % 10 ^ 6) ∧
      reparse_fixed6 (value_text (print_field_value
          (FieldDescriptor.mk name FIELD_TYPE_DOUBLE offset size 0 nd) mem base
            indent_level)) =
        (decide (f64_sign (read_u64 mem (base + offset)) = 1),
          micro_units (f64_num (read_u64 mem (base + offset))) f64_den) ∧
      2 * (micro_units (f64_num (read_u64 mem (base + offset))) f64_den * f64_den -
        f64_num (read_u64 mem (base + offset)) * 10 ^ 6) ≤ f64_den ∧
      2 * (f64_num (read_u64 mem (base + offset)) * 10 ^ 6 -
        micro_units (f64_num (read_u64 mem (base + offset))) f64_den * f64_den) ≤
          f64_den) := by
  constructor
  · intro hf
    apply fixed6_text_facts _ _ _ (by unfold f32_den; positivity)
    rw [value_text_float]
    unfold fmt_float
    rw [if_neg hf]
  · intro hd
    apply fixed6_text_facts _ _ _ (by unfold f64_den; positivity)
    rw [value_text_double]
    unfold fmt_double
    rw [if_neg (by simpa using hd)]

/-- C5 (amended) at concrete inputs.  The eight bytes `00 00 80 7F 00 00 F0 3F` hold a
finite double (`0x3FF000007F800000`) whose low word is not a finite float; the bytes
`00 00 80 3F 00 00 F0 7F` hold the finite float `1.0` inside a non-finite double; the float
`-0.0` prints as `-0.000000`. -/
theorem C5_float_rendering_six_digits_witness :
    (f64_exp (read_u64 [0, 0x00, 0x00, 0x80, 0x7F, 0x00, 0x00, 0xF0, 0x3F] (1 + 0)) ≠ 2047 ∧
      f32_exp (read_u32 [0, 0x00, 0x00, 0x80, 0x7F, 0x00, 0x00, 0xF0, 0x3F] (1 + 0)) = 255 ∧
      value_text (print_field_value (FieldDescriptor.mk "voltage" FIELD_TYPE_DOUBLE 0 8 0 none)
        [0, 0x00, 0x00, 0x80, 0x7F, 0x00, 0x00, 0xF0, 0x3F] 1 0) = "1.000000\n" ∧
      parse_fixed6 (value_text (print_field_value
        (FieldDescriptor.mk "voltage" FIELD_TYPE_DOUBLE 0 8 0 none)
        [0, 0x00, 0x00, 0x80, 0x7F, 0x00, 0x00, 0xF0, 0x3F] 1 0)) = some (false, 1, 0)) ∧
    (f32_exp (read_u32 [0, 0x00, 0x00, 0x80, 0x3F, 0x00, 0x00, 0xF0, 0x7F] (1 + 0)) ≠ 255 ∧
      f64_exp (read_u64 [0, 0x00, 0x00, 0x80, 0x3F, 0x00, 0x00, 0xF0, 0x7F] (1 + 0)) = 2047 ∧
      value_text (print_field_value (FieldDescriptor.mk "gain" FIELD_TYPE_FLOAT 0 4 0 none)
        [0, 0x00, 0x00, 0x80, 0x3F, 0x00, 0x00, 0xF0, 0x7F] 1 0) = "1.000000\n" ∧
      parse_fixed6 (value_text (print_field_value
        (FieldDescriptor.mk "gain" FIELD_TYPE_FLOAT 0 4 0 none)
        [0, 0x00, 0x00, 0x80, 0x3F, 0x00, 0x00, 0xF0, 0x7F] 1 0)) = some (false, 1, 0)) ∧
    (f32_exp (read_u32 [0, 0, 0, 0, 0x80] (1 + 0)) ≠ 255 ∧
      value_text (print_field_value (FieldDescriptor.mk "gain" FIELD_TYPE_FLOAT 0 4 0 none)
        [0, 0, 0, 0, 0x80] 1 0) = "-0.000000\n" ∧
      parse_fixed6 (value_text (print_field_value
        (FieldDescriptor.mk "gain" FIELD_TYPE_FLOAT 0 4 0 none)
        [0, 0, 0, 0, 0x80] 1 0)) = some (true, 0, 0)) := by
  have h1 := ((C5_float_rendering_six_digits "voltage" 0 8 none
    [0, 0x00, 0x00, 0x80, 0x7F, 0x00, 0x00, 0xF0, 0x3F] 1 0).2 (by decide)).1
  have h2 := ((C5_float_rendering_six_digits "gain" 0 4 none
    [0, 0x00, 0x00, 0x80, 0x3F, 0x00, 0x00, 0xF0, 0x7F] 1 0).1 (by decide)).1
  have h3 := ((C5_float_rendering_six_digits "gain" 0 4 none
    [0, 0, 0, 0, 0x80] 1 0).1 (by decide)).1
  refine ⟨⟨by decide, by decide, by decide!, ?_⟩, ⟨by decide, by decide, by decide, ?_⟩,
    ⟨by decide, by decide, ?_⟩⟩
  · rw [h1]
    decide!
  · rw [h2]
    decide
  · rw [h3]
    decide

/-! ## Text fields without a terminator (C6, C7) -/

/-- C6 fails on the code: the descriptor below is well formed (`tag` occupies bytes 0..3 of a
4-byte composite placed at address 1) and the two memories hold the same 4-byte value, yet
the rendering differs, because the `%s` write of the text field runs on into the byte
stored after the composite (offset 4, outside the field and outside `[0, total_size)`).
The same happens for a `u8` array that the heuristic classifies as text. -/
theorem C6_text_field_reads_past_field :
    (0 + 1 * max 4 1 ≤ 4) ∧
    read_bytes [0, 0x41, 0x42, 0x43, 0x44, 0x45, 0] 1 4 =
      read_bytes [0, 0x41, 0x42, 0x43, 0x44, 0x46, 0] 1 4 ∧
    struct_print (some "v") [0, 0x41, 0x42, 0x43, 0x44, 0x45, 0] 1
        (some (StructDescriptor.mk "T" 4
          [FieldDescriptor.mk "tag" FIELD_TYPE_STRING 0 1 4 none])) ≠
      struct_print (some "v") [0, 0x41, 0x42, 0x43, 0x44, 0x46, 0] 1
        (some (StructDescriptor.mk "T" 4
          [FieldDescriptor.mk "tag" FIELD_TYPE_STRING 0 1 4 none])) ∧
    struct_print (some "v") [0, 0x41, 0x42, 0x43, 0x44, 0x45, 0] 1
        (some (StructDescriptor.mk "T" 4
          [FieldDescriptor.mk "tag" FIELD_TYPE_U8 0 1 4 none])) ≠
      struct_print (some "v") [0, 0x41, 0x42, 0x43, 0x44, 0x46, 0] 1
        (some (StructDescriptor.mk "T" 4
          [FieldDescriptor.mk "tag" FIELD_TYPE_U8 0 1 4 none])) := by
  refine ⟨by decide, by decide, by decide, by decide⟩

/-- C7 fails on the code: a 4-element text field holding `ABCD` with no zero byte, followed
by a `u8` field holding `0x45` and then a zero byte, is printed as `ABCDE` between
the quotes: the text contains the byte of the following field.  The same bytes declared as
a `u8` array pass the heuristic and are printed the same way. -/
theorem C7_text_field_prints_following_byte :
    read_bytes [0, 0x41, 0x42, 0x43, 0x44, 0x45, 0] 1 4 = [0x41, 0x42, 0x43, 0x44] ∧
    value_text (print_field_value (FieldDescriptor.mk "tag" FIELD_TYPE_STRING 0 1 4 none)
      [0, 0x41, 0x42, 0x43, 0x44, 0x45, 0] 1 0) = "\"ABCDE\"\n" ∧
    is_printable_string [0, 0x41, 0x42, 0x43, 0x44, 0x45, 0] 1 4 = 1 ∧
    value_text (print_field_value (FieldDescriptor.mk "tag" FIELD_TYPE_U8 0 1 4 none)
      [0, 0x41, 0x42, 0x43, 0x44, 0x45, 0] 1 0) = "\"ABCDE\"\n" := by
  refine ⟨by decide, by decide, by decide, by decide⟩

/-! ## Arrays (C8, C9, C10) -/

theorem intersperse_append_singleton (s : String) (l : List String) (x : String) :
    List.intersperse s (l ++ [x]) = l.flatMap (fun y => [y, s]) ++ [x] := by
  induction l with
  | nil => simp
  | cons a l ih =>
    cases hl : l ++ [x] with
    | nil => simp at hl
    | cons b r =>
      rw [List.cons_append, hl, List.intersperse_cons_cons, ← hl, ih]
      simp

theorem separated_loop_eq_intersperse (g : Nat → String) (s : String) (m : Nat) :
    (List.range m).flatMap (fun i => [g i] ++ (if i < m - 1 then [s] else [])) =
      List.intersperse s ((List.range m).map g) := by
  cases m with
  | zero => simp
  | succ m =>
    rw [List.range_succ, List.map_append, List.map_singleton, intersperse_append_singleton,
      List.flatMap_append, List.flatMap_map]
    congr 1
    · apply List.flatMap_congr
      intro i hi
      rw [List.mem_range] at hi
      simp [hi]
    · simp

theorem print_field_array_numeric (type : FieldType) (size n : Nat) (mem : Memory)
    (field_addr indent_level : Nat)
    (hnot : ¬ (type = FIELD_TYPE_STRING ∨
      (type = FIELD_TYPE_U8 ∧ is_printable_string mem field_addr n ≠ 0))) :
    print_field_array type size n mem field_addr indent_level =
      ["["] ++
        List.intersperse ", " ((List.range (min n 16)).map
          (fun i => print_array_element type mem (field_addr + (i * size) % 2 ^ 64))) ++
        (if n > 16 then [", ..."] else []) ++ ["]\n"] ++
        print_hex_memory mem field_addr ((n * size) % 2 ^ 64) STRUCT_PRINT_HEX_BYTES
          indent_level := by
  unfold print_field_array
  rw [if_neg hnot]
  have hmin : (if n > 16 then 16 else n) = min n 16 := by
    split <;> omega
  simp only [hmin]
  rw [separated_loop_eq_intersperse
    (fun i => print_array_element type mem (field_addr + (i * size) % 2 ^ 64)) ", " (min n 16)]
  have hgt : (n > min n 16) = (n > 16) := by
    apply propext
    omega
  simp only [hgt]

theorem print_field_value_array (name : String) (type : FieldType) (offset size n : Nat)
    (nd : Option StructDescriptor) (mem : Memory) (base indent_level : Nat)
    (hn : 0 < n) (hs : type ≠ FIELD_TYPE_STRUCT) :
    print_field_value (FieldDescriptor.mk name type offset size n nd) mem base indent_level =
      print_field_array type size n mem (base + offset) indent_level := by
  unfold print_field_value
  simp [hn, hs]

theorem print_field_array_text (type : FieldType) (size n : Nat) (mem : Memory)
    (field_addr indent_level : Nat)
    (h : type = FIELD_TYPE_STRING ∨
      (type = FIELD_TYPE_U8 ∧ is_printable_string mem field_addr n ≠ 0)) :
    print_field_array type size n mem field_addr indent_level =
      ["\"" ++ bytes_to_string (c_string_bytes mem field_addr) ++ "\"\n"] ++
        print_hex_memory mem field_addr n STRUCT_PRINT_HEX_BYTES indent_level := by
  unfold print_field_array
  rw [if_pos h]

theorem quoted_head (s : String) : ("\"" ++ s ++ "\"\n").data.head? = some '"' := by
  simp [String.data_append]

/-- C8: a `u8` array field with `L > 0` elements is rendered as quoted text exactly when
`is_printable_string` accepts its `L` bytes, and as a bracketed numeric list otherwise.
A 33-byte buffer holding `request` and 26 zero bytes is printed as `"request"`; a 33-byte
buffer of the non-printable bytes `0x80 .. 0xA0` is printed as a list of 16 numbers
followed by `...`. -/
theorem C8_u8_array_text_iff_heuristic (name : String) (offset size L : Nat)
    (nd : Option StructDescriptor) (mem : Memory) (base indent_level : Nat) (hL : 0 < L) :
    (is_printable_string mem (base + offset) L = 1 →
      print_field_value (FieldDescriptor.mk name FIELD_TYPE_U8 offset size L nd) mem base
          indent_level =
        ["\"" ++ bytes_to_string (c_string_bytes mem (base + offset)) ++ "\"\n"] ++
          print_hex_memory mem (base + offset) L STRUCT_PRINT_HEX_BYTES indent_level) ∧
    (is_printable_string mem (base + offset) L ≠ 1 →
      print_field_value (FieldDescriptor.mk name FIELD_TYPE_U8 offset size L nd) mem base
          indent_level =
        ["["] ++
          List.intersperse ", " ((List.range (min L 16)).map
            (fun i => fmt_u (read_u8 mem (base + offset + (i * size) % 2 ^ 64)))) ++
          (if L > 16 then [", ..."] else []) ++ ["]\n"] ++
          print_hex_memory mem (base + offset) ((L * size) % 2 ^ 64) STRUCT_PRINT_HEX_BYTES
            indent_level) ∧
    ((value_text (print_field_value (FieldDescriptor.mk name FIELD_TYPE_U8 offset size L nd)
        mem base indent_level)).data.head? = some '"' ↔
      is_printable_string mem (base + offset) L = 1) ∧
    (value_text (print_field_value (FieldDescriptor.mk name FIELD_TYPE_U8 offset size L nd)
        mem base indent_level) = "[" ↔
      is_printable_string mem (base + offset) L ≠ 1) ∧
    value_text (print_field_value (FieldDescriptor.mk "type" FIELD_TYPE_U8 0 1 33 none)
      ([0, 0x72, 0x65, 0x71, 0x75, 0x65, 0x73, 0x74] ++ List.replicate 26 0) 1 0) =
      "\"request\"\n" ∧
    render (print_field_value (FieldDescriptor.mk "raw" FIELD_TYPE_U8 0 1 33 none)
      [0, 0x80, 0x81, 0x82, 0x83, 0x84, 0x85, 0x86, 0x87, 0x88, 0x89, 0x8A, 0x8B, 0x8C, 0x8D,
        0x8E, 0x8F, 0x90, 0x91, 0x92, 0x93, 0x94, 0x95, 0x96, 0x97, 0x98, 0x99, 0x9A, 0x9B,
        0x9C, 0x9D, 0x9E, 0x9F, 0xA0] 1 0) =
      "[128, 129, 130, 131, 132, 133, 134, 135, 136, 137, 138, 139, 140, 141, 142, 143, ...]\n"
      ++ "        └─ Memory: 80 81 82 83 84 85 86 87 88 89 8A 8B 8C 8D 8E 8F ...\n" := by
  have htext : is_printable_string mem (base + offset) L = 1 →
      print_field_value (FieldDescriptor.mk name FIELD_TYPE_U8 offset size L nd) mem base
          indent_level =
        ["\"" ++ bytes_to_string (c_string_bytes mem (base + offset)) ++ "\"\n"] ++
          print_hex_memory mem (base + offset) L STRUCT_PRINT_HEX_BYTES indent_level := by
    intro h1
    rw [print_field_value_array name FIELD_TYPE_U8 offset size L nd mem base indent_level hL
      (by decide)]
    apply print_field_array_text
    right
    exact ⟨rfl, by omega⟩
  have hlist : is_printable_string mem (base + offset) L ≠ 1 →
      print_field_value (FieldDescriptor.mk name FIELD_TYPE_U8 offset size L nd) mem base
          indent_level =
        ["["] ++
          List.intersperse ", " ((List.range (min L 16)).map
            (fun i => fmt_u (read_u8 mem (base + offset + (i * size) % 2 ^ 64)))) ++
          (if L > 16 then [", ..."] else []) ++ ["]\n"] ++
          print_hex_memory mem (base + offset) ((L * size) % 2 ^ 64) STRUCT_PRINT_HEX_BYTES
            indent_level := by
    intro h1
    have h0 : is_printable_string mem (base + offset) L = 0 := by
      rcases is_printable_string_zero_or_one mem (base + offset) L with h | h
      · exact absurd h h1
      · exact h
    rw [print_field_value_array name FIELD_TYPE_U8 offset size L nd mem base indent_level hL
      (by decide)]
    rw [print_field_array_numeric FIELD_TYPE_U8 size L mem (base + offset) indent_level
      (by rintro (h | ⟨_, h⟩)
          · cases h
          · exact h h0)]
    rfl
  refine ⟨htext, hlist, ?_, ?_, by decide, by decide⟩
  · by_cases h1 : is_printable_string mem (base + offset) L = 1
    · rw [htext h1]
      simp only [value_text, List.singleton_append, List.headD_cons, h1, iff_true]
      exact quoted_head _
    · rw [hlist h1]
      simp only [value_text, List.singleton_append, List.append_assoc, List.cons_append,
        List.headD_cons, h1, iff_false]
      decide
  · by_cases h1 : is_printable_string mem (base + offset) L = 1
    · rw [htext h1]
      simp only [value_text, List.singleton_append, List.headD_cons, h1]
      refine ⟨fun h => ?_, fun h => absurd rfl h⟩
      exfalso
      have := quoted_head (bytes_to_string (c_string_bytes mem (base + offset)))
      rw [h] at this
      revert this
      decide
    · rw [hlist h1]
      simp [value_text, h1]

/-- C8 at a concrete input: the `type` buffer of the demo program, holding `request`. -/
theorem C8_u8_array_text_iff_heuristic_witness :
    (0 < 33 ∧ is_printable_string
      ([0, 0x72, 0x65, 0x71, 0x75, 0x65, 0x73, 0x74] ++ List.replicate 26 0) (1 + 0) 33 = 1) ∧
    print_field_value (FieldDescriptor.mk "type" FIELD_TYPE_U8 0 1 33 none)
      ([0, 0x72, 0x65, 0x71, 0x75, 0x65, 0x73, 0x74] ++ List.replicate 26 0) 1 0 =
      ["\"" ++ bytes_to_string (c_string_bytes
          ([0, 0x72, 0x65, 0x71, 0x75, 0x65, 0x73, 0x74] ++ List.replicate 26 0) (1 + 0)) ++
          "\"\n"] ++
        print_hex_memory ([0, 0x72, 0x65, 0x71, 0x75, 0x65, 0x73, 0x74] ++ List.replicate 26 0)
          (1 + 0) 33 STRUCT_PRINT_HEX_BYTES 0 :=
  ⟨⟨by decide, by decide⟩,
    (C8_u8_array_text_iff_heuristic "type" 0 1 33 none
      ([0, 0x72, 0x65, 0x71, 0x75, 0x65, 0x73, 0x74] ++ List.replicate 26 0) 1 0
      (by decide)).1 (by decide)⟩

/-- C9: an array field rendered as a numeric list (element count `n > 0`, not a text field
and not a `u8` array classified as text) is written as `[`, then the renderings of the
elements `0 .. min(n,16)-1` in order separated by `, `, then `, ...` exactly when
`n > 16`, then `]`, followed by the hex dump of the field bounded to 16 bytes.  The byte
count handed to the dump is the `size_t` product `n * size`, reduced modulo `2^64`; for a
field that fits its composite (`n * size < 2^64`, which the descriptor invariant
`offset + size * n <= total_size` gives) this is the whole field of `n * size` bytes and the
element addresses are `base + offset + i * size`.  Where the product wraps the dump is
shorter: with `n = 2^63` and `size = 2` it is empty and carries no `...`. -/
theorem C9_numeric_list_shape (name : String) (type : FieldType) (offset size n : Nat)
    (nd : Option StructDescriptor) (mem : Memory) (base indent_level : Nat)
    (hn : 0 < n) (hs : type ≠ FIELD_TYPE_STRUCT) (hstr : type ≠ FIELD_TYPE_STRING)
    (hu8 : type = FIELD_TYPE_U8 → is_printable_string mem (base + offset) n = 0) :
    print_field_value (FieldDescriptor.mk name type offset size n nd) mem base indent_level =
      ["["] ++
        List.intersperse ", " ((List.range (min n 16)).map
          (fun i => print_array_element type mem (base + offset + (i * size) % 2 ^ 64))) ++
        (if n > 16 then [", ..."] else []) ++ ["]\n"] ++
        print_hex_memory mem (base + offset) ((n * size) % 2 ^ 64) STRUCT_PRINT_HEX_BYTES
          indent_level ∧
    ((List.range (min n 16)).map
      (fun i => print_array_element type mem (base + offset + (i * size) % 2 ^ 64))).length =
        min n 16 ∧
    (n * size < 2 ^ 64 →
      print_field_value (FieldDescriptor.mk name type offset size n nd) mem base
          indent_level =
        ["["] ++
          List.intersperse ", " ((List.range (min n 16)).map
            (fun i => print_array_element type mem (base + offset + i * size))) ++
          (if n > 16 then [", ..."] else []) ++ ["]\n"] ++
          print_hex_memory mem (base + offset) (n * size) STRUCT_PRINT_HEX_BYTES
            indent_level) ∧
    render (print_field_value
      (FieldDescriptor.mk "wide" FIELD_TYPE_U16 0 2 (2 ^ 63) none) [0, 1, 0, 2, 0] 1 0) =
      "[1, 2, 0, 0, 0, 0, 0, 0, 0, 0, 0, 0, 0, 0, 0, 0, ...]\n" ++
      "        └─ Memory: \n" := by
  have hgen : print_field_value (FieldDescriptor.mk name type offset size n nd) mem base
      indent_level =
      ["["] ++
        List.intersperse ", " ((List.range (min n 16)).map
          (fun i => print_array_element type mem (base + offset + (i * size) % 2 ^ 64))) ++
        (if n > 16 then [", ..."] else []) ++ ["]\n"] ++
        print_hex_memory mem (base + offset) ((n * size) % 2 ^ 64) STRUCT_PRINT_HEX_BYTES
          indent_level := by
    rw [print_field_value_array name type offset size n nd mem base indent_level hn hs]
    apply print_field_array_numeric
    rintro (h | ⟨h1, h2⟩)
    · exact hstr h
    · exact h2 (hu8 h1)
  refine ⟨hgen, by simp, ?_, ?_⟩
  · intro hfit
    rw [hgen, Nat.mod_eq_of_lt hfit]
    have hmap : (List.range (min n 16)).map
        (fun i => print_array_element type mem (base + offset + (i * size) % 2 ^ 64)) =
        (List.range (min n 16)).map
          (fun i => print_array_element type mem (base + offset + i * size)) := by
      apply List.map_congr_left
      intro i hi
      rw [List.mem_range] at hi
      have hle : i * size ≤ n * size := Nat.mul_le_mul_right size (by omega)
      rw [Nat.mod_eq_of_lt (by omega)]
    rw [hmap]
  · set_option maxRecDepth 8000 in decide

/-- C9 at a concrete input: twenty signed 16-bit elements, of which sixteen are shown. -/
theorem C9_numeric_list_shape_witness :
    (0 < 20 ∧ FIELD_TYPE_S16 ≠ FIELD_TYPE_STRUCT ∧ FIELD_TYPE_S16 ≠ FIELD_TYPE_STRING ∧
      20 * 2 < 2 ^ 64) ∧
    render (print_field_value (FieldDescriptor.mk "samples" FIELD_TYPE_S16 0 2 20 none)
      [0, 1, 0, 0xFF, 0xFF, 3, 0, 4, 0, 5, 0, 6, 0, 7, 0, 8, 0, 9, 0, 10, 0, 11, 0, 12, 0,
        13, 0, 14, 0, 15, 0, 16, 0, 17, 0, 18, 0, 19, 0, 20, 0] 1 0) =
      "[1, -1, 3, 4, 5, 6, 7, 8, 9, 10, 11, 12, 13, 14, 15, 16, ...]\n" ++
      "        └─ Memory: 01 00 FF FF 03 00 04 00 05 00 06 00 07 00 08 00 ...\n" := by
  refine ⟨⟨by decide, by decide, by decide, by decide⟩, ?_⟩
  rw [(C9_numeric_list_shape "samples" FIELD_TYPE_S16 0 2 20 none _ 1 0 (by decide)
    (by decide) (by decide) (by intro h; cases h)).2.2.1 (by decide)]
  decide

/-- C10 fails on the code: the element `switch` of the array loop has no case for the
float tags, so every element of a float32 or float64 array is written as `?` whatever the
memory holds; the array `{1.0f, 2.0f}` is printed as `[?, ?]`, while the scalar path prints
the same four bytes as `1.000000`. -/
theorem C10_float_array_elements_not_rendered :
    (∀ (mem : Memory) (elem_addr : Nat),
      print_array_element FIELD_TYPE_FLOAT mem elem_addr = "?" ∧
        print_array_element FIELD_TYPE_DOUBLE mem elem_addr = "?") ∧
    render (print_field_value (FieldDescriptor.mk "samples" FIELD_TYPE_FLOAT 0 4 2 none)
      [0, 0x00, 0x00, 0x80, 0x3F, 0x00, 0x00, 0x00, 0x40] 1 0) =
      "[?, ?]\n" ++ "        └─ Memory: 00 00 80 3F 00 00 00 40 \n" ∧
    value_text (print_field_value (FieldDescriptor.mk "sample" FIELD_TYPE_FLOAT 0 4 0 none)
      [0, 0x00, 0x00, 0x80, 0x3F, 0x00, 0x00, 0x00, 0x40] 1 0) = "1.000000\n" ∧
    render (print_field_value (FieldDescriptor.mk "volts" FIELD_TYPE_DOUBLE 0 8 1 none)
      [0, 0, 0, 0, 0, 0, 0, 0xF0, 0x3F] 1 0) =
      "[?]\n" ++ "        └─ Memory: 00 00 00 00 00 00 F0 3F \n" := by
  refine ⟨fun mem elem_addr => ⟨rfl, rfl⟩, by decide, by decide, by decide⟩

/-! ## Nested composites (C13, C17, C19) -/

/-- C13: for a nested-composite field with a non-null nested descriptor, the output of
`print_field_value` at depth `d` on base address `b` is a single line break followed by the
whole output of `struct_print_internal` called with an empty display name, the address
`b + offset`, the nested descriptor and depth `d + 1`; nothing is written inline for the
field itself. -/
theorem C13_nested_field_recurses (name : String) (offset size array_count : Nat)
    (nested : StructDescriptor) (mem : Memory) (b d : Nat) :
    print_field_value
        (FieldDescriptor.mk name FIELD_TYPE_STRUCT offset size array_count (some nested))
        mem b d =
      ["\n"] ++ struct_print_internal (some "") mem (b + offset) (some nested) (d + 1) := by
  simp [print_field_value]

theorem struct_print_fields_cons (field : FieldDescriptor) (rest : List FieldDescriptor)
    (mem : Memory) (struct_data indent_level : Nat) :
    struct_print_fields (field :: rest) mem struct_data indent_level =
      print_indent indent_level ++
      ["  [+0x" ++ fmt_X 4 (field.offset % 2 ^ 32) ++ "] "] ++
      [field.name ++ ": "] ++
      print_field_value field mem struct_data indent_level ++
      (if field.type ≠ FIELD_TYPE_STRUCT ∧ 0 < rest.length then ["\n"] else []) ++
      struct_print_fields rest mem struct_data indent_level := by
  rw [struct_print_fields]

theorem struct_print_internal_some (var_name : Option String) (mem : Memory)
    (struct_data : Nat) (struct_name : String) (struct_size : Nat)
    (fields : List FieldDescriptor) (indent_level : Nat) (h : struct_data ≠ 0) :
    struct_print_internal var_name mem struct_data
        (some (StructDescriptor.mk struct_name struct_size fields)) indent_level =
      print_indent indent_level ++ ["========================================\n"] ++
      print_indent indent_level ++
      [match var_name with
        | some v => if v ≠ "" then "Struct: " ++ v ++ " [" ++ struct_name ++ "]\n"
                    else "Struct: [" ++ struct_name ++ "]\n"
        | none => "Struct: [" ++ struct_name ++ "]\n"] ++
      print_indent indent_level ++
      ["Address: 0x" ++ fmt_X 8 (struct_data % 2 ^ 32) ++ "\n"] ++
      print_indent indent_level ++
      ["Size: " ++ fmt_u (struct_size % 2 ^ 32) ++ " bytes\n"] ++
      print_indent indent_level ++ ["========================================\n"] ++
      struct_print_fields fields mem struct_data indent_level ++
      print_indent indent_level ++ ["========================================\n"] := by
  simp [struct_print_internal, h]

/-- C17: for a nested-composite field whose nested descriptor is null, `print_field_value`
writes exactly the placeholder line, whatever the memory holds (no byte of the value is
read), without recursing and without the null-pointer error line; the loop then goes on
with the remaining fields, and the composite still ends with its trailing delimiter. -/
theorem C17_nested_without_descriptor (name : String) (offset size array_count : Nat)
    (mem : Memory) (base indent_level : Nat) :
    print_field_value
        (FieldDescriptor.mk name FIELD_TYPE_STRUCT offset size array_count none)
        mem base indent_level = ["<nested struct, no descriptor>\n"] ∧
    (∀ mem2 : Memory,
      print_field_value
          (FieldDescriptor.mk name FIELD_TYPE_STRUCT offset size array_count none)
          mem2 base indent_level =
        print_field_value
          (FieldDescriptor.mk name FIELD_TYPE_STRUCT offset size array_count none)
          mem base indent_level) ∧
    "Error: NULL pointer!\n" ∉
      print_field_value
        (FieldDescriptor.mk name FIELD_TYPE_STRUCT offset size array_count none)
        mem base indent_level ∧
    (∀ rest : List FieldDescriptor,
      struct_print_fields
          (FieldDescriptor.mk name FIELD_TYPE_STRUCT offset size array_count none :: rest)
          mem base indent_level =
        print_indent indent_level ++
          ["  [+0x" ++ fmt_X 4 (offset % 2 ^ 32) ++ "] ", name ++ ": ",
            "<nested struct, no descriptor>\n"] ++
          struct_print_fields rest mem base indent_level) ∧
    (∀ (var_name : Option String) (struct_name : String) (struct_size : Nat)
        (before rest : List FieldDescriptor), base ≠ 0 →
      ∃ front : Output,
        struct_print_internal var_name mem base
            (some (StructDescriptor.mk struct_name struct_size
              (before ++ FieldDescriptor.mk name FIELD_TYPE_STRUCT offset size array_count none
                :: rest))) indent_level =
          front ++ struct_print_fields rest mem base indent_level ++
            print_indent indent_level ++ ["========================================\n"]) := by
  have h1 : print_field_value
      (FieldDescriptor.mk name FIELD_TYPE_STRUCT offset size array_count none)
      mem base indent_level = ["<nested struct, no descriptor>\n"] := by
    simp [print_field_value]
  have h2 : ∀ mem2 : Memory, print_field_value
      (FieldDescriptor.mk name FIELD_TYPE_STRUCT offset size array_count none)
      mem2 base indent_level = ["<nested struct, no descriptor>\n"] := by
    intro mem2
    simp [print_field_value]
  have h4 : ∀ rest : List FieldDescriptor,
      struct_print_fields
          (FieldDescriptor.mk name FIELD_TYPE_STRUCT offset size array_count none :: rest)
          mem base indent_level =
        print_indent indent_level ++
          ["  [+0x" ++ fmt_X 4 (offset % 2 ^ 32) ++ "] ", name ++ ": ",
            "<nested struct, no descriptor>\n"] ++
          struct_print_fields rest mem base indent_level := by
    intro rest
    rw [struct_print_fields_cons, h1]
    simp [FieldDescriptor.type, FieldDescriptor.offset, FieldDescriptor.name]
  refine ⟨h1, ?_, ?_, h4, ?_⟩
  · intro mem2
    rw [h1, h2]
  · rw [h1]
    decide
  · intro var_name struct_name struct_size before rest hb
    rw [struct_print_internal_some var_name mem base struct_name struct_size _ indent_level hb]
    have hsplit : ∀ (l1 : List FieldDescriptor) (f : FieldDescriptor)
        (l2 : List FieldDescriptor),
        ∃ pre : Output, struct_print_fields (l1 ++ f :: l2) mem base indent_level =
          pre ++ struct_print_fields (f :: l2) mem base indent_level := by
      intro l1 f l2
      induction l1 with
      | nil => exact ⟨[], by simp⟩
      | cons a l1 ih =>
        obtain ⟨pre, hpre⟩ := ih
        rw [List.cons_append, struct_print_fields_cons, hpre]
        exact ⟨print_indent indent_level ++
          ["  [+0x" ++ fmt_X 4 (a.offset % 2 ^ 32) ++ "] "] ++ [a.name ++ ": "] ++
          print_field_value a mem base indent_level ++
          (if a.type ≠ FIELD_TYPE_STRUCT ∧ 0 < (l1 ++ f :: l2).length then ["\n"] else []) ++
          pre, by simp only [List.append_assoc]⟩
    obtain ⟨pre, hpre⟩ := hsplit before
      (FieldDescriptor.mk name FIELD_TYPE_STRUCT offset size array_count none) rest
    rw [hpre, h4]
    exact ⟨print_indent indent_level ++ ["========================================\n"] ++
      print_indent indent_level ++
      [match var_name with
        | some v => if v ≠ "" then "Struct: " ++ v ++ " [" ++ struct_name ++ "]\n"
                    else "Struct: [" ++ struct_name ++ "]\n"
        | none => "Struct: [" ++ struct_name ++ "]\n"] ++
      print_indent indent_level ++
      ["Address: 0x" ++ fmt_X 8 (base % 2 ^ 32) ++ "\n"] ++
      print_indent indent_level ++
      ["Size: " ++ fmt_u (struct_size % 2 ^ 32) ++ " bytes\n"] ++
      print_indent indent_level ++ ["========================================\n"] ++
      pre ++ print_indent indent_level ++
        ["  [+0x" ++ fmt_X 4 (offset % 2 ^ 32) ++ "] ", name ++ ": ",
          "<nested struct, no descriptor>\n"], by simp only [List.append_assoc]⟩

/-- C17 at a concrete input: a composite whose first field is a nested composite without
descriptor and whose second field is a `u8`; both are rendered, and the error line is not
written. -/
theorem C17_nested_without_descriptor_witness :
    print_field_value (FieldDescriptor.mk "inner" FIELD_TYPE_STRUCT 0 1 0 none) [0, 7, 9] 1 0 =
      ["<nested struct, no descriptor>\n"] ∧
    render (struct_print (some "v") [0, 7, 9] 1
      (some (StructDescriptor.mk "T" 2
        [FieldDescriptor.mk "inner" FIELD_TYPE_STRUCT 0 1 0 none,
          FieldDescriptor.mk "code" FIELD_TYPE_U8 1 1 0 none]))) =
      "========================================\n" ++
      "Struct: v [T]\n" ++
      "Address: 0x00000001\n" ++
      "Size: 2 bytes\n" ++
      "========================================\n" ++
      "  [+0x0000] inner: <nested struct, no descriptor>\n" ++
      "  [+0x0001] code: 9 (0x09)\n" ++
      "        └─ Memory: 09 \n" ++
      "========================================\n" :=
  ⟨(C17_nested_without_descriptor "inner" 0 1 0 [0, 7, 9] 1 0).1,
    by set_option maxRecDepth 8000 in decide⟩

/-- C19: the element count of a nested-composite field is ignored: two field descriptors
tagged nested-composite that differ only in their element count produce the same output on
every memory, base address and depth. -/
theorem C19_nested_element_count_ignored (name : String) (offset size c1 c2 : Nat)
    (nd : Option StructDescriptor) (mem : Memory) (base indent_level : Nat) :
    print_field_value (FieldDescriptor.mk name FIELD_TYPE_STRUCT offset size c1 nd) mem base
        indent_level =
      print_field_value (FieldDescriptor.mk name FIELD_TYPE_STRUCT offset size c2 nd) mem base
        indent_level := by
  cases nd <;> simp [print_field_value]

/-! ## The heuristic depends on the buffer only (C20) -/

theorem read_bytes_congr (mem1 mem2 : Memory) (data1 data2 L : Nat)
    (h : ∀ i, i < L → read_u8 mem1 (data1 + i) = read_u8 mem2 (data2 + i)) :
    read_bytes mem1 data1 L = read_bytes mem2 data2 L := by
  unfold read_bytes
  apply List.map_congr_left
  intro i hi
  exact h i (List.mem_range.1 hi)

/-- C20: the text heuristic is a total function of the buffer's own `L` bytes: two memories
(and buffer addresses) that agree on the bytes at indices `0 .. L-1` give the same result,
whatever they hold elsewhere, so no index `>= L` is read; the result is always 0 or 1.
This holds for every `L`, in particular for `L >= 1`. -/
theorem C20_heuristic_depends_on_buffer_only (mem1 mem2 : Memory) (data1 data2 L : Nat)
    (h : ∀ i, i < L → read_u8 mem1 (data1 + i) = read_u8 mem2 (data2 + i)) :
    is_printable_string mem1 data1 L = is_printable_string mem2 data2 L ∧
    (is_printable_string mem1 data1 L = 1 ∨ is_printable_string mem1 data1 L = 0) := by
  refine ⟨?_, is_printable_string_zero_or_one mem1 data1 L⟩
  unfold is_printable_string
  rw [read_bytes_congr mem1 mem2 data1 data2 L h]

/-- C20 at a concrete input: the buffer `Hi` + zero byte inside two memories that differ
before and after it. -/
theorem C20_heuristic_depends_on_buffer_only_witness :
    (∀ i, i < 3 →
      read_u8 [9, 0x48, 0x69, 0, 0xFF, 0x01] (1 + i) =
        read_u8 [0, 0, 0x48, 0x69, 0, 0x41, 0x42] (2 + i)) ∧
    is_printable_string [9, 0x48, 0x69, 0, 0xFF, 0x01] 1 3 =
      is_printable_string [0, 0, 0x48, 0x69, 0, 0x41, 0x42] 2 3 ∧
    is_printable_string [9, 0x48, 0x69, 0, 0xFF, 0x01] 1 3 = 1 :=
  ⟨by decide,
    (C20_heuristic_depends_on_buffer_only [9, 0x48, 0x69, 0, 0xFF, 0x01]
      [0, 0, 0x48, 0x69, 0, 0x41, 0x42] 1 2 3 (by decide)).1,
    by decide⟩

/-! ## Unrecognised tags (C18) -/

/-- Tags for which the scalar `switch` of `print_field_value` has no case. -/
theorem no_scalar_case_cases (t : FieldType)
    (h : t = FIELD_TYPE_ARRAY ∨ t = FIELD_TYPE_STRING ∨ ∃ code, t = FIELD_TYPE_INVALID code)
    (name : String) (offset size : Nat) (nd : Option StructDescriptor) (mem : Memory)
    (base indent_level : Nat) :
    print_field_value (FieldDescriptor.mk name t offset size 0 nd) mem base indent_level =
      ["<unknown type>\n"] := by
  rcases h with h | h | ⟨code, h⟩ <;> subst h <;> simp [print_field_value]

/-- C18 fails as stated: with a positive element count a field tagged with the bare array
tag, or with a value outside the enumeration, takes the array branch and is rendered as a
bracketed list of `?` followed by its hex dump, not as `<unknown type>`. -/
theorem C18_unknown_tag_with_elements_is_a_list :
    render (print_field_value (FieldDescriptor.mk "raw" FIELD_TYPE_ARRAY 0 1 2 none)
      [0, 7, 9] 1 0) = "[?, ?]\n" ++ "        └─ Memory: 07 09 \n" ∧
    render (print_field_value (FieldDescriptor.mk "raw" (FIELD_TYPE_INVALID 99) 0 1 2 none)
      [0, 7, 9] 1 0) = "[?, ?]\n" ++ "        └─ Memory: 07 09 \n" ∧
    "<unknown type>\n" ∉
      print_field_value (FieldDescriptor.mk "raw" FIELD_TYPE_ARRAY 0 1 2 none) [0, 7, 9] 1 0 := by
  refine ⟨by decide, by decide, by decide⟩

/-- C18 as amended: a field with element count 0 whose tag has no scalar decoding (the bare
array tag, the text tag, or a value outside the enumeration) is rendered as the single
write `<unknown type>` and nothing else; with a positive element count a field tagged with
the bare array tag or a value outside the enumeration is rendered as a bracketed list
holding `?` for each of the first `min(n,16)` elements, followed by the hex dump. -/
theorem C18_unknown_tag_marker (t : FieldType) (name : String) (offset size n : Nat)
    (nd : Option StructDescriptor) (mem : Memory) (base indent_level : Nat)
    (ht : t = FIELD_TYPE_ARRAY ∨ ∃ code, t = FIELD_TYPE_INVALID code) :
    print_field_value (FieldDescriptor.mk name t offset size 0 nd) mem base indent_level =
      ["<unknown type>\n"] ∧
    print_field_value (FieldDescriptor.mk name FIELD_TYPE_STRING offset size 0 nd) mem base
      indent_level = ["<unknown type>\n"] ∧
    (0 < n →
      print_field_value (FieldDescriptor.mk name t offset size n nd) mem base indent_level =
        ["["] ++ List.intersperse ", " (List.replicate (min n 16) "?") ++
          (if n > 16 then [", ..."] else []) ++ ["]\n"] ++
          print_hex_memory mem (base + offset) ((n * size) % 2 ^ 64) STRUCT_PRINT_HEX_BYTES
            indent_level) := by
  refine ⟨?_, ?_, ?_⟩
  · apply no_scalar_case_cases
    rcases ht with h | h
    · exact Or.inl h
    · exact Or.inr (Or.inr h)
  · exact no_scalar_case_cases _ (Or.inr (Or.inl rfl)) _ _ _ _ _ _ _
  · intro hn
    have hs : t ≠ FIELD_TYPE_STRUCT := by
      rcases ht with h | ⟨code, h⟩ <;> subst h <;> simp
    have hstr : t ≠ FIELD_TYPE_STRING := by
      rcases ht with h | ⟨code, h⟩ <;> subst h <;> simp
    have hu8 : t ≠ FIELD_TYPE_U8 := by
      rcases ht with h | ⟨code, h⟩ <;> subst h <;> simp
    rw [print_field_value_array name t offset size n nd mem base indent_level hn hs,
      print_field_array_numeric t size n mem (base + offset) indent_level
        (by rintro (h | ⟨h, _⟩)
            · exact hstr h
            · exact hu8 h)]
    have helem : (List.range (min n 16)).map
        (fun i => print_array_element t mem (base + offset + (i * size) % 2 ^ 64)) =
        List.replicate (min n 16) "?" := by
      have hq : ∀ a : Nat, print_array_element t mem a = "?" := by
        intro a
        rcases ht with h | ⟨code, h⟩ <;> subst h <;> rfl
      simp only [hq]
      rw [List.eq_replicate_iff]
      refine ⟨by simp, ?_⟩
      intro b hb
      simp at hb
      exact hb.2
    rw [helem]

/-- C18 (amended) at a concrete input: a field carrying the tag value 99, once with no
elements and once with two. -/
theorem C18_unknown_tag_marker_witness :
    (FIELD_TYPE_INVALID 99 = FIELD_TYPE_ARRAY ∨ ∃ code, FIELD_TYPE_INVALID 99 =
      FIELD_TYPE_INVALID code) ∧
    print_field_value (FieldDescriptor.mk "raw" (FIELD_TYPE_INVALID 99) 0 1 0 none)
      [0, 7, 9] 1 0 = ["<unknown type>\n"] :=
  ⟨Or.inr ⟨99, rfl⟩,
    (C18_unknown_tag_marker (FIELD_TYPE_INVALID 99) "raw" 0 1 2 none [0, 7, 9] 1 0
      (Or.inr ⟨99, rfl⟩)).1⟩

/-! ## The string length limit (C12) -/

/-- C12 fails on the code: `STRUCT_PRINT_STRING_MAX_LEN` is 512, yet a `u8` array of 600
elements that starts with the zero-terminated text `Hi` is printed as the quoted string
`"Hi"`, and a `u8` array of 513 printable bytes is printed as quoted text too; neither is
printed as a numeric list. -/
theorem C12_long_u8_array_still_text :
    STRUCT_PRINT_STRING_MAX_LEN = 512 ∧
    value_text (print_field_value (FieldDescriptor.mk "msg" FIELD_TYPE_U8 0 1 600 none)
      ([0, 0x48, 0x69] ++ List.replicate 598 0) 1 0) = "\"Hi\"\n" ∧
    is_printable_string ([0] ++ List.replicate 513 0x41 ++ [0]) 1 513 = 1 ∧
    (value_text (print_field_value (FieldDescriptor.mk "msg" FIELD_TYPE_U8 0 1 513 none)
      ([0] ++ List.replicate 513 0x41 ++ [0]) 1 0)).data.head? = some '"' := by
  have h513 : is_printable_string ([0] ++ List.replicate 513 0x41 ++ [0]) 1 513 = 1 := by
    decide!
  refine ⟨rfl, by decide!, h513, ?_⟩
  rw [print_field_value_array "msg" FIELD_TYPE_U8 0 1 513 none _ 1 0 (by decide) (by decide),
    print_field_array_text FIELD_TYPE_U8 1 513 _ (1 + 0) 0
      (Or.inr ⟨rfl, by rw [h513]; decide⟩)]
  exact quoted_head _

/-! ## The hex dump (C11) -/

theorem byte_write_is_rendering (b : Nat) (hb : b < 256) :
    is_byte_rendering (fmt_X 2 b ++ " ") = true := by
  revert b
  decide!

theorem filter_print_indent (indent_level : Nat) :
    (print_indent indent_level).filter is_byte_rendering = [] := by
  rw [List.filter_eq_nil_iff]
  intro w hw
  unfold print_indent at hw
  rw [List.mem_replicate] at hw
  rw [hw.2]
  decide

theorem filter_dump_step (mem : Memory) (data indent_level bytes_to_show i : Nat) :
    ([fmt_X 2 (read_u8 mem (data + i)) ++ " "] ++
        (if (i + 1) % 16 = 0 ∧ i + 1 < bytes_to_show then
          ["\n"] ++ print_indent indent_level ++ ["                   "]
        else [])).filter is_byte_rendering =
      [fmt_X 2 (read_u8 mem (data + i)) ++ " "] := by
  have hb := byte_write_is_rendering (read_u8 mem (data + i)) (read_u8_lt mem (data + i))
  have hn : is_byte_rendering "\n" = false := by decide
  have hc : is_byte_rendering "                   " = false := by decide
  split <;>
    simp [List.filter_append, List.filter_cons, hb, hn, hc, filter_print_indent]

theorem print_indent_no_marker (indent_level : Nat) : "..." ∉ print_indent indent_level := by
  unfold print_indent
  intro h
  rw [List.mem_replicate] at h
  exact absurd h.2 (by decide)

/-- C11: `print_hex_memory(data, length, max_bytes, indent)` writes exactly
`min(length, max_bytes)` byte renderings, those of `data[0 .. min(length,max_bytes)-1]` in
memory order, each made of two upper-case zero-padded hexadecimal digits (denoting the
byte) and one space; it writes the marker `...` exactly when `length > max_bytes`; and its
last write is a line break. -/
theorem C11_hex_dump_bytes (mem : Memory) (data length max_bytes indent_level : Nat) :
    (print_hex_memory mem data length max_bytes indent_level).filter is_byte_rendering =
      (List.range (min length max_bytes)).map
        (fun i => fmt_X 2 (read_u8 mem (data + i)) ++ " ") ∧
    (∀ i, (fmt_X 2 (read_u8 mem (data + i))).length = 2 ∧
      (∀ c, c ∈ (fmt_X 2 (read_u8 mem (data + i))).data → c ∈ "0123456789ABCDEF".data) ∧
      parse_digits 16 (fmt_X 2 (read_u8 mem (data + i))).data = read_u8 mem (data + i)) ∧
    ("..." ∈ print_hex_memory mem data length max_bytes indent_level ↔ length > max_bytes) ∧
    (print_hex_memory mem data length max_bytes indent_level).getLast? = some "\n" := by
  have hmin : (if length < max_bytes then length else max_bytes) = min length max_bytes := by
    split <;> omega
  refine ⟨?_, ?_, ?_, ?_⟩
  · unfold print_hex_memory
    simp only [hmin]
    have hl : List.filter is_byte_rendering ["        └─ Memory: "] = [] := by decide
    have hn : List.filter is_byte_rendering ["\n"] = [] := by decide
    have hd : List.filter is_byte_rendering (if length > max_bytes then ["..."] else []) =
        [] := by
      split <;> decide
    rw [List.filter_append, List.filter_append, List.filter_append, List.filter_append,
      filter_print_indent, hl, hd, hn, List.filter_flatMap, List.map_eq_flatMap,
      List.nil_append, List.nil_append, List.append_nil, List.append_nil]
    apply List.flatMap_congr
    intro i _
    exact filter_dump_step mem data indent_level (min length max_bytes) i
  · intro i
    refine ⟨fmt_X_length 2 _ (by omega) ?_, fun c hc => fmt_X_chars _ _ c hc, parse_fmt_X _ _⟩
    have := read_u8_lt mem (data + i)
    omega
  · unfold print_hex_memory
    simp only [hmin, List.mem_append, List.mem_singleton, List.mem_flatMap]
    constructor
    · rintro ((((h | h) | ⟨i, _, h⟩) | h) | h)
      · exact absurd h (print_indent_no_marker indent_level)
      · exact absurd h (by decide)
      · rcases h with h | h
        · have hb := byte_write_is_rendering (read_u8 mem (data + i))
            (read_u8_lt mem (data + i))
          rw [← h] at hb
          exact absurd hb (by decide)
        · split at h
          · simp only [List.mem_append, List.mem_singleton] at h
            rcases h with (h | h) | h
            · exact absurd h (by decide)
            · exact absurd h (print_indent_no_marker indent_level)
            · exact absurd h (by decide)
          · simp at h
      · split at h
        · assumption
        · simp at h
      · exact absurd h (by decide)
    · intro h
      left
      right
      simp [h]
  · unfold print_hex_memory
    rw [List.getLast?_append]
    rfl

/-! ## Fields in declaration order (C16) -/

theorem struct_print_fields_enumFrom (fields : List FieldDescriptor) (k total : Nat)
    (mem : Memory) (struct_data indent_level : Nat) (ht : total = k + fields.length) :
    struct_print_fields fields mem struct_data indent_level =
      (fields.enumFrom k).flatMap
        (fun p => field_iteration p.2 p.1 total mem struct_data indent_level) := by
  induction fields generalizing k with
  | nil => simp [struct_print_fields]
  | cons f rest ih =>
    rw [struct_print_fields_cons, List.enumFrom_cons, List.flatMap_cons,
      ih (k + 1) (by simp only [List.length_cons] at ht; omega)]
    congr 1
    unfold field_iteration
    have hc : (0 < rest.length) = (k < total - 1) := by
      apply propext
      simp only [List.length_cons] at ht
      omega
    simp only [hc]

theorem struct_print_internal_eq_header (var_name : Option String) (mem : Memory)
    (struct_data : Nat) (struct_name : String) (struct_size : Nat)
    (fields : List FieldDescriptor) (indent_level : Nat) (h : struct_data ≠ 0) :
    struct_print_internal var_name mem struct_data
        (some (StructDescriptor.mk struct_name struct_size fields)) indent_level =
      struct_header var_name struct_data struct_name struct_size indent_level ++
        struct_print_fields fields mem struct_data indent_level ++
        print_indent indent_level ++ ["========================================\n"] := by
  rw [struct_print_internal_some var_name mem struct_data struct_name struct_size fields
    indent_level h]
  rfl

/-- C16: for a non-null value and a descriptor with fields `f_0 .. f_{n-1}`,
`struct_print_internal` writes the header, then for `i = 0 .. n-1` in this order one
iteration for `f_i` (indentation, the offset tag and `name: ` of `f_i`, its value), then the
trailing delimiter: the fields are rendered in declaration order, each exactly once. -/
theorem C16_fields_in_declaration_order (var_name : Option String) (mem : Memory)
    (struct_data : Nat) (struct_name : String) (struct_size : Nat)
    (fields : List FieldDescriptor) (indent_level : Nat) (h : struct_data ≠ 0) :
    struct_print_internal var_name mem struct_data
        (some (StructDescriptor.mk struct_name struct_size fields)) indent_level =
      struct_header var_name struct_data struct_name struct_size indent_level ++
        fields.enum.flatMap (fun p =>
          print_indent indent_level ++
            ["  [+0x" ++ fmt_X 4 (p.2.offset % 2 ^ 32) ++ "] ", p.2.name ++ ": "] ++
            print_field_value p.2 mem struct_data indent_level ++
            (if p.2.type ≠ FIELD_TYPE_STRUCT ∧ p.1 < fields.length - 1 then ["\n"] else [])) ++
        print_indent indent_level ++ ["========================================\n"] ∧
    fields.enum.map (fun p => p.1) = List.range fields.length ∧
    fields.enum.map (fun p => p.2) = fields := by
  refine ⟨?_, ?_, ?_⟩
  · rw [struct_print_internal_eq_header var_name mem struct_data struct_name struct_size fields
      indent_level h,
      struct_print_fields_enumFrom fields 0 fields.length mem struct_data indent_level
        (by omega)]
    congr 3
    show (List.enumFrom 0 fields).flatMap _ = (List.enumFrom 0 fields).flatMap _
    congr 1
    funext p
    unfold field_iteration
    simp only [List.append_assoc, List.cons_append, List.nil_append]
  · exact List.enum_map_fst fields
  · exact List.enum_map_snd fields

/-- C16 at a concrete input: three fields `a`, `b`, `c`; the labels appear once each, in
this order. -/
theorem C16_fields_in_declaration_order_witness :
    (1 : Nat) ≠ 0 ∧
    render (struct_print_internal (some "v") [0, 1, 2, 3] 1
      (some (StructDescriptor.mk "T" 3
        [FieldDescriptor.mk "a" FIELD_TYPE_U8 0 1 0 none,
          FieldDescriptor.mk "b" FIELD_TYPE_U8 1 1 0 none,
          FieldDescriptor.mk "c" FIELD_TYPE_U8 2 1 0 none])) 0) =
      "========================================\n" ++
      "Struct: v [T]\n" ++
      "Address: 0x00000001\n" ++
      "Size: 3 bytes\n" ++
      "========================================\n" ++
      "  [+0x0000] a: 1 (0x01)\n" ++
      "        └─ Memory: 01 \n" ++
      "\n" ++
      "  [+0x0001] b: 2 (0x02)\n" ++
      "        └─ Memory: 02 \n" ++
      "\n" ++
      "  [+0x0002] c: 3 (0x03)\n" ++
      "        └─ Memory: 03 \n" ++
      "========================================\n" := by
  refine ⟨by decide, ?_⟩
  rw [(C16_fields_in_declaration_order (some "v") [0, 1, 2, 3] 1 "T" 3
    [FieldDescriptor.mk "a" FIELD_TYPE_U8 0 1 0 none,
      FieldDescriptor.mk "b" FIELD_TYPE_U8 1 1 0 none,
      FieldDescriptor.mk "c" FIELD_TYPE_U8 2 1 0 none] 0 (by decide)).1]
  set_option maxRecDepth 8000 in decide

/-! ## Indentation (C15) -/

theorem foldl_append_data (out : Output) (acc : String) :
    (out.foldl (fun r s => r ++ s) acc).data = acc.data ++ out.flatMap String.data := by
  induction out generalizing acc with
  | nil => simp
  | cons w rest ih =>
    rw [List.foldl_cons, ih, String.data_append, List.flatMap_cons, List.append_assoc]

theorem render_data (out : Output) : (render out).data = out.flatMap String.data := by
  unfold render String.join
  rw [foldl_append_data]
  rfl

theorem print_indent_eq (d : Nat) : print_indent d = List.replicate (2 * d) " " := by
  unfold print_indent STRUCT_PRINT_INDENT_SPACES
  rw [Nat.mul_comm]

theorem render_print_indent (d : Nat) :
    (render (print_indent d)).data = List.replicate (2 * d) ' ' := by
  rw [render_data, print_indent_eq]
  generalize 2 * d = k
  induction k with
  | zero => rfl
  | succ k ih =>
    rw [List.replicate_succ, List.flatMap_cons, ih, List.replicate_succ]
    rfl

theorem print_field_value_dump_depth (f : FieldDescriptor) (mem : Memory) (base : Nat)
    (hf : f.type ≠ FIELD_TYPE_STRUCT) :
    (∀ D, print_field_value f mem base D = ["<unknown type>\n"]) ∨
    ∃ (value : Output) (len : Nat), ∀ D,
      print_field_value f mem base D =
        value ++ print_hex_memory mem (base + f.offset) len STRUCT_PRINT_HEX_BYTES D := by
  match f with
  | .mk name t offset size n nd =>
    simp only [FieldDescriptor.type] at hf
    simp only [FieldDescriptor.offset]
    by_cases hn : 0 < n
    · right
      by_cases htext : t = FIELD_TYPE_STRING ∨
          (t = FIELD_TYPE_U8 ∧ is_printable_string mem (base + offset) n ≠ 0)
      · refine ⟨["\"" ++ bytes_to_string (c_string_bytes mem (base + offset)) ++ "\"\n"], n,
          fun D => ?_⟩
        rw [print_field_value_array name t offset size n nd mem base D hn hf,
          print_field_array_text t size n mem (base + offset) D htext]
      · refine ⟨["["] ++
          List.intersperse ", " ((List.range (min n 16)).map
            (fun i => print_array_element t mem (base + offset + (i * size) % 2 ^ 64))) ++
          (if n > 16 then [", ..."] else []) ++ ["]\n"], (n * size) % 2 ^ 64, fun D => ?_⟩
        rw [print_field_value_array name t offset size n nd mem base D hn hf,
          print_field_array_numeric t size n mem (base + offset) D htext]
    · have hn0 : n = 0 := by omega
      subst hn0
      cases t with
      | FIELD_TYPE_STRUCT => exact absurd rfl hf
      | FIELD_TYPE_ARRAY => left; intro D; simp [print_field_value]
      | FIELD_TYPE_STRING => left; intro D; simp [print_field_value]
      | FIELD_TYPE_INVALID code => left; intro D; simp [print_field_value]
      | FIELD_TYPE_U8 =>
        right
        exact ⟨[fmt_u (read_u8 mem (base + offset)) ++ " (0x" ++
          fmt_X 2 (read_u8 mem (base + offset)) ++ ")\n"], 1, fun D => by
            simp [print_field_value]⟩
      | FIELD_TYPE_U16 =>
        right
        exact ⟨[fmt_u (read_u16 mem (base + offset)) ++ " (0x" ++
          fmt_X 4 (read_u16 mem (base + offset)) ++ ")\n"], 2, fun D => by
            simp [print_field_value]⟩
      | FIELD_TYPE_U32 =>
        right
        exact ⟨[fmt_u (read_u32 mem (base + offset)) ++ " (0x" ++
          fmt_X 8 (read_u32 mem (base + offset)) ++ ")\n"], 4, fun D => by
            simp [print_field_value]⟩
      | FIELD_TYPE_S8 =>
        right
        exact ⟨[fmt_d (read_s8 mem (base + offset)) ++ " (0x" ++
          fmt_X 2 (read_u8 mem (base + offset)) ++ ")\n"], 1, fun D => by
            simp [print_field_value]⟩
      | FIELD_TYPE_S16 =>
        right
        exact ⟨[fmt_d (read_s16 mem (base + offset)) ++ " (0x" ++
          fmt_X 4 (read_u16 mem (base + offset)) ++ ")\n"], 2, fun D => by
            simp [print_field_value]⟩
      | FIELD_TYPE_S32 =>
        right
        exact ⟨[fmt_d (read_s32 mem (base + offset)) ++ " (0x" ++
          fmt_X 8 (read_u32 mem (base + offset)) ++ ")\n"], 4, fun D => by
            simp [print_field_value]⟩
      | FIELD_TYPE_FLOAT =>
        right
        exact ⟨[fmt_float (read_u32 mem (base + offset)) ++ "\n"], 4, fun D => by
          simp [print_field_value]⟩
      | FIELD_TYPE_DOUBLE =>
        right
        exact ⟨[fmt_double (read_u64 mem (base + offset)) ++ "\n"], 8, fun D => by
          simp [print_field_value]⟩

/-- C15: `print_indent(d)` writes exactly `2 * d` single spaces; `struct_print` starts at
depth 0; in a composite visited at depth `D` each of the five header lines, each field
line, each hex-dump line (also its continuation lines) and the trailing delimiter comes
right after exactly `2 * D` indentation spaces; a nested composite is visited at depth
`D + 1`. -/
theorem C15_indentation_proportional_to_depth (var_name : Option String) (mem : Memory)
    (struct_data : Nat) (struct_name : String) (struct_size : Nat)
    (fields : List FieldDescriptor) (D : Nat) (h : struct_data ≠ 0) :
    (∀ d, print_indent d = List.replicate (2 * d) " " ∧
      (render (print_indent d)).data = List.replicate (2 * d) ' ') ∧
    (∀ desc, struct_print var_name mem struct_data desc =
      struct_print_internal var_name mem struct_data desc 0) ∧
    struct_print_internal var_name mem struct_data
        (some (StructDescriptor.mk struct_name struct_size fields)) D =
      List.replicate (2 * D) " " ++ ["========================================\n"] ++
      List.replicate (2 * D) " " ++
      [match var_name with
        | some v => if v ≠ "" then "Struct: " ++ v ++ " [" ++ struct_name ++ "]\n"
                    else "Struct: [" ++ struct_name ++ "]\n"
        | none => "Struct: [" ++ struct_name ++ "]\n"] ++
      List.replicate (2 * D) " " ++
      ["Address: 0x" ++ fmt_X 8 (struct_data % 2 ^ 32) ++ "\n"] ++
      List.replicate (2 * D) " " ++
      ["Size: " ++ fmt_u (struct_size % 2 ^ 32) ++ " bytes\n"] ++
      List.replicate (2 * D) " " ++ ["========================================\n"] ++
      struct_print_fields fields mem struct_data D ++
      List.replicate (2 * D) " " ++ ["========================================\n"] ∧
    (∀ (f : FieldDescriptor) (rest : List FieldDescriptor),
      struct_print_fields (f :: rest) mem struct_data D =
        List.replicate (2 * D) " " ++
        ["  [+0x" ++ fmt_X 4 (f.offset % 2 ^ 32) ++ "] ", f.name ++ ": "] ++
        print_field_value f mem struct_data D ++
        (if f.type ≠ FIELD_TYPE_STRUCT ∧ 0 < rest.length then ["\n"] else []) ++
        struct_print_fields rest mem struct_data D) ∧
    (∀ f : FieldDescriptor, f.type ≠ FIELD_TYPE_STRUCT →
      (∀ D2, print_field_value f mem struct_data D2 = ["<unknown type>\n"]) ∨
      ∃ (value : Output) (len : Nat), ∀ D2,
        print_field_value f mem struct_data D2 =
          value ++ print_hex_memory mem (struct_data + f.offset) len STRUCT_PRINT_HEX_BYTES
            D2) ∧
    (∀ data length max_bytes : Nat,
      print_hex_memory mem data length max_bytes D =
        List.replicate (2 * D) " " ++ ["        └─ Memory: "] ++
          (List.range (min length max_bytes)).flatMap (fun i =>
            [fmt_X 2 (read_u8 mem (data + i)) ++ " "] ++
              (if (i + 1) % 16 = 0 ∧ i + 1 < min length max_bytes then
                ["\n"] ++ List.replicate (2 * D) " " ++ ["                   "]
              else [])) ++
          (if length > max_bytes then ["..."] else []) ++ ["\n"]) ∧
    (∀ (name : String) (offset size array_count : Nat) (nested : StructDescriptor),
      print_field_value
          (FieldDescriptor.mk name FIELD_TYPE_STRUCT offset size array_count (some nested))
          mem struct_data D =
        ["\n"] ++
          struct_print_internal (some "") mem (struct_data + offset) (some nested) (D + 1)) := by
  refine ⟨fun d => ⟨print_indent_eq d, render_print_indent d⟩, fun desc => rfl, ?_, ?_,
    fun f hf => print_field_value_dump_depth f mem struct_data hf, ?_, ?_⟩
  · rw [struct_print_internal_some var_name mem struct_data struct_name struct_size fields D h,
      print_indent_eq]
  · intro f rest
    rw [struct_print_fields_cons, print_indent_eq]
    simp only [List.append_assoc, List.cons_append, List.nil_append]
  · intro data length max_bytes
    have hmin : (if length < max_bytes then length else max_bytes) = min length max_bytes := by
      split <;> omega
    unfold print_hex_memory
    simp only [hmin]
    rw [print_indent_eq]
  · intro name offset size array_count nested
    simp [print_field_value]

/-- C15 at a concrete input: a composite at address 1 that nests a one-field composite;
the nested block is indented by two spaces, the outer lines by none. -/
theorem C15_indentation_proportional_to_depth_witness :
    (1 : Nat) ≠ 0 ∧
    render (struct_print (some "s") [0, 5] 1
      (some (StructDescriptor.mk "Outer" 1
        [FieldDescriptor.mk "in" FIELD_TYPE_STRUCT 0 1 0
          (some (StructDescriptor.mk "Inner" 1
            [FieldDescriptor.mk "id" FIELD_TYPE_U8 0 1 0 none]))]))) =
      "========================================\n" ++
      "Struct: s [Outer]\n" ++
      "Address: 0x00000001\n" ++
      "Size: 1 bytes\n" ++
      "========================================\n" ++
      "  [+0x0000] in: \n" ++
      "  ========================================\n" ++
      "  Struct: [Inner]\n" ++
      "  Address: 0x00000001\n" ++
      "  Size: 1 bytes\n" ++
      "  ========================================\n" ++
      "    [+0x0000] id: 5 (0x05)\n" ++
      "          └─ Memory: 05 \n" ++
      "  ========================================\n" ++
      "========================================\n" := by
  refine ⟨by decide, ?_⟩
  rw [(C15_indentation_proportional_to_depth (some "s") [0, 5] 1 "Outer" 1
    [FieldDescriptor.mk "in" FIELD_TYPE_STRUCT 0 1 0
      (some (StructDescriptor.mk "Inner" 1
        [FieldDescriptor.mk "id" FIELD_TYPE_U8 0 1 0 none]))] 0 (by decide)).2.1]
  set_option maxRecDepth 8000 in decide

/-! ## Headers and delimiters per visited composite (C14) -/

theorem no_frame_of_head (w : String) (c : Char) (hc : w.data.head? = some c)
    (h1 : c ≠ 'S') (h2 : c ≠ '=') :
    is_header_line w = false ∧ is_delimiter_line w = false := by
  constructor
  · unfold is_header_line
    cases hw : w.data with
    | nil => rw [hw] at hc; simp at hc
    | cons a rest =>
      rw [hw] at hc
      simp only [List.head?_cons, Option.some.injEq] at hc
      subst hc
      have : ("Struct: ".data).isPrefixOf (a :: rest) = false := by
        show List.isPrefixOf ('S' :: _) (a :: rest) = false
        simp [List.isPrefixOf, Ne.symm h1]
      rw [this]
      rfl
  · unfold is_delimiter_line
    rw [beq_eq_false_iff_ne]
    intro hw
    rw [hw] at hc
    have h : some '=' = some c := hc
    exact h2 (Option.some.inj h).symm

theorem no_frame_of_last (w : String) (c : Char) (hc : w.data.getLast? = some c)
    (h1 : c ≠ '\n') :
    is_header_line w = false ∧ is_delimiter_line w = false := by
  constructor
  · unfold is_header_line
    rw [hc]
    have : (some c == some '\n') = false := by
      rw [beq_eq_false_iff_ne]
      intro h
      exact h1 (Option.some.inj h)
    rw [this, Bool.and_false]
  · unfold is_delimiter_line
    rw [beq_eq_false_iff_ne]
    intro hw
    rw [hw] at hc
    have h : some '\n' = some c := hc
    exact h1 (Option.some.inj h).symm

theorem no_frame_of_plain_head (w : String) (h : plain_head w) :
    is_header_line w = false ∧ is_delimiter_line w = false := by
  obtain ⟨c, hc, h1, h2⟩ := h
  exact no_frame_of_head w c hc h1 h2

theorem plain_head_append (a b : String) (h : plain_head a) : plain_head (a ++ b) := by
  obtain ⟨c, hc, h1, h2⟩ := h
  refine ⟨c, ?_, h1, h2⟩
  rw [String.data_append]
  cases ha : a.data with
  | nil => rw [ha] at hc; simp at hc
  | cons x rest =>
    rw [ha] at hc
    simpa using hc

theorem digit_char_plain (d : Nat) (h : d < 16) : digit_char d ≠ 'S' ∧ digit_char d ≠ '=' := by
  revert d
  decide

theorem plain_head_of_digits (base : Nat) (hb : 2 ≤ base) (hb16 : base ≤ 16) (n : Nat)
    (rest : List Char) :
    ∃ c, (nat_digits base n ++ rest).head? = some c ∧ c ≠ 'S' ∧ c ≠ '=' := by
  have hpos := nat_digits_length_pos base n
  cases hd : nat_digits base n with
  | nil => rw [hd] at hpos; simp at hpos
  | cons c tl =>
    have hc : c ∈ nat_digits base n := by rw [hd]; exact List.mem_cons_self c tl
    obtain ⟨d, hdlt, rfl⟩ := nat_digits_mem base hb n c hc
    exact ⟨digit_char d, by simp, digit_char_plain d (by omega)⟩

theorem plain_head_fmt_u (n : Nat) : plain_head (fmt_u n) := by
  have h := plain_head_of_digits 10 (by omega) (by omega) n []
  simpa [plain_head, fmt_u] using h

theorem plain_head_fmt_d (i : Int) : plain_head (fmt_d i) := by
  unfold fmt_d
  split
  · exact ⟨'-', rfl, by decide, by decide⟩
  · have h := plain_head_of_digits 10 (by omega) (by omega) i.natAbs []
    simpa [plain_head] using h

theorem plain_head_fmt_X (w n : Nat) : plain_head (fmt_X w n) := by
  unfold fmt_X plain_head
  cases hk : w - (nat_digits 16 n).length with
  | zero =>
    simpa using plain_head_of_digits 16 (by omega) (by omega) n []
  | succ k =>
    exact ⟨'0', by simp [List.replicate_succ], by decide, by decide⟩

theorem plain_head_fmt_f6 (neg : Bool) (num den : Nat) : plain_head (fmt_f6 neg num den) := by
  unfold fmt_f6
  cases neg
  · apply plain_head_append
    apply plain_head_append
    have h := plain_head_fmt_u (micro_units num den / 10 ^ 6)
    obtain ⟨c, hc, h1, h2⟩ := h
    refine ⟨c, ?_, h1, h2⟩
    simpa [String.data_append] using hc
  · apply plain_head_append
    apply plain_head_append
    apply plain_head_append
    exact ⟨'-', rfl, by decide, by decide⟩

theorem plain_head_fmt_float (bits : Nat) : plain_head (fmt_float bits) := by
  unfold fmt_float
  split
  · by_cases hs : f32_sign bits = 1
    · simp only [hs, if_true]
      apply plain_head_append
      exact ⟨'-', rfl, by decide, by decide⟩
    · simp only [hs, if_false]
      split
      · exact ⟨'i', rfl, by decide, by decide⟩
      · exact ⟨'n', rfl, by decide, by decide⟩
  · exact plain_head_fmt_f6 _ _ _

theorem plain_head_fmt_double (bits : Nat) : plain_head (fmt_double bits) := by
  unfold fmt_double
  split
  · by_cases hs : f64_sign bits = 1
    · simp only [hs, if_true]
      apply plain_head_append
      exact ⟨'-', rfl, by decide, by decide⟩
    · simp only [hs, if_false]
      split
      · exact ⟨'i', rfl, by decide, by decide⟩
      · exact ⟨'n', rfl, by decide, by decide⟩
  · exact plain_head_fmt_f6 _ _ _

theorem frame_free_append (a b : Output) (ha : frame_free a) (hb : frame_free b) :
    frame_free (a ++ b) := by
  intro w hw
  rcases List.mem_append.1 hw with h | h
  · exact ha w h
  · exact hb w h

theorem frame_free_nil : frame_free [] := by
  intro w hw
  simp at hw

theorem frame_free_singleton (w : String) (h : plain_head w) : frame_free [w] := by
  intro x hx
  rw [List.mem_singleton] at hx
  subst hx
  exact no_frame_of_plain_head _ h

theorem frame_free_ite (c : Prop) [Decidable c] (a b : Output) (ha : frame_free a)
    (hb : frame_free b) : frame_free (if c then a else b) := by
  split
  · exact ha
  · exact hb

theorem frame_free_print_indent (d : Nat) : frame_free (print_indent d) := by
  intro w hw
  unfold print_indent at hw
  rw [List.mem_replicate] at hw
  rw [hw.2]
  exact ⟨by decide, by decide⟩

theorem frame_free_counts (out : Output) (h : frame_free out) :
    out.countP is_header_line = 0 ∧ out.countP is_delimiter_line = 0 := by
  constructor
  · rw [List.countP_eq_zero]
    intro w hw
    simp [(h w hw).1]
  · rw [List.countP_eq_zero]
    intro w hw
    simp [(h w hw).2]

theorem frame_free_print_hex_memory (mem : Memory) (data length max_bytes d : Nat) :
    frame_free (print_hex_memory mem data length max_bytes d) := by
  unfold print_hex_memory
  simp only []
  apply frame_free_append
  · apply frame_free_append
    · apply frame_free_append
      · apply frame_free_append
        · exact frame_free_print_indent d
        · exact frame_free_singleton _ ⟨' ', rfl, by decide, by decide⟩
      · intro w hw
        rw [List.mem_flatMap] at hw
        obtain ⟨i, _, hw⟩ := hw
        revert w
        apply frame_free_append
        · exact frame_free_singleton _ (plain_head_append _ _ (plain_head_fmt_X _ _))
        · apply frame_free_ite
          · apply frame_free_append
            · apply frame_free_append
              · exact frame_free_singleton _ ⟨'\n', rfl, by decide, by decide⟩
              · exact frame_free_print_indent d
            · exact frame_free_singleton _ ⟨' ', rfl, by decide, by decide⟩
          · exact frame_free_nil
    · apply frame_free_ite
      · exact frame_free_singleton _ ⟨'.', rfl, by decide, by decide⟩
      · exact frame_free_nil
  · exact frame_free_singleton _ ⟨'\n', rfl, by decide, by decide⟩

theorem plain_head_print_array_element (t : FieldType) (mem : Memory) (a : Nat) :
    plain_head (print_array_element t mem a) := by
  cases t <;> simp only [print_array_element] <;>
    first
    | exact plain_head_fmt_u _
    | exact plain_head_fmt_d _
    | exact ⟨'?', rfl, by decide, by decide⟩

theorem frame_free_print_field_array (t : FieldType) (size n : Nat) (mem : Memory)
    (a d : Nat) : frame_free (print_field_array t size n mem a d) := by
  unfold print_field_array
  split
  · apply frame_free_append
    · apply frame_free_singleton
      apply plain_head_append
      apply plain_head_append
      exact ⟨'"', rfl, by decide, by decide⟩
    · exact frame_free_print_hex_memory _ _ _ _ _
  · simp only []
    apply frame_free_append
    · apply frame_free_append
      · apply frame_free_append
        · apply frame_free_append
          · exact frame_free_singleton _ ⟨'[', rfl, by decide, by decide⟩
          · intro w hw
            rw [List.mem_flatMap] at hw
            obtain ⟨i, _, hw⟩ := hw
            revert w
            apply frame_free_append
            · exact frame_free_singleton _ (plain_head_print_array_element _ _ _)
            · apply frame_free_ite
              · exact frame_free_singleton _ ⟨',', rfl, by decide, by decide⟩
              · exact frame_free_nil
        · apply frame_free_ite
          · exact frame_free_singleton _ ⟨',', rfl, by decide, by decide⟩
          · exact frame_free_nil
      · exact frame_free_singleton _ ⟨']', rfl, by decide, by decide⟩
    · exact frame_free_print_hex_memory _ _ _ _ _

theorem frame_free_print_field_value (f : FieldDescriptor) (mem : Memory) (base d : Nat)
    (hf : f.type ≠ FIELD_TYPE_STRUCT) : frame_free (print_field_value f mem base d) := by
  match f with
  | .mk name t offset size n nd =>
    simp only [FieldDescriptor.type] at hf
    by_cases hn : 0 < n
    · rw [print_field_value_array name t offset size n nd mem base d hn hf]
      exact frame_free_print_field_array _ _ _ _ _ _
    · have hn0 : n = 0 := by omega
      subst hn0
      cases t with
      | FIELD_TYPE_STRUCT => exact absurd rfl hf
      | FIELD_TYPE_ARRAY =>
        simp only [print_field_value]
        simp
        exact frame_free_singleton _ ⟨'<', rfl, by decide, by decide⟩
      | FIELD_TYPE_STRING =>
        simp only [print_field_value]
        simp
        exact frame_free_singleton _ ⟨'<', rfl, by decide, by decide⟩
      | FIELD_TYPE_INVALID code =>
        simp only [print_field_value]
        simp
        exact frame_free_singleton _ ⟨'<', rfl, by decide, by decide⟩
      | FIELD_TYPE_U8 =>
        rw [print_field_value_int_scalar name _ offset size nd mem base d (by decide)]
        apply frame_free_append _ _ _ (frame_free_print_hex_memory _ _ _ _ _)
        apply frame_free_singleton
        unfold scalar_int_text
        exact plain_head_append _ _ (plain_head_append _ _ (plain_head_append _ _
          (by simp only [int_signed]; exact plain_head_fmt_u _)))
      | FIELD_TYPE_U16 =>
        rw [print_field_value_int_scalar name _ offset size nd mem base d (by decide)]
        apply frame_free_append _ _ _ (frame_free_print_hex_memory _ _ _ _ _)
        apply frame_free_singleton
        unfold scalar_int_text
        exact plain_head_append _ _ (plain_head_append _ _ (plain_head_append _ _
          (by simp only [int_signed]; exact plain_head_fmt_u _)))
      | FIELD_TYPE_U32 =>
        rw [print_field_value_int_scalar name _ offset size nd mem base d (by decide)]
        apply frame_free_append _ _ _ (frame_free_print_hex_memory _ _ _ _ _)
        apply frame_free_singleton
        unfold scalar_int_text
        exact plain_head_append _ _ (plain_head_append _ _ (plain_head_append _ _
          (by simp only [int_signed]; exact plain_head_fmt_u _)))
      | FIELD_TYPE_S8 =>
        rw [print_field_value_int_scalar name _ offset size nd mem base d (by decide)]
        apply frame_free_append _ _ _ (frame_free_print_hex_memory _ _ _ _ _)
        apply frame_free_singleton
        unfold scalar_int_text
        exact plain_head_append _ _ (plain_head_append _ _ (plain_head_append _ _
          (by simp only [int_signed]; exact plain_head_fmt_d _)))
      | FIELD_TYPE_S16 =>
        rw [print_field_value_int_scalar name _ offset size nd mem base d (by decide)]
        apply frame_free_append _ _ _ (frame_free_print_hex_memory _ _ _ _ _)
        apply frame_free_singleton
        unfold scalar_int_text
        exact plain_head_append _ _ (plain_head_append _ _ (plain_head_append _ _
          (by simp only [int_signed]; exact plain_head_fmt_d _)))
      | FIELD_TYPE_S32 =>
        rw [print_field_value_int_scalar name _ offset size nd mem base d (by decide)]
        apply frame_free_append _ _ _ (frame_free_print_hex_memory _ _ _ _ _)
        apply frame_free_singleton
        unfold scalar_int_text
        exact plain_head_append _ _ (plain_head_append _ _ (plain_head_append _ _
          (by simp only [int_signed]; exact plain_head_fmt_d _)))
      | FIELD_TYPE_FLOAT =>
        have e : print_field_value (FieldDescriptor.mk name FIELD_TYPE_FLOAT offset size 0 nd)
            mem base d = [fmt_float (read_u32 mem (base + offset)) ++ "\n"] ++
              print_hex_memory mem (base + offset) 4 STRUCT_PRINT_HEX_BYTES d := by
          simp [print_field_value]
        rw [e]
        apply frame_free_append _ _ _ (frame_free_print_hex_memory _ _ _ _ _)
        exact frame_free_singleton _ (plain_head_append _ _ (plain_head_fmt_float _))
      | FIELD_TYPE_DOUBLE =>
        have e : print_field_value (FieldDescriptor.mk name FIELD_TYPE_DOUBLE offset size 0 nd)
            mem base d = [fmt_double (read_u64 mem (base + offset)) ++ "\n"] ++
              print_hex_memory mem (base + offset) 8 STRUCT_PRINT_HEX_BYTES d := by
          simp [print_field_value]
        rw [e]
        apply frame_free_append _ _ _ (frame_free_print_hex_memory _ _ _ _ _)
        exact frame_free_singleton _ (plain_head_append _ _ (plain_head_fmt_double _))

theorem not_delimiter_of_head (w : String) (c : Char) (hc : w.data.head? = some c)
    (h : c ≠ '=') : is_delimiter_line w = false := by
  unfold is_delimiter_line
  rw [beq_eq_false_iff_ne]
  intro hw
  rw [hw] at hc
  have h2 : some '=' = some c := hc
  exact h (Option.some.inj h2).symm

theorem header_line_of_data (w : String) (rest : List Char)
    (hd : w.data = "Struct: ".data ++ rest) (hl : w.data.getLast? = some '\n') :
    is_header_line w = true ∧ is_delimiter_line w = false := by
  constructor
  · unfold is_header_line
    rw [hl, hd]
    have : ("Struct: ".data).isPrefixOf ("Struct: ".data ++ rest) = true := by
      rw [List.isPrefixOf_iff_prefix]
      exact List.prefix_append _ _
    rw [this]
    rfl
  · apply not_delimiter_of_head w 'S'
    · rw [hd]; rfl
    · decide

theorem getLast?_bracket_newline (l : List Char) :
    (l ++ [']', '\n']).getLast? = some '\n' := by
  rw [List.getLast?_append]
  rfl

theorem struct_line_is_header (var_name : Option String) (struct_name : String) :
    is_header_line
        (match var_name with
          | some v => if v ≠ "" then "Struct: " ++ v ++ " [" ++ struct_name ++ "]\n"
                      else "Struct: [" ++ struct_name ++ "]\n"
          | none => "Struct: [" ++ struct_name ++ "]\n") = true ∧
      is_delimiter_line
        (match var_name with
          | some v => if v ≠ "" then "Struct: " ++ v ++ " [" ++ struct_name ++ "]\n"
                      else "Struct: [" ++ struct_name ++ "]\n"
          | none => "Struct: [" ++ struct_name ++ "]\n") = false := by
  have h2 : is_header_line ("Struct: [" ++ struct_name ++ "]\n") = true ∧
      is_delimiter_line ("Struct: [" ++ struct_name ++ "]\n") = false := by
    apply header_line_of_data _ ('[' :: (struct_name.data ++ [']', '\n']))
    · simp [String.data_append]
    · have e : ("Struct: [" ++ struct_name ++ "]\n").data =
          ("Struct: [".data ++ struct_name.data) ++ [']', '\n'] := by
        simp [String.data_append]
      rw [e]
      exact getLast?_bracket_newline _
  cases var_name with
  | none => exact h2
  | some v =>
    simp only []
    split
    · apply header_line_of_data _ (v.data ++ (' ' :: '[' :: (struct_name.data ++ [']', '\n'])))
      · simp [String.data_append]
      · have e : ("Struct: " ++ v ++ " [" ++ struct_name ++ "]\n").data =
            ("Struct: ".data ++ v.data ++ " [".data ++ struct_name.data) ++ [']', '\n'] := by
          simp [String.data_append]
        rw [e]
        exact getLast?_bracket_newline _
    · exact h2

theorem size_line_no_frame (n : Nat) :
    is_header_line ("Size: " ++ fmt_u n ++ " bytes\n") = false ∧
      is_delimiter_line ("Size: " ++ fmt_u n ++ " bytes\n") = false := by
  constructor
  · unfold is_header_line
    have hd : ("Size: " ++ fmt_u n ++ " bytes\n").data =
        'S' :: 'i' :: ("ze: ".data ++ (fmt_u n).data ++ " bytes\n".data) := by
      simp [String.data_append]
    rw [hd]
    have : ("Struct: ".data).isPrefixOf
        ('S' :: 'i' :: ("ze: ".data ++ (fmt_u n).data ++ " bytes\n".data)) = false := by
      show List.isPrefixOf ('S' :: 't' :: _) ('S' :: 'i' :: _) = false
      simp [List.isPrefixOf]
    rw [this]
    rfl
  · apply not_delimiter_of_head _ 'S'
    · simp [String.data_append]
    · decide

theorem name_write_no_frame (name : String) :
    is_header_line (name ++ ": ") = false ∧ is_delimiter_line (name ++ ": ") = false := by
  apply no_frame_of_last _ ' '
  · simp [String.data_append, List.getLast?_append]
  · decide

theorem countP_frame_free_append_left (p : String → Bool) (a b : Output)
    (ha : a.countP p = 0) : (a ++ b).countP p = b.countP p := by
  rw [List.countP_append, ha, Nat.zero_add]

theorem struct_header_counts (var_name : Option String) (struct_data : Nat)
    (struct_name : String) (struct_size indent_level : Nat) :
    (struct_header var_name struct_data struct_name struct_size indent_level).countP
        is_header_line = 1 ∧
      (struct_header var_name struct_data struct_name struct_size indent_level).countP
        is_delimiter_line = 2 := by
  have hi := frame_free_counts _ (frame_free_print_indent indent_level)
  have hs := struct_line_is_header var_name struct_name
  have ha := no_frame_of_plain_head
    ("Address: 0x" ++ fmt_X 8 (struct_data % 2 ^ 32) ++ "\n")
    (plain_head_append _ _ (plain_head_append _ _ ⟨'A', rfl, by decide, by decide⟩))
  have hz := size_line_no_frame (struct_size % 2 ^ 32)
  have hd1 : is_header_line "========================================\n" = false := by decide
  have hd2 : is_delimiter_line "========================================\n" = true := by decide
  have hn := struct_line_is_header none struct_name
  unfold struct_header
  cases var_name with
  | none =>
    simp only [List.countP_append, List.countP_cons, List.countP_nil, hi.1, hi.2, hn.1, hn.2,
      ha.1, ha.2, hz.1, hz.2, hd1, hd2]
    simp
  | some v =>
    by_cases hv : v = ""
    · simp only [hv, ne_eq, not_true_eq_false, if_false, List.countP_append, List.countP_cons,
        List.countP_nil, hi.1, hi.2, hn.1, hn.2, ha.1, ha.2, hz.1, hz.2, hd1, hd2]
      simp
    · have hsv := struct_line_is_header (some v) struct_name
      simp only [ne_eq, hv, not_false_eq_true, if_true] at hsv
      simp only [hv, ne_eq, not_false_eq_true, if_true, List.countP_append, List.countP_cons,
        List.countP_nil, hi.1, hi.2, hsv.1, hsv.2, ha.1, ha.2, hz.1, hz.2, hd1, hd2]
      simp

theorem print_field_value_nested (name : String) (offset size array_count : Nat)
    (nested : StructDescriptor) (mem : Memory) (b d : Nat) :
    print_field_value
        (FieldDescriptor.mk name FIELD_TYPE_STRUCT offset size array_count (some nested))
        mem b d =
      ["\n"] ++ struct_print_internal (some "") mem (b + offset) (some nested) (d + 1) := by
  simp [print_field_value]

theorem frame_counts_struct_step (var_name : Option String) (mem : Memory)
    (struct_data indent_level : Nat) (struct_name : String) (struct_size : Nat)
    (fields : List FieldDescriptor) (h : struct_data ≠ 0)
    (hf : (struct_print_fields fields mem struct_data indent_level).countP is_header_line =
        composites_visited_fields fields ∧
      (struct_print_fields fields mem struct_data indent_level).countP is_delimiter_line =
        3 * composites_visited_fields fields) :
    (struct_print_internal var_name mem struct_data
        (some (StructDescriptor.mk struct_name struct_size fields)) indent_level).countP
        is_header_line = composites_visited (StructDescriptor.mk struct_name struct_size fields) ∧
      (struct_print_internal var_name mem struct_data
        (some (StructDescriptor.mk struct_name struct_size fields)) indent_level).countP
        is_delimiter_line =
          3 * composites_visited (StructDescriptor.mk struct_name struct_size fields) := by
  have hh := struct_header_counts var_name struct_data struct_name struct_size indent_level
  have hi := frame_free_counts _ (frame_free_print_indent indent_level)
  have hd1 : is_header_line "========================================\n" = false := by
    decide
  have hd2 : is_delimiter_line "========================================\n" = true := by
    decide
  have cv : composites_visited (StructDescriptor.mk struct_name struct_size fields) =
      1 + composites_visited_fields fields := by
    simp [composites_visited]
  rw [struct_print_internal_eq_header var_name mem struct_data struct_name struct_size
    fields indent_level h, cv]
  simp only [List.countP_append, List.countP_cons, List.countP_nil, hh.1, hh.2, hf.1, hf.2,
    hi.1, hi.2, hd1, hd2]
  constructor
  · simp
  · simp only [if_true]
    omega

theorem frame_counts_fields_step (f : FieldDescriptor) (rest : List FieldDescriptor)
    (mem : Memory) (struct_data indent_level : Nat)
    (hf : (print_field_value f mem struct_data indent_level).countP is_header_line =
        composites_visited_field f ∧
      (print_field_value f mem struct_data indent_level).countP is_delimiter_line =
        3 * composites_visited_field f)
    (hr : (struct_print_fields rest mem struct_data indent_level).countP is_header_line =
        composites_visited_fields rest ∧
      (struct_print_fields rest mem struct_data indent_level).countP is_delimiter_line =
        3 * composites_visited_fields rest) :
    (struct_print_fields (f :: rest) mem struct_data indent_level).countP is_header_line =
        composites_visited_fields (f :: rest) ∧
      (struct_print_fields (f :: rest) mem struct_data indent_level).countP
        is_delimiter_line = 3 * composites_visited_fields (f :: rest) := by
  have hi := frame_free_counts _ (frame_free_print_indent indent_level)
  have hl := no_frame_of_plain_head ("  [+0x" ++ fmt_X 4 (f.offset % 2 ^ 32) ++ "] ")
    (plain_head_append _ _ (plain_head_append _ _ ⟨' ', rfl, by decide, by decide⟩))
  have hn := name_write_no_frame f.name
  have hs := frame_free_counts _ (frame_free_ite
    (f.type ≠ FIELD_TYPE_STRUCT ∧ 0 < rest.length) ["\n"] []
    (frame_free_singleton _ ⟨'\n', rfl, by decide, by decide⟩) frame_free_nil)
  have cv : composites_visited_fields (f :: rest) =
      composites_visited_field f + composites_visited_fields rest := by
    simp [composites_visited_fields]
  rw [struct_print_fields_cons, cv]
  simp only [List.countP_append, List.countP_cons, List.countP_nil, hf.1, hf.2, hr.1, hr.2,
    hi.1, hi.2, hl.1, hl.2, hn.1, hn.2, hs.1, hs.2]
  constructor
  · simp
  · simp only [Bool.false_eq_true, if_false]
    omega

theorem frame_counts_fields_nil (mem : Memory) (struct_data indent_level : Nat) :
    (struct_print_fields [] mem struct_data indent_level).countP is_header_line =
        composites_visited_fields [] ∧
      (struct_print_fields [] mem struct_data indent_level).countP is_delimiter_line =
        3 * composites_visited_fields [] := by
  simp [struct_print_fields, composites_visited_fields]

theorem frame_counts_field_nested_step (name : String) (offset size n : Nat)
    (d : StructDescriptor) (mem : Memory) (struct_data indent_level : Nat)
    (hd : (struct_print_internal (some "") mem (struct_data + offset) (some d)
          (indent_level + 1)).countP is_header_line = composites_visited d ∧
      (struct_print_internal (some "") mem (struct_data + offset) (some d)
          (indent_level + 1)).countP is_delimiter_line = 3 * composites_visited d) :
    (print_field_value (FieldDescriptor.mk name FIELD_TYPE_STRUCT offset size n (some d)) mem
        struct_data indent_level).countP is_header_line =
        composites_visited_field
          (FieldDescriptor.mk name FIELD_TYPE_STRUCT offset size n (some d)) ∧
      (print_field_value (FieldDescriptor.mk name FIELD_TYPE_STRUCT offset size n (some d)) mem
        struct_data indent_level).countP is_delimiter_line =
        3 * composites_visited_field
          (FieldDescriptor.mk name FIELD_TYPE_STRUCT offset size n (some d)) := by
  have hn := no_frame_of_plain_head "\n" ⟨'\n', rfl, by decide, by decide⟩
  have cv : composites_visited_field
      (FieldDescriptor.mk name FIELD_TYPE_STRUCT offset size n (some d)) =
      composites_visited d := by
    simp [composites_visited_field]
  rw [print_field_value_nested name offset size n d mem struct_data indent_level, cv]
  simp only [List.countP_append, List.countP_cons, List.countP_nil, hd.1, hd.2, hn.1, hn.2]
  simp

theorem frame_counts_field_leaf (name : String) (t : FieldType) (offset size n : Nat)
    (nd : Option StructDescriptor) (mem : Memory) (struct_data indent_level : Nat)
    (hleaf : t ≠ FIELD_TYPE_STRUCT ∨ nd = none) :
    (print_field_value (FieldDescriptor.mk name t offset size n nd) mem struct_data
        indent_level).countP is_header_line =
        composites_visited_field (FieldDescriptor.mk name t offset size n nd) ∧
      (print_field_value (FieldDescriptor.mk name t offset size n nd) mem struct_data
        indent_level).countP is_delimiter_line =
        3 * composites_visited_field (FieldDescriptor.mk name t offset size n nd) := by
  by_cases ht : t = FIELD_TYPE_STRUCT
  · subst ht
    have hnd : nd = none := by
      rcases hleaf with h | h
      · exact absurd rfl h
      · exact h
    subst hnd
    have e : print_field_value
        (FieldDescriptor.mk name FIELD_TYPE_STRUCT offset size n none) mem struct_data
        indent_level = ["<nested struct, no descriptor>\n"] := by
      simp [print_field_value]
    have cv : composites_visited_field
        (FieldDescriptor.mk name FIELD_TYPE_STRUCT offset size n none) = 0 := by
      simp [composites_visited_field]
    rw [e, cv]
    exact ⟨by decide, by decide⟩
  · have hff := frame_free_counts _ (frame_free_print_field_value
      (FieldDescriptor.mk name t offset size n nd) mem struct_data indent_level ht)
    have cv : composites_visited_field (FieldDescriptor.mk name t offset size n nd) = 0 := by
      cases nd <;> simp [composites_visited_field, ht]
    rw [cv]
    exact hff

mutual
theorem frame_counts_struct (d : StructDescriptor) (var_name : Option String) (mem : Memory)
    (struct_data indent_level : Nat) (h : struct_data ≠ 0) :
    (struct_print_internal var_name mem struct_data (some d) indent_level).countP
        is_header_line = composites_visited d ∧
      (struct_print_internal var_name mem struct_data (some d) indent_level).countP
        is_delimiter_line = 3 * composites_visited d :=
  match d with
  | .mk struct_name struct_size fields =>
    frame_counts_struct_step var_name mem struct_data indent_level struct_name struct_size
      fields h (frame_counts_fields fields mem struct_data indent_level h)
theorem frame_counts_fields (fields : List FieldDescriptor) (mem : Memory)
    (struct_data indent_level : Nat) (h : struct_data ≠ 0) :
    (struct_print_fields fields mem struct_data indent_level).countP is_header_line =
        composites_visited_fields fields ∧
      (struct_print_fields fields mem struct_data indent_level).countP is_delimiter_line =
        3 * composites_visited_fields fields :=
  match fields with
  | [] => frame_counts_fields_nil mem struct_data indent_level
  | f :: rest =>
    frame_counts_fields_step f rest mem struct_data indent_level
      (frame_counts_field f mem struct_data indent_level h)
      (frame_counts_fields rest mem struct_data indent_level h)
theorem frame_counts_field (f : FieldDescriptor) (mem : Memory)
    (struct_data indent_level : Nat) (h : struct_data ≠ 0) :
    (print_field_value f mem struct_data indent_level).countP is_header_line =
        composites_visited_field f ∧
      (print_field_value f mem struct_data indent_level).countP is_delimiter_line =
        3 * composites_visited_field f :=
  match f with
  | .mk name FIELD_TYPE_STRUCT offset size n (some d) =>
    frame_counts_field_nested_step name offset size n d mem struct_data indent_level
      (frame_counts_struct d (some "") mem (struct_data + offset) (indent_level + 1)
        (by omega))
  | .mk name FIELD_TYPE_STRUCT offset size n none =>
    frame_counts_field_leaf name FIELD_TYPE_STRUCT offset size n none mem struct_data
      indent_level (Or.inr rfl)
  | .mk name FIELD_TYPE_U8 offset size n nd =>
    frame_counts_field_leaf name _ offset size n nd mem struct_data indent_level
      (Or.inl (by decide))
  | .mk name FIELD_TYPE_U16 offset size n nd =>
    frame_counts_field_leaf name _ offset size n nd mem struct_data indent_level
      (Or.inl (by decide))
  | .mk name FIELD_TYPE_U32 offset size n nd =>
    frame_counts_field_leaf name _ offset size n nd mem struct_data indent_level
      (Or.inl (by decide))
  | .mk name FIELD_TYPE_S8 offset size n nd =>
    frame_counts_field_leaf name _ offset size n nd mem struct_data indent_level
      (Or.inl (by decide))
  | .mk name FIELD_TYPE_S16 offset size n nd =>
    frame_counts_field_leaf name _ offset size n nd mem struct_data indent_level
      (Or.inl (by decide))
  | .mk name FIELD_TYPE_S32 offset size n nd =>
    frame_counts_field_leaf name _ offset size n nd mem struct_data indent_level
      (Or.inl (by decide))
  | .mk name FIELD_TYPE_FLOAT offset size n nd =>
    frame_counts_field_leaf name _ offset size n nd mem struct_data indent_level
      (Or.inl (by decide))
  | .mk name FIELD_TYPE_DOUBLE offset size n nd =>
    frame_counts_field_leaf name _ offset size n nd mem struct_data indent_level
      (Or.inl (by decide))
  | .mk name FIELD_TYPE_ARRAY offset size n nd =>
    frame_counts_field_leaf name _ offset size n nd mem struct_data indent_level
      (Or.inl (by decide))
  | .mk name FIELD_TYPE_STRING offset size n nd =>
    frame_counts_field_leaf name _ offset size n nd mem struct_data indent_level
      (Or.inl (by decide))
  | .mk name (FIELD_TYPE_INVALID code) offset size n nd =>
    frame_counts_field_leaf name _ offset size n nd mem struct_data indent_level
      (Or.inl (by simp))
end

/-- C14: for a non-null value, one call of `struct_print` writes as many header lines (the
`Struct:` line) as composite values are visited: one for the top level plus, recursively,
one for every nested-composite field with a non-null nested descriptor.  Each header is
framed by two delimiter lines, and the delimiter lines beyond those, the trailing ones,
are again as many as the composites visited; the last write is the trailing delimiter of
the top level. -/
theorem C14_headers_and_trailers_per_composite (var_name : Option String) (mem : Memory)
    (struct_data : Nat) (d : StructDescriptor) (h : struct_data ≠ 0) :
    (struct_print var_name mem struct_data (some d)).countP is_header_line =
      composites_visited d ∧
    (struct_print var_name mem struct_data (some d)).countP is_delimiter_line =
      2 * (struct_print var_name mem struct_data (some d)).countP is_header_line +
        composites_visited d ∧
    (struct_print var_name mem struct_data (some d)).getLast? =
      some "========================================\n" := by
  have hc := frame_counts_struct d var_name mem struct_data 0 h
  unfold struct_print
  refine ⟨hc.1, ?_, ?_⟩
  · rw [hc.1, hc.2]
    omega
  · match d with
    | .mk struct_name struct_size fields =>
      rw [struct_print_internal_eq_header var_name mem struct_data struct_name struct_size
        fields 0 h, List.getLast?_append]
      rfl

/-- C14 at a concrete input: a composite with a scalar, two nested composites (one of them
nesting a third) and a nested field without descriptor: four composites are visited, four
header lines and twelve delimiter lines are written. -/
theorem C14_headers_and_trailers_per_composite_witness :
    (1 : Nat) ≠ 0 ∧
    composites_visited (StructDescriptor.mk "Top" 4
      [FieldDescriptor.mk "a" FIELD_TYPE_U8 0 1 0 none,
        FieldDescriptor.mk "p" FIELD_TYPE_STRUCT 1 1 0
          (some (StructDescriptor.mk "P" 1 [FieldDescriptor.mk "x" FIELD_TYPE_U8 0 1 0 none])),
        FieldDescriptor.mk "q" FIELD_TYPE_STRUCT 2 1 0
          (some (StructDescriptor.mk "Q" 1
            [FieldDescriptor.mk "r" FIELD_TYPE_STRUCT 0 1 0
              (some (StructDescriptor.mk "R" 1 []))])),
        FieldDescriptor.mk "z" FIELD_TYPE_STRUCT 3 1 0 none]) = 4 ∧
    (struct_print (some "top") [0, 1, 2, 3, 4] 1 (some (StructDescriptor.mk "Top" 4
      [FieldDescriptor.mk "a" FIELD_TYPE_U8 0 1 0 none,
        FieldDescriptor.mk "p" FIELD_TYPE_STRUCT 1 1 0
          (some (StructDescriptor.mk "P" 1 [FieldDescriptor.mk "x" FIELD_TYPE_U8 0 1 0 none])),
        FieldDescriptor.mk "q" FIELD_TYPE_STRUCT 2 1 0
          (some (StructDescriptor.mk "Q" 1
            [FieldDescriptor.mk "r" FIELD_TYPE_STRUCT 0 1 0
              (some (StructDescriptor.mk "R" 1 []))])),
        FieldDescriptor.mk "z" FIELD_TYPE_STRUCT 3 1 0 none]))).countP is_header_line = 4 := by
  have hv : composites_visited (StructDescriptor.mk "Top" 4
      [FieldDescriptor.mk "a" FIELD_TYPE_U8 0 1 0 none,
        FieldDescriptor.mk "p" FIELD_TYPE_STRUCT 1 1 0
          (some (StructDescriptor.mk "P" 1 [FieldDescriptor.mk "x" FIELD_TYPE_U8 0 1 0 none])),
        FieldDescriptor.mk "q" FIELD_TYPE_STRUCT 2 1 0
          (some (StructDescriptor.mk "Q" 1
            [FieldDescriptor.mk "r" FIELD_TYPE_STRUCT 0 1 0
              (some (StructDescriptor.mk "R" 1 []))])),
        FieldDescriptor.mk "z" FIELD_TYPE_STRUCT 3 1 0 none]) = 4 := by decide
  refine ⟨by decide, hv, ?_⟩
  rw [(C14_headers_and_trailers_per_composite (some "top") [0, 1, 2, 3, 4] 1 _
    (by decide)).1]
  exact hv

/-! ## Signed byte arrays and text-tagged fields (C21, C23) -/

/-- C21 fails as stated: the signed 8-bit array holding `Hi` and a zero byte passes the
text heuristic, and the same bytes tagged `u8` are printed as the quoted text `"Hi"`, but
tagged `s8` they are printed as the numeric list `[72, 105, 0]`. -/
theorem C21_s8_array_is_a_numeric_list :
    is_printable_string [0, 0x48, 0x69, 0] 1 3 = 1 ∧
    render (print_field_value (FieldDescriptor.mk "tag" FIELD_TYPE_U8 0 1 3 none)
      [0, 0x48, 0x69, 0] 1 0) = "\"Hi\"\n" ++ "        └─ Memory: 48 69 00 \n" ∧
    render (print_field_value (FieldDescriptor.mk "tag" FIELD_TYPE_S8 0 1 3 none)
      [0, 0x48, 0x69, 0] 1 0) = "[72, 105, 0]\n" ++ "        └─ Memory: 48 69 00 \n" := by
  refine ⟨by decide, by decide, by decide⟩

theorem u8_array_quoted_iff (name : String) (offset size L : Nat)
    (nd : Option StructDescriptor) (mem : Memory) (base indent_level : Nat) (hL : 0 < L) :
    (value_text (print_field_value (FieldDescriptor.mk name FIELD_TYPE_U8 offset size L nd)
        mem base indent_level)).data.head? = some '"' ↔
      is_printable_string mem (base + offset) L = 1 := by
  rw [print_field_value_array name FIELD_TYPE_U8 offset size L nd mem base indent_level hL
    (by decide)]
  by_cases h1 : is_printable_string mem (base + offset) L = 1
  · rw [print_field_array_text FIELD_TYPE_U8 size L mem (base + offset) indent_level
      (Or.inr ⟨rfl, by omega⟩)]
    simp only [value_text, List.singleton_append, List.headD_cons, h1, iff_true]
    exact quoted_head _
  · have h0 : is_printable_string mem (base + offset) L = 0 := by
      rcases is_printable_string_zero_or_one mem (base + offset) L with h | h
      · exact absurd h h1
      · exact h
    rw [print_field_array_numeric FIELD_TYPE_U8 size L mem (base + offset) indent_level
      (by rintro (h | ⟨_, h⟩)
          · cases h
          · exact h h0)]
    simp only [value_text, List.singleton_append, List.append_assoc, List.cons_append,
      List.headD_cons, h1, iff_false]
    decide

/-- C21 as amended: a byte-array field with signed 8-bit elements and a positive element
count is never rendered as quoted text.  Whatever the text heuristic says of its bytes, it
is written as `[`, the first `min(n,16)` elements as signed decimals separated by `, `,
then `, ...` exactly when `n > 16`, then `]`, followed by its hex dump; its value text is
`[` and does not start with a quote.  An unsigned byte array with the same bytes is
rendered as quoted text if and only if the heuristic accepts them. -/
theorem C21_s8_array_rendering (name : String) (offset size n : Nat)
    (nd : Option StructDescriptor) (mem : Memory) (base indent_level : Nat) (hn : 0 < n) :
    print_field_value (FieldDescriptor.mk name FIELD_TYPE_S8 offset size n nd) mem base
        indent_level =
      ["["] ++
        List.intersperse ", " ((List.range (min n 16)).map
          (fun i => fmt_d (read_s8 mem (base + offset + (i * size) % 2 ^ 64)))) ++
        (if n > 16 then [", ..."] else []) ++ ["]\n"] ++
        print_hex_memory mem (base + offset) ((n * size) % 2 ^ 64) STRUCT_PRINT_HEX_BYTES
          indent_level ∧
    value_text (print_field_value (FieldDescriptor.mk name FIELD_TYPE_S8 offset size n nd)
      mem base indent_level) = "[" ∧
    (value_text (print_field_value (FieldDescriptor.mk name FIELD_TYPE_S8 offset size n nd)
      mem base indent_level)).data.head? ≠ some '"' ∧
    (is_printable_string mem (base + offset) n = 1 →
      print_field_value (FieldDescriptor.mk name FIELD_TYPE_U8 offset size n nd) mem base
          indent_level =
        ["\"" ++ bytes_to_string (c_string_bytes mem (base + offset)) ++ "\"\n"] ++
          print_hex_memory mem (base + offset) n STRUCT_PRINT_HEX_BYTES indent_level) ∧
    ((value_text (print_field_value (FieldDescriptor.mk name FIELD_TYPE_U8 offset size n nd)
        mem base indent_level)).data.head? = some '"' ↔
      is_printable_string mem (base + offset) n = 1) := by
  have hs8 : print_field_value (FieldDescriptor.mk name FIELD_TYPE_S8 offset size n nd) mem
      base indent_level =
      ["["] ++
        List.intersperse ", " ((List.range (min n 16)).map
          (fun i => fmt_d (read_s8 mem (base + offset + (i * size) % 2 ^ 64)))) ++
        (if n > 16 then [", ..."] else []) ++ ["]\n"] ++
        print_hex_memory mem (base + offset) ((n * size) % 2 ^ 64) STRUCT_PRINT_HEX_BYTES
          indent_level := by
    rw [print_field_value_array name FIELD_TYPE_S8 offset size n nd mem base indent_level hn
      (by decide),
      print_field_array_numeric FIELD_TYPE_S8 size n mem (base + offset) indent_level
        (by rintro (h | ⟨h, _⟩) <;> cases h)]
    rfl
  have hvt : value_text (print_field_value
      (FieldDescriptor.mk name FIELD_TYPE_S8 offset size n nd) mem base indent_level) =
      "[" := by
    rw [hs8]
    simp [value_text]
  refine ⟨hs8, hvt, ?_, ?_,
    u8_array_quoted_iff name offset size n nd mem base indent_level hn⟩
  · rw [hvt]
    decide
  · intro h1
    rw [print_field_value_array name FIELD_TYPE_U8 offset size n nd mem base indent_level hn
      (by decide)]
    exact print_field_array_text FIELD_TYPE_U8 size n mem (base + offset) indent_level
      (Or.inr ⟨rfl, by omega⟩)

/-- C21 (amended) at a concrete input: the bytes `Hi` + zero tagged `s8`. -/
theorem C21_s8_array_rendering_witness :
    0 < 3 ∧
    print_field_value (FieldDescriptor.mk "tag" FIELD_TYPE_S8 0 1 3 none)
        [0, 0x48, 0x69, 0] 1 0 =
      ["[", "72", ", ", "105", ", ", "0", "]\n", "        └─ Memory: ", "48 ", "69 ", "00 ",
        "\n"] := by
  refine ⟨by decide, ?_⟩
  rw [(C21_s8_array_rendering "tag" 0 1 3 none [0, 0x48, 0x69, 0] 1 0 (by decide)).1]
  decide

/-- C23: a field with the text tag and a positive element count is always rendered as
quoted text followed by the dump of its `n` bytes, without consulting the heuristic, also
when `is_printable_string` rejects its bytes.  A text field of zero bytes is printed as
`""`, while a `u8` array with the same bytes is printed as a list of zeros. -/
theorem C23_text_tag_always_quoted (name : String) (offset size n : Nat)
    (nd : Option StructDescriptor) (mem : Memory) (base indent_level : Nat) (hn : 0 < n) :
    print_field_value (FieldDescriptor.mk name FIELD_TYPE_STRING offset size n nd) mem base
        indent_level =
      ["\"" ++ bytes_to_string (c_string_bytes mem (base + offset)) ++ "\"\n"] ++
        print_hex_memory mem (base + offset) n STRUCT_PRINT_HEX_BYTES indent_level ∧
    is_printable_string [0, 0, 0, 0, 0] 1 4 = 0 ∧
    render (print_field_value (FieldDescriptor.mk "type" FIELD_TYPE_STRING 0 1 4 none)
      [0, 0, 0, 0, 0] 1 0) = "\"\"\n" ++ "        └─ Memory: 00 00 00 00 \n" ∧
    render (print_field_value (FieldDescriptor.mk "type" FIELD_TYPE_U8 0 1 4 none)
      [0, 0, 0, 0, 0] 1 0) = "[0, 0, 0, 0]\n" ++ "        └─ Memory: 00 00 00 00 \n" := by
  refine ⟨?_, by decide, by decide, by decide⟩
  rw [print_field_value_array name FIELD_TYPE_STRING offset size n nd mem base indent_level hn
    (by decide)]
  exact print_field_array_text FIELD_TYPE_STRING size n mem (base + offset) indent_level
    (Or.inl rfl)

/-- C23 at a concrete input: a text field whose bytes the heuristic rejects (a control
character first) is still printed between quotes. -/
theorem C23_text_tag_always_quoted_witness :
    0 < 3 ∧ is_printable_string [0, 0x07, 0x41, 0] 1 3 = 0 ∧
    print_field_value (FieldDescriptor.mk "type" FIELD_TYPE_STRING 0 1 3 none)
        [0, 0x07, 0x41, 0] 1 0 =
      ["\"" ++ bytes_to_string (c_string_bytes [0, 0x07, 0x41, 0] (1 + 0)) ++ "\"\n"] ++
        print_hex_memory [0, 0x07, 0x41, 0] (1 + 0) 3 STRUCT_PRINT_HEX_BYTES 0 :=
  ⟨by decide, by decide,
    (C23_text_tag_always_quoted "type" 0 1 3 none [0, 0x07, 0x41, 0] 1 0 (by decide)).1⟩

/-! ## The header lines (C25, C27) -/

theorem getElem?_after (pre : Output) (w : String) (post : Output) (k : Nat)
    (hk : pre.length = k) : (pre ++ [w] ++ post)[k]? = some w := by
  subst hk
  rw [List.append_assoc, List.getElem?_append_right (Nat.le_refl _), Nat.sub_self]
  simp

theorem print_indent_length (d : Nat) : (print_indent d).length = 2 * d := by
  rw [print_indent_eq, List.length_replicate]

theorem header_line_at (var_name : Option String) (mem : Memory) (struct_data : Nat)
    (struct_name : String) (struct_size : Nat) (fields : List FieldDescriptor) (D : Nat)
    (h : struct_data ≠ 0) :
    (struct_print_internal var_name mem struct_data
        (some (StructDescriptor.mk struct_name struct_size fields)) D)[4 * D + 1]? =
      some (match var_name with
        | some v => if v ≠ "" then "Struct: " ++ v ++ " [" ++ struct_name ++ "]\n"
                    else "Struct: [" ++ struct_name ++ "]\n"
        | none => "Struct: [" ++ struct_name ++ "]\n") := by
  rw [struct_print_internal_some var_name mem struct_data struct_name struct_size fields D h]
  simp only [List.append_assoc]
  rw [← List.append_assoc (print_indent D), ← List.append_assoc (print_indent D ++ _),
    ← List.append_assoc ((print_indent D ++ _) ++ _)]
  apply getElem?_after
  simp only [List.length_append, List.length_singleton, print_indent_length]
  omega

theorem address_line_at (var_name : Option String) (mem : Memory) (struct_data : Nat)
    (struct_name : String) (struct_size : Nat) (fields : List FieldDescriptor) (D : Nat)
    (h : struct_data ≠ 0) :
    (struct_print_internal var_name mem struct_data
        (some (StructDescriptor.mk struct_name struct_size fields)) D)[6 * D + 2]? =
      some ("Address: 0x" ++ fmt_X 8 (struct_data % 2 ^ 32) ++ "\n") := by
  rw [struct_print_internal_some var_name mem struct_data struct_name struct_size fields D h]
  simp only [List.append_assoc]
  rw [← List.append_assoc (print_indent D), ← List.append_assoc (print_indent D ++ _),
    ← List.append_assoc ((print_indent D ++ _) ++ _),
    ← List.append_assoc (((print_indent D ++ _) ++ _) ++ _),
    ← List.append_assoc ((((print_indent D ++ _) ++ _) ++ _) ++ _)]
  apply getElem?_after
  simp only [List.length_append, List.length_singleton, print_indent_length]
  omega

/-- C25: the header line of a composite (the write after the first delimiter line and the
indentation) is `Struct: [<type_name>]` when the display name is null or empty and
`Struct: <display_name> [<type_name>]` otherwise; the header of a nested composite, which
is printed with an empty display name, shows only its type name. -/
theorem C25_header_naming (var_name : Option String) (mem : Memory) (struct_data : Nat)
    (struct_name : String) (struct_size : Nat) (fields : List FieldDescriptor) (D : Nat)
    (h : struct_data ≠ 0) :
    ((var_name = none ∨ var_name = some "") →
      (struct_print_internal var_name mem struct_data
          (some (StructDescriptor.mk struct_name struct_size fields)) D)[4 * D + 1]? =
        some ("Struct: [" ++ struct_name ++ "]\n")) ∧
    (∀ v : String, var_name = some v → v ≠ "" →
      (struct_print_internal var_name mem struct_data
          (some (StructDescriptor.mk struct_name struct_size fields)) D)[4 * D + 1]? =
        some ("Struct: " ++ v ++ " [" ++ struct_name ++ "]\n")) ∧
    (∀ (name : String) (offset size array_count : Nat) (nested_name : String)
        (nested_size : Nat) (nested_fields : List FieldDescriptor),
      (print_field_value
          (FieldDescriptor.mk name FIELD_TYPE_STRUCT offset size array_count
            (some (StructDescriptor.mk nested_name nested_size nested_fields)))
          mem struct_data D)[4 * (D + 1) + 2]? =
        some ("Struct: [" ++ nested_name ++ "]\n")) := by
  have hl := header_line_at var_name mem struct_data struct_name struct_size fields D h
  refine ⟨?_, ?_, ?_⟩
  · rintro (hv | hv)
    · subst hv
      exact hl
    · subst hv
      rw [hl]
      simp
  · intro v hv hne
    subst hv
    rw [hl]
    simp [hne]
  · intro name offset size array_count nested_name nested_size nested_fields
    have hn := header_line_at (some "") mem (struct_data + offset) nested_name nested_size
      nested_fields (D + 1) (by omega)
    rw [print_field_value_nested]
    have e : 4 * (D + 1) + 2 = (4 * (D + 1) + 1) + 1 := by omega
    rw [e, List.singleton_append, List.getElem?_cons_succ, hn]
    simp

/-- C25 at a concrete input: a display name and a type name. -/
theorem C25_header_naming_witness :
    (1 : Nat) ≠ 0 ∧
    (struct_print_internal (some "cmd") [0, 5] 1
      (some (StructDescriptor.mk "Cmd" 1
        [FieldDescriptor.mk "id" FIELD_TYPE_U8 0 1 0 none])) 0)[4 * 0 + 1]? =
      some "Struct: cmd [Cmd]\n" :=
  ⟨by decide,
    (C25_header_naming (some "cmd") [0, 5] 1 "Cmd" 1
      [FieldDescriptor.mk "id" FIELD_TYPE_U8 0 1 0 none] 0 (by decide)).2.1 "cmd" rfl
      (by decide)⟩

/-- C27: for a non-null base address `a` the address line of the header is `Address: 0x`
followed by `a mod 2^32` in exactly eight upper-case zero-padded hexadecimal digits, so two
base addresses that are congruent modulo `2^32` give the same address line. -/
theorem C27_address_line_truncated (var_name : Option String) (mem : Memory) (a : Nat)
    (struct_name : String) (struct_size : Nat) (fields : List FieldDescriptor) (D : Nat)
    (h : a ≠ 0) :
    (struct_print_internal var_name mem a
        (some (StructDescriptor.mk struct_name struct_size fields)) D)[6 * D + 2]? =
      some ("Address: 0x" ++ fmt_X 8 (a % 2 ^ 32) ++ "\n") ∧
    (fmt_X 8 (a % 2 ^ 32)).length = 8 ∧
    (∀ c, c ∈ (fmt_X 8 (a % 2 ^ 32)).data → c ∈ "0123456789ABCDEF".data) ∧
    parse_digits 16 (fmt_X 8 (a % 2 ^ 32)).data = a % 2 ^ 32 ∧
    (∀ (mem2 : Memory) (a2 : Nat), a2 ≠ 0 → a2 % 2 ^ 32 = a % 2 ^ 32 →
      (struct_print_internal var_name mem2 a2
          (some (StructDescriptor.mk struct_name struct_size fields)) D)[6 * D + 2]? =
        (struct_print_internal var_name mem a
          (some (StructDescriptor.mk struct_name struct_size fields)) D)[6 * D + 2]?) := by
  have ha := address_line_at var_name mem a struct_name struct_size fields D h
  refine ⟨ha, ?_, fun c hc => fmt_X_chars _ _ c hc, parse_fmt_X _ _, ?_⟩
  · apply fmt_X_length 8 _ (by omega)
    have : a % 2 ^ 32 < 2 ^ 32 := Nat.mod_lt _ (by norm_num)
    calc a % 2 ^ 32 < 2 ^ 32 := this
      _ = 16 ^ 8 := by norm_num
  · intro mem2 a2 h2 hmod
    rw [ha, address_line_at var_name mem2 a2 struct_name struct_size fields D h2, hmod]

/-- C27 at a concrete input: the addresses `5` and `2^32 + 5` of a composite without
fields give the same address line. -/
theorem C27_address_line_truncated_witness :
    (4294967301 : Nat) ≠ 0 ∧
    (struct_print_internal (some "v") [] 4294967301
      (some (StructDescriptor.mk "T" 0 [])) 0)[6 * 0 + 2]? = some "Address: 0x00000005\n" ∧
    (struct_print_internal (some "v") [] 5
      (some (StructDescriptor.mk "T" 0 [])) 0)[6 * 0 + 2]? = some "Address: 0x00000005\n" := by
  have h := C27_address_line_truncated (some "v") [] 4294967301 "T" 0 [] 0 (by decide)
  refine ⟨by decide, ?_, ?_⟩
  · rw [h.1]
    decide
  · rw [h.2.2.2.2 [] 5 (by decide) (by decide), h.1]
    decide

/-! ## The heuristic against its one-pass reference (C26) -/

theorem scan_eq_prefix (l : List Nat) (i : Nat) :
    printable_prefix_scan l i =
      if 0 < i + (l.takeWhile (fun b => b ≠ 0)).length ∧
          (l.takeWhile (fun b => b ≠ 0)).all (fun b => decide (0x20 ≤ b ∧ b ≤ 0x7E)) = true
      then 1 else 0 := by
  induction l generalizing i with
  | nil => simp [printable_prefix_scan]
  | cons b rest ih =>
    unfold printable_prefix_scan
    by_cases h0 : b = 0
    · subst h0
      simp
    · simp only [h0, if_false]
      by_cases hp : b < 0x20 ∨ b > 0x7E
      · have hnp : ¬ (0x20 ≤ b ∧ b ≤ 0x7E) := by omega
        simp [hp, h0, hnp]
      · have hpr : 0x20 ≤ b ∧ b ≤ 0x7E := by omega
        simp only [hp, if_false]
        rw [ih (i + 1)]
        have htw : (b :: rest).takeWhile (fun b => b ≠ 0) =
            b :: rest.takeWhile (fun b => b ≠ 0) := by
          simp [List.takeWhile_cons, h0]
        rw [htw]
        simp only [List.length_cons, List.all_cons, hpr, and_self, decide_True, Bool.true_and]
        apply if_congr _ rfl rfl
        constructor
        · rintro ⟨a, c⟩
          exact ⟨by omega, c⟩
        · rintro ⟨a, c⟩
          exact ⟨by omega, c⟩

theorem takeWhile_no_zero (l : List Nat) (h : l.any (fun b => b = 0) = false) :
    l.takeWhile (fun b => b ≠ 0) = l := by
  induction l with
  | nil => rfl
  | cons a t ih =>
    rw [List.any_cons, Bool.or_eq_false_iff] at h
    have ha : a ≠ 0 := by
      intro h0
      rw [h0] at h
      exact absurd h.1 (by decide)
    rw [List.takeWhile_cons]
    simp only [ha, ne_eq, not_false_eq_true, decide_True, if_true]
    rw [ih h.2]

theorem any_unprintable_eq (l : List Nat) :
    l.any (fun b => b < 0x20 ∨ b > 0x7E) =
      !l.all (fun b => decide (0x20 ≤ b ∧ b ≤ 0x7E)) := by
  induction l with
  | nil => rfl
  | cons a t ih =>
    rw [List.any_cons, List.all_cons, ih, Bool.not_and]
    congr 1
    by_cases h : 0x20 ≤ a ∧ a ≤ 0x7E
    · have hn : ¬ (a < 0x20 ∨ a > 0x7E) := by omega
      simp [h, hn]
    · have hn : a < 0x20 ∨ a > 0x7E := by omega
      simp [h, hn]

theorem prefix_condition_eq (p : List Nat) (f : Nat → Bool) :
    (if 0 < 0 + p.length ∧ p.all f = true then 1 else 0) =
      (if (!p.isEmpty && p.all f) = true then (1 : Nat) else 0) := by
  cases p with
  | nil => simp
  | cons a t => simp

theorem heuristic_on_list (l : List Nat) (hl : l ≠ []) :
    (if ¬ (l.any (fun b => b = 0) = true) then
        (if l.any (fun b => b < 0x20 ∨ b > 0x7E) = true then 0 else 1)
      else printable_prefix_scan l 0) = is_printable_string_ref l := by
  unfold is_printable_string_ref
  by_cases hz : l.any (fun b => b = 0) = true
  · rw [if_neg (not_not.2 hz), scan_eq_prefix]
    exact prefix_condition_eq _ _
  · rw [if_pos hz, takeWhile_no_zero l (eq_false_of_ne_true hz), any_unprintable_eq]
    have hne : l.isEmpty = false := by
      cases l with
      | nil => exact absurd rfl hl
      | cons a t => rfl
    rw [hne]
    cases l.all (fun b => decide (0x20 ≤ b ∧ b ≤ 0x7E)) <;> rfl

theorem is_printable_string_eq_ref (mem : Memory) (data L : Nat) :
    is_printable_string mem data L = is_printable_string_ref (read_bytes mem data L) := by
  unfold is_printable_string
  by_cases hL : L = 0
  · subst hL
    rfl
  · rw [if_neg hL]
    apply heuristic_on_list
    intro he
    have : (read_bytes mem data L).length = L := by simp [read_bytes]
    rw [he] at this
    exact hL this.symm

theorem text_rule_with_zero (mem : Memory) (data L k : Nat) (hk : k < L)
    (h0 : read_u8 mem (data + k) = 0) :
    text_rule mem data L ↔
      ∃ k2, k2 ≤ k ∧ read_u8 mem (data + k2) = 0 ∧
        (∀ j, j < k2 → read_u8 mem (data + j) ≠ 0) ∧
        (∀ j, j < k2 → printable (read_u8 mem (data + j))) ∧ k2 ≠ 0 := by
  unfold text_rule
  constructor
  · rintro ⟨_, (⟨hnz, _⟩ | ⟨k2, hk2, hz, hfirst, hpr, hne⟩)⟩
    · exact absurd h0 (hnz k hk)
    · refine ⟨k2, ?_, hz, hfirst, hpr, hne⟩
      by_contra hc
      exact hfirst k (by omega) h0
  · rintro ⟨k2, hk2, hz, hfirst, hpr, hne⟩
    exact ⟨by omega, Or.inr ⟨k2, by omega, hz, hfirst, hpr, hne⟩⟩

theorem heuristic_ignores_bytes_after_zero (mem1 mem2 : Memory) (d1 d2 L1 L2 k : Nat)
    (h1 : k < L1) (h2 : k < L2) (h0 : read_u8 mem1 (d1 + k) = 0)
    (hag : ∀ i, i ≤ k → read_u8 mem1 (d1 + i) = read_u8 mem2 (d2 + i)) :
    is_printable_string mem1 d1 L1 = is_printable_string mem2 d2 L2 := by
  have h0' : read_u8 mem2 (d2 + k) = 0 := by rw [← hag k (Nat.le_refl k)]; exact h0
  have hiff : text_rule mem1 d1 L1 ↔ text_rule mem2 d2 L2 := by
    rw [text_rule_with_zero mem1 d1 L1 k h1 h0, text_rule_with_zero mem2 d2 L2 k h2 h0']
    constructor
    · rintro ⟨k2, hk2, hz, hfirst, hpr, hne⟩
      refine ⟨k2, hk2, ?_, ?_, ?_, hne⟩
      · rw [← hag k2 hk2]; exact hz
      · intro j hj; rw [← hag j (by omega)]; exact hfirst j hj
      · intro j hj; rw [← hag j (by omega)]; exact hpr j hj
    · rintro ⟨k2, hk2, hz, hfirst, hpr, hne⟩
      refine ⟨k2, hk2, ?_, ?_, ?_, hne⟩
      · rw [hag k2 hk2]; exact hz
      · intro j hj; rw [hag j (by omega)]; exact hfirst j hj
      · intro j hj; rw [hag j (by omega)]; exact hpr j hj
  rcases is_printable_string_zero_or_one mem1 d1 L1 with ha | ha <;>
    rcases is_printable_string_zero_or_one mem2 d2 L2 with hb | hb
  · rw [ha, hb]
  · have := (is_printable_string_iff mem2 d2 L2).2
      (hiff.1 ((is_printable_string_iff mem1 d1 L1).1 ha))
    rw [this] at hb
    exact absurd hb (by decide)
  · have := (is_printable_string_iff mem1 d1 L1).2
      (hiff.2 ((is_printable_string_iff mem2 d2 L2).1 hb))
    rw [this] at ha
    exact absurd ha (by decide)
  · rw [ha, hb]

/-- C26: `is_printable_string` equals the one-pass reference (the longest zero-free prefix
is non-empty and holds only bytes of `[0x20, 0x7E]`).  Hence the bytes after the first
zero byte never affect the classification, and a buffer classified as text that holds a
zero byte stays text when it is extended by arbitrary further bytes. -/
theorem C26_heuristic_equals_reference (mem : Memory) (data L : Nat) :
    is_printable_string mem data L = is_printable_string_ref (read_bytes mem data L) ∧
    (∀ (mem2 : Memory) (data2 L2 k : Nat), k < L → k < L2 →
      read_u8 mem (data + k) = 0 →
      (∀ i, i ≤ k → read_u8 mem (data + i) = read_u8 mem2 (data2 + i)) →
      is_printable_string mem data L = is_printable_string mem2 data2 L2) ∧
    (is_printable_string mem data L = 1 →
      (∃ k, k < L ∧ read_u8 mem (data + k) = 0) →
      ∀ (mem2 : Memory) (L2 : Nat), L ≤ L2 →
        (∀ i, i < L → read_u8 mem2 (data + i) = read_u8 mem (data + i)) →
        is_printable_string mem2 data L2 = 1) := by
  refine ⟨is_printable_string_eq_ref mem data L, ?_, ?_⟩
  · intro mem2 data2 L2 k h1 h2 h0 hag
    exact heuristic_ignores_bytes_after_zero mem mem2 data data2 L L2 k h1 h2 h0 hag
  · rintro h1 ⟨k, hk, h0⟩ mem2 L2 hL hag
    rw [← heuristic_ignores_bytes_after_zero mem mem2 data data L L2 k hk (by omega) h0
      (fun i hi => (hag i (by omega)).symm)]
    exact h1

/-- C26 at a concrete input: the text `Hi` with its zero byte, once alone and once followed
by two non-printable bytes. -/
theorem C26_heuristic_equals_reference_witness :
    is_printable_string [0, 0x48, 0x69, 0] 1 3 = 1 ∧
    (∃ k, k < 3 ∧ read_u8 [0, 0x48, 0x69, 0] (1 + k) = 0) ∧
    is_printable_string_ref [0x48, 0x69, 0, 0x01, 0xFF] = 1 ∧
    is_printable_string [0, 0x48, 0x69, 0, 0x01, 0xFF] 1 5 = 1 :=
  ⟨by decide, ⟨2, by decide, by decide⟩, by decide,
    (C26_heuristic_equals_reference [0, 0x48, 0x69, 0] 1 3).2.2 (by decide)
      ⟨2, by decide, by decide⟩ [0, 0x48, 0x69, 0, 0x01, 0xFF] 5 (by decide) (by decide)⟩

/-! ## Wrapping of the hex dump (C24) -/

theorem lines_of_16_ne_nil (fuel : Nat) (l : List String) : lines_of_16 fuel l ≠ [] := by
  cases fuel with
  | zero => simp [lines_of_16]
  | succ f =>
    unfold lines_of_16
    split <;> simp

theorem lines_of_16_flatten (fuel : Nat) (l : List String) :
    (lines_of_16 fuel l).flatten = l := by
  induction fuel generalizing l with
  | zero => simp [lines_of_16]
  | succ f ih =>
    unfold lines_of_16
    split
    · simp
    · rw [List.flatten_cons, ih, List.take_append_drop]

theorem lines_of_16_length_le (fuel : Nat) (l : List String) (hf : l.length ≤ fuel)
    (line : List String) (hl : line ∈ lines_of_16 fuel l) : line.length ≤ 16 := by
  induction fuel generalizing l with
  | zero =>
    simp only [lines_of_16, List.mem_singleton] at hl
    subst hl
    omega
  | succ f ih =>
    unfold lines_of_16 at hl
    split at hl
    · rw [List.mem_singleton] at hl
      subst hl
      assumption
    · rcases List.mem_cons.1 hl with h | h
      · subst h
        rw [List.length_take]
        omega
      · exact ih (l.drop 16) (by rw [List.length_drop]; omega) h

theorem lines_of_16_nonempty (fuel : Nat) (l : List String) (hne : l ≠ [])
    (line : List String) (hl : line ∈ lines_of_16 fuel l) : line ≠ [] := by
  induction fuel generalizing l with
  | zero =>
    simp only [lines_of_16, List.mem_singleton] at hl
    subst hl
    exact hne
  | succ f ih =>
    unfold lines_of_16 at hl
    split at hl
    · rw [List.mem_singleton] at hl
      subst hl
      exact hne
    · rename_i hlen
      rcases List.mem_cons.1 hl with h | h
      · subst h
        intro hc
        have h0 : (l.take 16).length = 0 := by rw [hc]; rfl
        rw [List.length_take] at h0
        omega
      · apply ih (l.drop 16) _ h
        intro hc
        have h0 : (l.drop 16).length = 0 := by rw [hc]; rfl
        rw [List.length_drop] at h0
        omega

theorem intercalate_cons_of_ne_nil (sep x : List String) (rest : List (List String))
    (h : rest ≠ []) :
    List.intercalate sep (x :: rest) = x ++ sep ++ List.intercalate sep rest := by
  cases rest with
  | nil => exact absurd rfl h
  | cons y ys =>
    simp [List.intercalate, List.intersperse]

theorem wrapped_loop_eq_lines (b : Nat → String) (sep : List String) (total : Nat)
    (fuel s n : Nat) (hs : s % 16 = 0) (ht : total = s + n) (hf : n ≤ fuel) :
    (List.range' s n).flatMap (fun i =>
        [b i] ++ (if (i + 1) % 16 = 0 ∧ i + 1 < total then sep else [])) =
      List.intercalate sep (lines_of_16 fuel ((List.range' s n).map b)) := by
  induction fuel generalizing s n with
  | zero =>
    have hn : n = 0 := by omega
    subst hn
    simp [lines_of_16, List.intercalate]
  | succ f ih =>
    unfold lines_of_16
    by_cases hn : n ≤ 16
    · have hlen : ((List.range' s n).map b).length ≤ 16 := by simpa using hn
      rw [if_pos hlen]
      have e : (List.range' s n).flatMap (fun i =>
          [b i] ++ (if (i + 1) % 16 = 0 ∧ i + 1 < total then sep else [])) =
          (List.range' s n).flatMap (fun i => [b i]) := by
        apply List.flatMap_congr
        intro i hi
        rw [List.mem_range'_1] at hi
        have hc : ¬ ((i + 1) % 16 = 0 ∧ i + 1 < total) := by omega
        rw [if_neg hc, List.append_nil]
      rw [e, ← List.map_eq_flatMap]
      simp [List.intercalate]
    · have hlen : ¬ ((List.range' s n).map b).length ≤ 16 := by simpa using hn
      rw [if_neg hlen]
      have h16 : List.range' s 16 = List.range' s 15 ++ [s + 15] :=
        List.range'_1_concat s 15
      have hsplit : List.range' s n = List.range' s 16 ++ List.range' (s + 16) (n - 16) := by
        rw [List.range'_append_1]
        congr 1
        omega
      have hmap : (List.range' s n).map b =
          (List.range' s 16).map b ++ (List.range' (s + 16) (n - 16)).map b := by
        rw [hsplit, List.map_append]
      have htake : ((List.range' s n).map b).take 16 = (List.range' s 16).map b := by
        rw [hmap]
        exact List.take_left' (by simp)
      have hdrop : ((List.range' s n).map b).drop 16 =
          (List.range' (s + 16) (n - 16)).map b := by
        rw [hmap]
        exact List.drop_left' (by simp)
      rw [htake, hdrop, intercalate_cons_of_ne_nil _ _ _ (lines_of_16_ne_nil _ _),
        ← ih (s + 16) (n - 16) (by omega) (by omega) (by omega)]
      rw [hsplit, List.flatMap_append, h16, List.flatMap_append]
      congr 1
      have hfirst : (List.range' s 15).flatMap (fun i =>
          [b i] ++ (if (i + 1) % 16 = 0 ∧ i + 1 < total then sep else [])) =
          (List.range' s 15).map b := by
        rw [List.map_eq_flatMap]
        apply List.flatMap_congr
        intro i hi
        rw [List.mem_range'_1] at hi
        have hc : ¬ ((i + 1) % 16 = 0 ∧ i + 1 < total) := by omega
        rw [if_neg hc, List.append_nil]
      have hlast : ([s + 15] : List Nat).flatMap (fun i =>
          [b i] ++ (if (i + 1) % 16 = 0 ∧ i + 1 < total then sep else [])) =
          [b (s + 15)] ++ sep := by
        have hc : (s + 15 + 1) % 16 = 0 ∧ s + 15 + 1 < total := by omega
        rw [List.flatMap_singleton, if_pos hc]
      rw [hfirst, hlast, List.map_append, List.map_singleton]
      simp only [List.append_assoc]

theorem print_hex_memory_eq_lines (mem : Memory) (data length max_bytes D : Nat) :
    print_hex_memory mem data length max_bytes D =
      print_indent D ++ ["        └─ Memory: "] ++
        List.intercalate (["\n"] ++ print_indent D ++ ["                   "])
          (dump_lines (byte_renderings mem data (min length max_bytes))) ++
        (if length > max_bytes then ["..."] else []) ++ ["\n"] := by
  have hmin : (if length < max_bytes then length else max_bytes) = min length max_bytes := by
    split <;> omega
  unfold print_hex_memory
  simp only [hmin]
  congr 3
  have h := wrapped_loop_eq_lines (fun i => fmt_X 2 (read_u8 mem (data + i)) ++ " ")
    (["\n"] ++ print_indent D ++ ["                   "]) (min length max_bytes)
    (min length max_bytes) 0 (min length max_bytes) (by omega) (by omega) (Nat.le_refl _)
  rw [← List.range_eq_range'] at h
  rw [h]
  unfold dump_lines byte_renderings
  simp

theorem newline_not_in_byte_renderings (mem : Memory) (data m : Nat) :
    "\n" ∉ byte_renderings mem data m := by
  unfold byte_renderings
  intro h
  rw [List.mem_map] at h
  obtain ⟨i, _, hi⟩ := h
  have hb := byte_write_is_rendering (read_u8 mem (data + i)) (read_u8_lt mem (data + i))
  rw [hi] at hb
  exact absurd hb (by decide)

theorem print_hex_memory_one_line (mem : Memory) (data length D : Nat) :
    print_hex_memory mem data length STRUCT_PRINT_HEX_BYTES D =
      print_indent D ++ ["        └─ Memory: "] ++ byte_renderings mem data (min length 16) ++
        (if length > 16 then ["..."] else []) ++ ["\n"] := by
  rw [print_hex_memory_eq_lines]
  unfold STRUCT_PRINT_HEX_BYTES dump_lines
  have hlen : (byte_renderings mem data (min length 16)).length ≤ 16 := by
    simp [byte_renderings]
  have hl : lines_of_16 (byte_renderings mem data (min length 16)).length
      (byte_renderings mem data (min length 16)) =
      [byte_renderings mem data (min length 16)] := by
    cases hk : (byte_renderings mem data (min length 16)).length with
    | zero => rfl
    | succ k =>
      unfold lines_of_16
      rw [if_pos hlen]
  rw [hl]
  simp [List.intercalate]

/-- C24: the hex dump is cut into lines of 16 byte renderings: between the label and the
closing line break the writes are the lines of `dump_lines` joined by a line break with
continuation indentation, where the lines hold all shown byte renderings in order, none
holds more than 16, and none is empty when a byte is shown; equivalently the break comes
after the `k`-th shown byte exactly when `k` is a positive multiple of 16 smaller than the
number of shown bytes.  With `max_bytes = 16`, as for every field, the dump is one line. -/
theorem C24_hex_dump_wraps_at_16 (mem : Memory) (data length max_bytes D : Nat) :
    print_hex_memory mem data length max_bytes D =
      print_indent D ++ ["        └─ Memory: "] ++
        List.intercalate (["\n"] ++ print_indent D ++ ["                   "])
          (dump_lines (byte_renderings mem data (min length max_bytes))) ++
        (if length > max_bytes then ["..."] else []) ++ ["\n"] ∧
    (dump_lines (byte_renderings mem data (min length max_bytes))).flatten =
      byte_renderings mem data (min length max_bytes) ∧
    (∀ line, line ∈ dump_lines (byte_renderings mem data (min length max_bytes)) →
      line.length ≤ 16) ∧
    (0 < min length max_bytes →
      ∀ line, line ∈ dump_lines (byte_renderings mem data (min length max_bytes)) →
        line ≠ []) ∧
    print_hex_memory mem data length max_bytes D =
      print_indent D ++ ["        └─ Memory: "] ++
        (List.range (min length max_bytes)).flatMap (fun i =>
          [fmt_X 2 (read_u8 mem (data + i)) ++ " "] ++
            (if (i + 1) % 16 = 0 ∧ 0 < i + 1 ∧ i + 1 < min length max_bytes then
              ["\n"] ++ print_indent D ++ ["                   "]
            else [])) ++
        (if length > max_bytes then ["..."] else []) ++ ["\n"] ∧
    print_hex_memory mem data length STRUCT_PRINT_HEX_BYTES D =
      print_indent D ++ ["        └─ Memory: "] ++ byte_renderings mem data (min length 16) ++
        (if length > 16 then ["..."] else []) ++ ["\n"] ∧
    (print_hex_memory mem data length STRUCT_PRINT_HEX_BYTES D).count "\n" = 1 := by
  refine ⟨print_hex_memory_eq_lines mem data length max_bytes D,
    lines_of_16_flatten _ _, ?_, ?_, ?_, print_hex_memory_one_line mem data length D, ?_⟩
  · intro line hl
    exact lines_of_16_length_le _ _ (Nat.le_refl _) line hl
  · intro hm line hl
    apply lines_of_16_nonempty _ _ _ line hl
    intro hc
    have h0 : (byte_renderings mem data (min length max_bytes)).length = 0 := by
      rw [hc]; rfl
    simp [byte_renderings] at h0
    omega
  · have hmin : (if length < max_bytes then length else max_bytes) = min length max_bytes := by
      split <;> omega
    unfold print_hex_memory
    simp only [hmin]
    congr 3
    apply List.flatMap_congr
    intro i _
    congr 1
    apply if_congr _ rfl rfl
    constructor
    · rintro ⟨a, c⟩
      exact ⟨a, by omega, c⟩
    · rintro ⟨a, _, c⟩
      exact ⟨a, c⟩
  · rw [print_hex_memory_one_line]
    have h1 : (print_indent D).count "\n" = 0 := by
      rw [List.count_eq_zero]
      intro h
      unfold print_indent at h
      rw [List.mem_replicate] at h
      exact absurd h.2 (by decide)
    have h2 : (byte_renderings mem data (min length 16)).count "\n" = 0 :=
      List.count_eq_zero.2 (newline_not_in_byte_renderings mem data _)
    have h3 : (if length > 16 then ["..."] else []).count "\n" = 0 := by
      split <;> decide
    simp only [List.count_append, h1, h2, h3]
    decide

/-- C24 at a concrete input: a dump of 33 bytes with `max_bytes = 40` is cut into lines of
16, 16 and 1 byte renderings. -/
theorem C24_hex_dump_wraps_at_16_witness :
    render (print_hex_memory (List.replicate 34 0xAB) 1 33 40 0) =
      "        └─ Memory: AB AB AB AB AB AB AB AB AB AB AB AB AB AB AB AB \n" ++
      "                   AB AB AB AB AB AB AB AB AB AB AB AB AB AB AB AB \n" ++
      "                   AB \n" ∧
    (dump_lines (byte_renderings (List.replicate 34 0xAB) 1 (min 33 40))).map List.length =
      [16, 16, 1] := by
  refine ⟨?_, by decide⟩
  rw [(C24_hex_dump_wraps_at_16 (List.replicate 34 0xAB) 1 33 40 0).1]
  set_option maxRecDepth 8000 in decide

/-! ## Termination and recursion depth (C22) -/

theorem header_indents_indent (D run : Nat) (rest : Output) :
    header_indents_from run (print_indent D ++ rest) =
      header_indents_from (run + 2 * D) rest := by
  rw [print_indent_eq]
  generalize 2 * D = k
  induction k generalizing run with
  | zero => rfl
  | succ k ih =>
    rw [List.replicate_succ, List.cons_append, header_indents_from]
    simp only [if_true]
    rw [ih]
    congr 1
    omega

theorem header_indents_plain (run : Nat) (w : String) (rest : Output) (hs : w ≠ " ")
    (hh : is_header_line w = false) :
    header_indents_from run (w :: rest) = header_indents_from 0 rest := by
  rw [header_indents_from]
  simp [hs, hh]

theorem header_indents_header (run : Nat) (w : String) (rest : Output)
    (hh : is_header_line w = true) :
    header_indents_from run (w :: rest) = run :: header_indents_from 0 rest := by
  have hs : w ≠ " " := by
    intro h
    rw [h] at hh
    exact absurd hh (by decide)
  rw [header_indents_from]
  simp [hs, hh]

theorem header_indents_frame_free (out : Output) (h : frame_free out) (run : Nat) :
    header_indents_from run out = [] := by
  induction out generalizing run with
  | nil => rfl
  | cons w rest ih =>
    have hrest : frame_free rest := fun x hx => h x (List.mem_cons_of_mem w hx)
    have hw := (h w (List.mem_cons_self w rest)).1
    rw [header_indents_from]
    by_cases hs : w = " "
    · simp only [hs, if_true]
      exact ih hrest _
    · simp only [hs, if_false, hw]
      exact ih hrest _

theorem header_indents_append_exists (x y : Output) (run : Nat) :
    ∃ r, header_indents_from run (x ++ y) =
      header_indents_from run x ++ header_indents_from r y := by
  induction x generalizing run with
  | nil => exact ⟨run, rfl⟩
  | cons w rest ih =>
    rw [List.cons_append]
    by_cases hs : w = " "
    · obtain ⟨r, hr⟩ := ih (run + 1)
      refine ⟨r, ?_⟩
      rw [header_indents_from, header_indents_from]
      simp only [hs, if_true]
      exact hr
    · obtain ⟨r, hr⟩ := ih 0
      refine ⟨r, ?_⟩
      rw [header_indents_from, header_indents_from]
      by_cases hh : is_header_line w = true
      · simp only [hs, if_false, hh, if_true, List.cons_append]
        rw [hr]
      · simp only [hs, if_false, hh]
        exact hr

theorem header_indents_append_frame_free (x tail : Output) (h : frame_free tail)
    (run : Nat) :
    header_indents_from run (x ++ tail) = header_indents_from run x := by
  obtain ⟨r, hr⟩ := header_indents_append_exists x tail run
  rw [hr, header_indents_frame_free tail h r, List.append_nil]

theorem header_indents_header_free (out : Output)
    (h : ∀ w, w ∈ out → is_header_line w = false) (run : Nat) :
    header_indents_from run out = [] := by
  induction out generalizing run with
  | nil => rfl
  | cons w rest ih =>
    have hrest : ∀ x, x ∈ rest → is_header_line x = false :=
      fun x hx => h x (List.mem_cons_of_mem w hx)
    have hw := h w (List.mem_cons_self w rest)
    rw [header_indents_from]
    by_cases hs : w = " "
    · simp only [hs, if_true]
      exact ih hrest _
    · simp only [hs, if_false, hw]
      exact ih hrest _

theorem header_indents_append_header_free (x tail : Output)
    (h : ∀ w, w ∈ tail → is_header_line w = false) (run : Nat) :
    header_indents_from run (x ++ tail) = header_indents_from run x := by
  obtain ⟨r, hr⟩ := header_indents_append_exists x tail run
  rw [hr, header_indents_header_free tail h r, List.append_nil]

theorem data_head_append (a b : String) (c : Char) (h : a.data.head? = some c) :
    (a ++ b).data.head? = some c := by
  rw [String.data_append]
  cases ha : a.data with
  | nil => rw [ha] at h; simp at h
  | cons x rest =>
    rw [ha] at h
    simpa using h

theorem ne_space_of_head (w : String) (c : Char) (hc : w.data.head? = some c)
    (h : c ≠ ' ') : w ≠ " " := by
  intro hw
  rw [hw] at hc
  have h2 : some ' ' = some c := hc
  exact h (Option.some.inj h2).symm

theorem header_indents_struct_header (var_name : Option String) (struct_data : Nat)
    (struct_name : String) (struct_size D run : Nat) (rest : Output) :
    header_indents_from run
        (struct_header var_name struct_data struct_name struct_size D ++ rest) =
      (2 * D) :: header_indents_from 0 rest := by
  have hs := struct_line_is_header var_name struct_name
  have ha := no_frame_of_plain_head
    ("Address: 0x" ++ fmt_X 8 (struct_data % 2 ^ 32) ++ "\n")
    (plain_head_append _ _ (plain_head_append _ _ ⟨'A', rfl, by decide, by decide⟩))
  have hz := size_line_no_frame (struct_size % 2 ^ 32)
  have hd1 : is_header_line "========================================\n" = false := by decide
  have hd2 : "========================================\n" ≠ " " := by decide
  have ha2 : "Address: 0x" ++ fmt_X 8 (struct_data % 2 ^ 32) ++ "\n" ≠ " " :=
    ne_space_of_head _ 'A' (data_head_append _ _ _ (data_head_append _ _ _ rfl)) (by decide)
  have hz2 : "Size: " ++ fmt_u (struct_size % 2 ^ 32) ++ " bytes\n" ≠ " " :=
    ne_space_of_head _ 'S' (data_head_append _ _ _ (data_head_append _ _ _ rfl)) (by decide)
  unfold struct_header
  simp only [List.append_assoc, List.singleton_append, List.cons_append, List.nil_append]
  rw [header_indents_indent]
  rw [header_indents_plain _ _ _ hd2 hd1]
  rw [header_indents_indent, header_indents_header _ _ _ hs.1, header_indents_indent,
    header_indents_plain _ _ _ ha2 ha.1, header_indents_indent,
    header_indents_plain _ _ _ hz2 hz.1, header_indents_indent,
    header_indents_plain _ _ _ hd2 hd1]
  simp

theorem header_indents_struct_step (var_name : Option String) (mem : Memory)
    (struct_data D : Nat) (struct_name : String) (struct_size : Nat)
    (fields : List FieldDescriptor) (h : struct_data ≠ 0) (run : Nat)
    (hf : ∀ r, header_indents_from r (struct_print_fields fields mem struct_data D) =
      (visit_depths_fields fields D).map (fun x => 2 * x)) :
    header_indents_from run (struct_print_internal var_name mem struct_data
        (some (StructDescriptor.mk struct_name struct_size fields)) D) =
      (visit_depths (StructDescriptor.mk struct_name struct_size fields) D).map
        (fun x => 2 * x) := by
  have hv : visit_depths (StructDescriptor.mk struct_name struct_size fields) D =
      D :: visit_depths_fields fields D := by
    simp [visit_depths]
  have htail : ∀ w, w ∈ print_indent D ++ ["========================================\n"] →
      is_header_line w = false := by
    intro w hw
    rcases List.mem_append.1 hw with h1 | h1
    · exact (frame_free_print_indent D w h1).1
    · rw [List.mem_singleton] at h1
      rw [h1]
      decide
  rw [struct_print_internal_eq_header var_name mem struct_data struct_name struct_size fields
    D h, hv, List.append_assoc, List.append_assoc, header_indents_struct_header,
    header_indents_append_header_free _ _ htail, hf 0]
  rfl

theorem header_indents_fields_step (f : FieldDescriptor) (rest : List FieldDescriptor)
    (mem : Memory) (struct_data D : Nat)
    (hf : ∀ r, header_indents_from r (print_field_value f mem struct_data D) =
      (visit_depths_field f D).map (fun x => 2 * x))
    (hr : ∀ r, header_indents_from r (struct_print_fields rest mem struct_data D) =
      (visit_depths_fields rest D).map (fun x => 2 * x)) (run : Nat) :
    header_indents_from run (struct_print_fields (f :: rest) mem struct_data D) =
      (visit_depths_fields (f :: rest) D).map (fun x => 2 * x) := by
  have hv : visit_depths_fields (f :: rest) D =
      visit_depths_field f D ++ visit_depths_fields rest D := by
    simp [visit_depths_fields]
  have hl := no_frame_of_plain_head ("  [+0x" ++ fmt_X 4 (f.offset % 2 ^ 32) ++ "] ")
    (plain_head_append _ _ (plain_head_append _ _ ⟨' ', rfl, by decide, by decide⟩))
  have hl2 : "  [+0x" ++ fmt_X 4 (f.offset % 2 ^ 32) ++ "] " ≠ " " := by
    intro h
    have h3 := congrArg String.length h
    rw [String.length_append, String.length_append] at h3
    have e1 : "  [+0x".length = 6 := rfl
    have e2 : " ".length = 1 := rfl
    omega
  have hn := name_write_no_frame f.name
  have hn2 : f.name ++ ": " ≠ " " := by
    intro h
    have h3 := congrArg String.length h
    rw [String.length_append] at h3
    have e1 : ": ".length = 2 := rfl
    have e2 : " ".length = 1 := rfl
    omega
  have hsep : ∀ w, w ∈ (if f.type ≠ FIELD_TYPE_STRUCT ∧ 0 < rest.length then ["\n"] else []) →
      is_header_line w = false := by
    intro w hw
    split at hw
    · rw [List.mem_singleton] at hw
      rw [hw]
      decide
    · simp at hw
  rw [struct_print_fields_cons, hv]
  simp only [List.append_assoc, List.singleton_append, List.cons_append, List.nil_append]
  rw [header_indents_indent, header_indents_plain _ _ _ hl2 hl.1,
    header_indents_plain _ _ _ hn2 hn.1]
  obtain ⟨r1, h1⟩ := header_indents_append_exists (print_field_value f mem struct_data D)
    ((if f.type ≠ FIELD_TYPE_STRUCT ∧ 0 < rest.length then ["\n"] else []) ++
      struct_print_fields rest mem struct_data D) 0
  obtain ⟨r2, h2⟩ := header_indents_append_exists
    (if f.type ≠ FIELD_TYPE_STRUCT ∧ 0 < rest.length then ["\n"] else [])
    (struct_print_fields rest mem struct_data D) r1
  rw [h1, h2, header_indents_header_free _ hsep, hf, hr, List.nil_append, List.map_append]

theorem header_indents_fields_nil (mem : Memory) (struct_data D run : Nat) :
    header_indents_from run (struct_print_fields [] mem struct_data D) =
      (visit_depths_fields [] D).map (fun x => 2 * x) := by
  simp [struct_print_fields, visit_depths_fields, header_indents_from]

theorem header_indents_field_nested_step (name : String) (offset size n : Nat)
    (d : StructDescriptor) (mem : Memory) (struct_data D : Nat)
    (hd : ∀ r, header_indents_from r (struct_print_internal (some "") mem
        (struct_data + offset) (some d) (D + 1)) =
      (visit_depths d (D + 1)).map (fun x => 2 * x)) (run : Nat) :
    header_indents_from run (print_field_value
        (FieldDescriptor.mk name FIELD_TYPE_STRUCT offset size n (some d)) mem struct_data D) =
      (visit_depths_field
        (FieldDescriptor.mk name FIELD_TYPE_STRUCT offset size n (some d)) D).map
        (fun x => 2 * x) := by
  have hv : visit_depths_field
      (FieldDescriptor.mk name FIELD_TYPE_STRUCT offset size n (some d)) D =
      visit_depths d (D + 1) := by
    simp [visit_depths_field]
  rw [print_field_value_nested, hv, List.singleton_append,
    header_indents_plain _ _ _ (by decide) (by decide), hd]

theorem header_indents_field_leaf (name : String) (t : FieldType) (offset size n : Nat)
    (nd : Option StructDescriptor) (mem : Memory) (struct_data D : Nat)
    (hleaf : t ≠ FIELD_TYPE_STRUCT ∨ nd = none) (run : Nat) :
    header_indents_from run (print_field_value
        (FieldDescriptor.mk name t offset size n nd) mem struct_data D) =
      (visit_depths_field (FieldDescriptor.mk name t offset size n nd) D).map
        (fun x => 2 * x) := by
  by_cases ht : t = FIELD_TYPE_STRUCT
  · subst ht
    have hnd : nd = none := by
      rcases hleaf with h | h
      · exact absurd rfl h
      · exact h
    subst hnd
    have e : print_field_value
        (FieldDescriptor.mk name FIELD_TYPE_STRUCT offset size n none) mem struct_data D =
        ["<nested struct, no descriptor>\n"] := by
      simp [print_field_value]
    have hv : visit_depths_field
        (FieldDescriptor.mk name FIELD_TYPE_STRUCT offset size n none) D = [] := by
      simp [visit_depths_field]
    rw [e, hv, header_indents_plain _ _ _ (by decide) (by decide)]
    rfl
  · have hv : visit_depths_field (FieldDescriptor.mk name t offset size n nd) D = [] := by
      cases nd <;> simp [visit_depths_field, ht]
    rw [hv]
    apply header_indents_header_free
    intro w hw
    exact (frame_free_print_field_value (FieldDescriptor.mk name t offset size n nd) mem
      struct_data D ht w hw).1

mutual
theorem header_indents_struct (d : StructDescriptor) (var_name : Option String)
    (mem : Memory) (struct_data D : Nat) (h : struct_data ≠ 0) (run : Nat) :
    header_indents_from run (struct_print_internal var_name mem struct_data (some d) D) =
      (visit_depths d D).map (fun x => 2 * x) :=
  match d with
  | .mk struct_name struct_size fields =>
    header_indents_struct_step var_name mem struct_data D struct_name struct_size fields h
      run (fun r => header_indents_fields fields mem struct_data D h r)
theorem header_indents_fields (fields : List FieldDescriptor) (mem : Memory)
    (struct_data D : Nat) (h : struct_data ≠ 0) (run : Nat) :
    header_indents_from run (struct_print_fields fields mem struct_data D) =
      (visit_depths_fields fields D).map (fun x => 2 * x) :=
  match fields with
  | [] => header_indents_fields_nil mem struct_data D run
  | f :: rest =>
    header_indents_fields_step f rest mem struct_data D
      (fun r => header_indents_field f mem struct_data D h r)
      (fun r => header_indents_fields rest mem struct_data D h r) run
theorem header_indents_field (f : FieldDescriptor) (mem : Memory)
    (struct_data D : Nat) (h : struct_data ≠ 0) (run : Nat) :
    header_indents_from run (print_field_value f mem struct_data D) =
      (visit_depths_field f D).map (fun x => 2 * x) :=
  match f with
  | .mk name FIELD_TYPE_STRUCT offset size n (some d) =>
    header_indents_field_nested_step name offset size n d mem struct_data D
      (fun r => header_indents_struct d (some "") mem (struct_data + offset) (D + 1)
        (by omega) r) run
  | .mk name FIELD_TYPE_STRUCT offset size n none =>
    header_indents_field_leaf name FIELD_TYPE_STRUCT offset size n none mem struct_data D
      (Or.inr rfl) run
  | .mk name FIELD_TYPE_U8 offset size n nd =>
    header_indents_field_leaf name _ offset size n nd mem struct_data D (Or.inl (by decide)) run
  | .mk name FIELD_TYPE_U16 offset size n nd =>
    header_indents_field_leaf name _ offset size n nd mem struct_data D (Or.inl (by decide)) run
  | .mk name FIELD_TYPE_U32 offset size n nd =>
    header_indents_field_leaf name _ offset size n nd mem struct_data D (Or.inl (by decide)) run
  | .mk name FIELD_TYPE_S8 offset size n nd =>
    header_indents_field_leaf name _ offset size n nd mem struct_data D (Or.inl (by decide)) run
  | .mk name FIELD_TYPE_S16 offset size n nd =>
    header_indents_field_leaf name _ offset size n nd mem struct_data D (Or.inl (by decide)) run
  | .mk name FIELD_TYPE_S32 offset size n nd =>
    header_indents_field_leaf name _ offset size n nd mem struct_data D (Or.inl (by decide)) run
  | .mk name FIELD_TYPE_FLOAT offset size n nd =>
    header_indents_field_leaf name _ offset size n nd mem struct_data D (Or.inl (by decide)) run
  | .mk name FIELD_TYPE_DOUBLE offset size n nd =>
    header_indents_field_leaf name _ offset size n nd mem struct_data D (Or.inl (by decide)) run
  | .mk name FIELD_TYPE_ARRAY offset size n nd =>
    header_indents_field_leaf name _ offset size n nd mem struct_data D (Or.inl (by decide)) run
  | .mk name FIELD_TYPE_STRING offset size n nd =>
    header_indents_field_leaf name _ offset size n nd mem struct_data D (Or.inl (by decide)) run
  | .mk name (FIELD_TYPE_INVALID code) offset size n nd =>
    header_indents_field_leaf name _ offset size n nd mem struct_data D (Or.inl (by simp)) run
end

theorem visit_depths_struct_step (struct_name : String) (struct_size : Nat)
    (fields : List FieldDescriptor) (level x : Nat)
    (hf : x ∈ visit_depths_fields fields level →
      level + 1 ≤ x ∧ x ≤ level + nesting_depth_fields fields)
    (hx : x ∈ visit_depths (StructDescriptor.mk struct_name struct_size fields) level) :
    level ≤ x ∧ x ≤ level + nesting_depth (StructDescriptor.mk struct_name struct_size fields) := by
  have hv : visit_depths (StructDescriptor.mk struct_name struct_size fields) level =
      level :: visit_depths_fields fields level := by
    simp [visit_depths]
  have hn : nesting_depth (StructDescriptor.mk struct_name struct_size fields) =
      nesting_depth_fields fields := by
    simp [nesting_depth]
  rw [hv, List.mem_cons] at hx
  rw [hn]
  rcases hx with h | h
  · omega
  · have := hf h
    omega

theorem visit_depths_fields_step (f : FieldDescriptor) (rest : List FieldDescriptor)
    (level x : Nat)
    (hf : x ∈ visit_depths_field f level →
      level + 1 ≤ x ∧ x ≤ level + nesting_depth_field f)
    (hr : x ∈ visit_depths_fields rest level →
      level + 1 ≤ x ∧ x ≤ level + nesting_depth_fields rest)
    (hx : x ∈ visit_depths_fields (f :: rest) level) :
    level + 1 ≤ x ∧ x ≤ level + nesting_depth_fields (f :: rest) := by
  have hv : visit_depths_fields (f :: rest) level =
      visit_depths_field f level ++ visit_depths_fields rest level := by
    simp [visit_depths_fields]
  have hn : nesting_depth_fields (f :: rest) =
      max (nesting_depth_field f) (nesting_depth_fields rest) := by
    simp [nesting_depth_fields]
  rw [hv, List.mem_append] at hx
  rw [hn]
  rcases hx with h | h
  · have := hf h
    omega
  · have := hr h
    omega

theorem visit_depths_fields_nil (level x : Nat) (hx : x ∈ visit_depths_fields [] level) :
    level + 1 ≤ x ∧ x ≤ level + nesting_depth_fields [] := by
  simp [visit_depths_fields] at hx

theorem visit_depths_field_nested_step (name : String) (offset size n : Nat)
    (d : StructDescriptor) (level x : Nat)
    (hd : x ∈ visit_depths d (level + 1) →
      level + 1 ≤ x ∧ x ≤ level + 1 + nesting_depth d)
    (hx : x ∈ visit_depths_field
      (FieldDescriptor.mk name FIELD_TYPE_STRUCT offset size n (some d)) level) :
    level + 1 ≤ x ∧ x ≤ level + nesting_depth_field
      (FieldDescriptor.mk name FIELD_TYPE_STRUCT offset size n (some d)) := by
  have hv : visit_depths_field
      (FieldDescriptor.mk name FIELD_TYPE_STRUCT offset size n (some d)) level =
      visit_depths d (level + 1) := by
    simp [visit_depths_field]
  have hn : nesting_depth_field
      (FieldDescriptor.mk name FIELD_TYPE_STRUCT offset size n (some d)) =
      nesting_depth d + 1 := by
    simp [nesting_depth_field]
  rw [hv] at hx
  rw [hn]
  have := hd hx
  omega

theorem visit_depths_field_leaf (name : String) (t : FieldType) (offset size n : Nat)
    (nd : Option StructDescriptor) (level x : Nat)
    (hleaf : t ≠ FIELD_TYPE_STRUCT ∨ nd = none)
    (hx : x ∈ visit_depths_field (FieldDescriptor.mk name t offset size n nd) level) :
    level + 1 ≤ x ∧ x ≤ level + nesting_depth_field
      (FieldDescriptor.mk name t offset size n nd) := by
  have hv : visit_depths_field (FieldDescriptor.mk name t offset size n nd) level = [] := by
    rcases hleaf with h | h
    · cases nd <;> simp [visit_depths_field, h]
    · subst h
      simp [visit_depths_field]
  rw [hv] at hx
  simp at hx

mutual
theorem visit_depths_bound (d : StructDescriptor) (level x : Nat)
    (hx : x ∈ visit_depths d level) : level ≤ x ∧ x ≤ level + nesting_depth d :=
  match d with
  | .mk struct_name struct_size fields =>
    visit_depths_struct_step struct_name struct_size fields level x
      (fun h => visit_depths_fields_bound fields level x h) hx
theorem visit_depths_fields_bound (fields : List FieldDescriptor) (level x : Nat)
    (hx : x ∈ visit_depths_fields fields level) :
    level + 1 ≤ x ∧ x ≤ level + nesting_depth_fields fields :=
  match fields with
  | [] => visit_depths_fields_nil level x hx
  | f :: rest =>
    visit_depths_fields_step f rest level x
      (fun h => visit_depths_field_bound f level x h)
      (fun h => visit_depths_fields_bound rest level x h) hx
theorem visit_depths_field_bound (f : FieldDescriptor) (level x : Nat)
    (hx : x ∈ visit_depths_field f level) :
    level + 1 ≤ x ∧ x ≤ level + nesting_depth_field f :=
  match f with
  | .mk name FIELD_TYPE_STRUCT offset size n (some d) =>
    visit_depths_field_nested_step name offset size n d level x
      (fun h => visit_depths_bound d (level + 1) x h) hx
  | .mk name FIELD_TYPE_STRUCT offset size n none =>
    visit_depths_field_leaf name FIELD_TYPE_STRUCT offset size n none level x (Or.inr rfl) hx
  | .mk name FIELD_TYPE_U8 offset size n nd =>
    visit_depths_field_leaf name _ offset size n nd level x (Or.inl (by decide)) hx
  | .mk name FIELD_TYPE_U16 offset size n nd =>
    visit_depths_field_leaf name _ offset size n nd level x (Or.inl (by decide)) hx
  | .mk name FIELD_TYPE_U32 offset size n nd =>
    visit_depths_field_leaf name _ offset size n nd level x (Or.inl (by decide)) hx
  | .mk name FIELD_TYPE_S8 offset size n nd =>
    visit_depths_field_leaf name _ offset size n nd level x (Or.inl (by decide)) hx
  | .mk name FIELD_TYPE_S16 offset size n nd =>
    visit_depths_field_leaf name _ offset size n nd level x (Or.inl (by decide)) hx
  | .mk name FIELD_TYPE_S32 offset size n nd =>
    visit_depths_field_leaf name _ offset size n nd level x (Or.inl (by decide)) hx
  | .mk name FIELD_TYPE_FLOAT offset size n nd =>
    visit_depths_field_leaf name _ offset size n nd level x (Or.inl (by decide)) hx
  | .mk name FIELD_TYPE_DOUBLE offset size n nd =>
    visit_depths_field_leaf name _ offset size n nd level x (Or.inl (by decide)) hx
  | .mk name FIELD_TYPE_ARRAY offset size n nd =>
    visit_depths_field_leaf name _ offset size n nd level x (Or.inl (by decide)) hx
  | .mk name FIELD_TYPE_STRING offset size n nd =>
    visit_depths_field_leaf name _ offset size n nd level x (Or.inl (by decide)) hx
  | .mk name (FIELD_TYPE_INVALID code) offset size n nd =>
    visit_depths_field_leaf name _ offset size n nd level x (Or.inl (by simp)) hx
end

theorem deepest_struct_step (struct_name : String) (struct_size : Nat)
    (fields : List FieldDescriptor) (level : Nat)
    (hf : 0 < nesting_depth_fields fields →
      level + nesting_depth_fields fields ∈ visit_depths_fields fields level) :
    level + nesting_depth (StructDescriptor.mk struct_name struct_size fields) ∈
      visit_depths (StructDescriptor.mk struct_name struct_size fields) level := by
  have hv : visit_depths (StructDescriptor.mk struct_name struct_size fields) level =
      level :: visit_depths_fields fields level := by
    simp [visit_depths]
  have hn : nesting_depth (StructDescriptor.mk struct_name struct_size fields) =
      nesting_depth_fields fields := by
    simp [nesting_depth]
  rw [hv, hn, List.mem_cons]
  by_cases h0 : nesting_depth_fields fields = 0
  · left
    omega
  · right
    exact hf (by omega)

theorem deepest_fields_step (f : FieldDescriptor) (rest : List FieldDescriptor) (level : Nat)
    (hf : 0 < nesting_depth_field f →
      level + nesting_depth_field f ∈ visit_depths_field f level)
    (hr : 0 < nesting_depth_fields rest →
      level + nesting_depth_fields rest ∈ visit_depths_fields rest level)
    (hpos : 0 < nesting_depth_fields (f :: rest)) :
    level + nesting_depth_fields (f :: rest) ∈ visit_depths_fields (f :: rest) level := by
  have hv : visit_depths_fields (f :: rest) level =
      visit_depths_field f level ++ visit_depths_fields rest level := by
    simp [visit_depths_fields]
  have hn : nesting_depth_fields (f :: rest) =
      max (nesting_depth_field f) (nesting_depth_fields rest) := by
    simp [nesting_depth_fields]
  rw [hn] at hpos
  rw [hv, hn, List.mem_append]
  by_cases hle : nesting_depth_fields rest ≤ nesting_depth_field f
  · left
    rw [Nat.max_eq_left hle] at hpos ⊢
    exact hf hpos
  · right
    have hle2 : nesting_depth_field f ≤ nesting_depth_fields rest := by omega
    rw [Nat.max_eq_right hle2] at hpos ⊢
    exact hr hpos

theorem deepest_fields_nil (level : Nat) (hpos : 0 < nesting_depth_fields []) :
    level + nesting_depth_fields [] ∈ visit_depths_fields [] level := by
  simp [nesting_depth_fields] at hpos

theorem deepest_field_nested_step (name : String) (offset size n : Nat)
    (d : StructDescriptor) (level : Nat)
    (hd : level + 1 + nesting_depth d ∈ visit_depths d (level + 1)) :
    level + nesting_depth_field
        (FieldDescriptor.mk name FIELD_TYPE_STRUCT offset size n (some d)) ∈
      visit_depths_field
        (FieldDescriptor.mk name FIELD_TYPE_STRUCT offset size n (some d)) level := by
  have hv : visit_depths_field
      (FieldDescriptor.mk name FIELD_TYPE_STRUCT offset size n (some d)) level =
      visit_depths d (level + 1) := by
    simp [visit_depths_field]
  have hn : nesting_depth_field
      (FieldDescriptor.mk name FIELD_TYPE_STRUCT offset size n (some d)) =
      nesting_depth d + 1 := by
    simp [nesting_depth_field]
  rw [hv, hn]
  have e : level + (nesting_depth d + 1) = level + 1 + nesting_depth d := by omega
  rw [e]
  exact hd

theorem deepest_field_leaf (name : String) (t : FieldType) (offset size n : Nat)
    (nd : Option StructDescriptor) (level : Nat)
    (hleaf : t ≠ FIELD_TYPE_STRUCT ∨ nd = none)
    (hpos : 0 < nesting_depth_field (FieldDescriptor.mk name t offset size n nd)) :
    level + nesting_depth_field (FieldDescriptor.mk name t offset size n nd) ∈
      visit_depths_field (FieldDescriptor.mk name t offset size n nd) level := by
  have hn : nesting_depth_field (FieldDescriptor.mk name t offset size n nd) = 0 := by
    rcases hleaf with h | h
    · cases nd <;> simp [nesting_depth_field, h]
    · subst h
      simp [nesting_depth_field]
  omega

mutual
theorem deepest_visited (d : StructDescriptor) (level : Nat) :
    level + nesting_depth d ∈ visit_depths d level :=
  match d with
  | .mk struct_name struct_size fields =>
    deepest_struct_step struct_name struct_size fields level
      (fun h => deepest_visited_fields fields level h)
theorem deepest_visited_fields (fields : List FieldDescriptor) (level : Nat)
    (hpos : 0 < nesting_depth_fields fields) :
    level + nesting_depth_fields fields ∈ visit_depths_fields fields level :=
  match fields with
  | [] => deepest_fields_nil level hpos
  | f :: rest =>
    deepest_fields_step f rest level
      (fun h => deepest_visited_field f level h)
      (fun h => deepest_visited_fields rest level h) hpos
theorem deepest_visited_field (f : FieldDescriptor) (level : Nat)
    (hpos : 0 < nesting_depth_field f) :
    level + nesting_depth_field f ∈ visit_depths_field f level :=
  match f with
  | .mk name FIELD_TYPE_STRUCT offset size n (some d) =>
    deepest_field_nested_step name offset size n d level (deepest_visited d (level + 1))
  | .mk name FIELD_TYPE_STRUCT offset size n none =>
    deepest_field_leaf name FIELD_TYPE_STRUCT offset size n none level (Or.inr rfl) hpos
  | .mk name FIELD_TYPE_U8 offset size n nd =>
    deepest_field_leaf name _ offset size n nd level (Or.inl (by decide)) hpos
  | .mk name FIELD_TYPE_U16 offset size n nd =>
    deepest_field_leaf name _ offset size n nd level (Or.inl (by decide)) hpos
  | .mk name FIELD_TYPE_U32 offset size n nd =>
    deepest_field_leaf name _ offset size n nd level (Or.inl (by decide)) hpos
  | .mk name FIELD_TYPE_S8 offset size n nd =>
    deepest_field_leaf name _ offset size n nd level (Or.inl (by decide)) hpos
  | .mk name FIELD_TYPE_S16 offset size n nd =>
    deepest_field_leaf name _ offset size n nd level (Or.inl (by decide)) hpos
  | .mk name FIELD_TYPE_S32 offset size n nd =>
    deepest_field_leaf name _ offset size n nd level (Or.inl (by decide)) hpos
  | .mk name FIELD_TYPE_FLOAT offset size n nd =>
    deepest_field_leaf name _ offset size n nd level (Or.inl (by decide)) hpos
  | .mk name FIELD_TYPE_DOUBLE offset size n nd =>
    deepest_field_leaf name _ offset size n nd level (Or.inl (by decide)) hpos
  | .mk name FIELD_TYPE_ARRAY offset size n nd =>
    deepest_field_leaf name _ offset size n nd level (Or.inl (by decide)) hpos
  | .mk name FIELD_TYPE_STRING offset size n nd =>
    deepest_field_leaf name _ offset size n nd level (Or.inl (by decide)) hpos
  | .mk name (FIELD_TYPE_INVALID code) offset size n nd =>
    deepest_field_leaf name _ offset size n nd level (Or.inl (by simp)) hpos
end

theorem struct_print_last_write (var_name : Option String) (mem : Memory) (struct_data : Nat)
    (d : StructDescriptor) (h : struct_data ≠ 0) :
    (struct_print var_name mem struct_data (some d)).getLast? =
      some "========================================\n" := by
  cases d with
  | mk struct_name struct_size fields =>
    unfold struct_print
    rw [struct_print_internal_eq_header var_name mem struct_data struct_name struct_size
      fields 0 h]
    simp

/-- C22: `struct_print` is a total function of the descriptor tree (the recursion is
structural on the finite tree, so no fuel is involved), and for a non-null value its output
ends with the closing delimiter of the top-level composite. The recursion depth of a call is
its `indent_level`: the header lines found in the output are preceded by exactly
`2 * level` indentation writes for the levels of `visit_depths desc 0`, in order; every such
level is at most `nesting_depth desc`, so no header is indented by more than
`2 * nesting_depth desc` writes, and the level `nesting_depth desc` is reached. -/
theorem C22_recursion_depth_bounded_by_nesting (var_name : Option String) (mem : Memory)
    (struct_data : Nat) (desc : StructDescriptor) (h : struct_data ≠ 0) :
    (struct_print var_name mem struct_data (some desc)).getLast? =
      some "========================================\n" ∧
    header_indents (struct_print var_name mem struct_data (some desc)) =
      (visit_depths desc 0).map (fun x => 2 * x) ∧
    (∀ x, x ∈ visit_depths desc 0 → x ≤ nesting_depth desc) ∧
    (∀ i, i ∈ header_indents (struct_print var_name mem struct_data (some desc)) →
      i ≤ 2 * nesting_depth desc) ∧
    nesting_depth desc ∈ visit_depths desc 0 := by
  have hb : ∀ x, x ∈ visit_depths desc 0 → x ≤ nesting_depth desc := by
    intro x hx
    have := visit_depths_bound desc 0 x hx
    omega
  have he : header_indents (struct_print var_name mem struct_data (some desc)) =
      (visit_depths desc 0).map (fun x => 2 * x) :=
    header_indents_struct desc var_name mem struct_data 0 h 0
  refine ⟨struct_print_last_write var_name mem struct_data desc h, he, hb, ?_, ?_⟩
  · intro i hi
    rw [he, List.mem_map] at hi
    obtain ⟨x, hx, rfl⟩ := hi
    have := hb x hx
    omega
  · have := deepest_visited desc 0
    rw [Nat.zero_add] at this
    exact this

/-- C22 at a concrete input: a composite nesting a composite that nests a third one; the
three headers are indented by 0, 2 and 4 writes and the nesting depth is 2. -/
theorem C22_recursion_depth_bounded_by_nesting_witness :
    (1 : Nat) ≠ 0 ∧
    header_indents (struct_print (some "o") [0, 7, 8, 9] 1
      (some (StructDescriptor.mk "Outer" 3
        [FieldDescriptor.mk "a" FIELD_TYPE_U8 0 1 0 none,
         FieldDescriptor.mk "mid" FIELD_TYPE_STRUCT 1 2 0
          (some (StructDescriptor.mk "Mid" 2
            [FieldDescriptor.mk "b" FIELD_TYPE_U8 0 1 0 none,
             FieldDescriptor.mk "in" FIELD_TYPE_STRUCT 1 1 0
              (some (StructDescriptor.mk "Inner" 1
                [FieldDescriptor.mk "c" FIELD_TYPE_U8 0 1 0 none]))]))]))) =
      (visit_depths
        (StructDescriptor.mk "Outer" 3
        [FieldDescriptor.mk "a" FIELD_TYPE_U8 0 1 0 none,
         FieldDescriptor.mk "mid" FIELD_TYPE_STRUCT 1 2 0
          (some (StructDescriptor.mk "Mid" 2
            [FieldDescriptor.mk "b" FIELD_TYPE_U8 0 1 0 none,
             FieldDescriptor.mk "in" FIELD_TYPE_STRUCT 1 1 0
              (some (StructDescriptor.mk "Inner" 1
                [FieldDescriptor.mk "c" FIELD_TYPE_U8 0 1 0 none]))]))]) 0).map
        (fun x => 2 * x) :=
  ⟨by decide,
    (C22_recursion_depth_bounded_by_nesting (some "o") [0, 7, 8, 9] 1
      (StructDescriptor.mk "Outer" 3
        [FieldDescriptor.mk "a" FIELD_TYPE_U8 0 1 0 none,
         FieldDescriptor.mk "mid" FIELD_TYPE_STRUCT 1 2 0
          (some (StructDescriptor.mk "Mid" 2
            [FieldDescriptor.mk "b" FIELD_TYPE_U8 0 1 0 none,
             FieldDescriptor.mk "in" FIELD_TYPE_STRUCT 1 1 0
              (some (StructDescriptor.mk "Inner" 1
                [FieldDescriptor.mk "c" FIELD_TYPE_U8 0 1 0 none]))]))])
      (by decide)).2.1⟩

/-- The nested example evaluated: headers at indentation 0, 2 and 4, nesting depth 2. -/
theorem nested_example_depths :
    header_indents (struct_print (some "o") [0, 7, 8, 9] 1
      (some (StructDescriptor.mk "Outer" 3
        [FieldDescriptor.mk "a" FIELD_TYPE_U8 0 1 0 none,
         FieldDescriptor.mk "mid" FIELD_TYPE_STRUCT 1 2 0
          (some (StructDescriptor.mk "Mid" 2
            [FieldDescriptor.mk "b" FIELD_TYPE_U8 0 1 0 none,
             FieldDescriptor.mk "in" FIELD_TYPE_STRUCT 1 1 0
              (some (StructDescriptor.mk "Inner" 1
                [FieldDescriptor.mk "c" FIELD_TYPE_U8 0 1 0 none]))]))]))) = [0, 2, 4] ∧
    nesting_depth
      (StructDescriptor.mk "Outer" 3
        [FieldDescriptor.mk "a" FIELD_TYPE_U8 0 1 0 none,
         FieldDescriptor.mk "mid" FIELD_TYPE_STRUCT 1 2 0
          (some (StructDescriptor.mk "Mid" 2
            [FieldDescriptor.mk "b" FIELD_TYPE_U8 0 1 0 none,
             FieldDescriptor.mk "in" FIELD_TYPE_STRUCT 1 1 0
              (some (StructDescriptor.mk "Inner" 1
                [FieldDescriptor.mk "c" FIELD_TYPE_U8 0 1 0 none]))]))]) = 2 := by
  constructor
  · set_option maxRecDepth 8000 in decide
  · decide

end StructPrint
